import Mathlib

/-!
Customer-service chatbot: intent classification and dialogue context.

A shallow embedding of `backend/src/services/advancedProcessor.js`,
`backend/src/services/promptProcessor.js`, and of the parts of
`backend/src/services/ultraAIProcessor.js` and `backend/src/services/geminiAI.js`
that resolve intents, followed by theorems about them.

Modelling conventions.

* A JavaScript string is a list of characters (`Str`); one list element stands
  for one code unit.  `toLowerCase` and `toUpperCase` are the ASCII case maps.
* A JavaScript number is a rational (`ℚ`): arithmetic is exact.  Counters are
  natural numbers.  Where the order of the additions decides the result (the
  symmetry of `tokenOverlap`), the function is embedded a second time over
  IEEE 754 binary64 (`JS.Number`, namespaces `AdvancedProcessor.Binary64` and
  `PromptProcessor.Binary64`), each operation rounding its exact result.
* An object used as a dictionary and a `Map` are association lists of the
  stored entries in insertion order.  A read of the counting dictionaries
  `topIntents` and `intentCounts`, which are created by `{}`, also sees the
  properties inherited from `Object.prototype` (`JS.countUp`, `JS.assign`),
  and so does the read of the weights in the embedding over binary64; the
  exact embedding reads the stored weights only.
* The three data files (`intents.json`, `responseTemplates.json`,
  `demoOrders.json`) are parameters of the functions that read them.
* `Date.now()` and `Math.random()` are inputs of the call that reads them.
-/

set_option autoImplicit false

/-- Text: a list of characters. -/
abbrev Str := List Char

namespace JS

/-- Character class `\w` of a regular expression without the unicode flag. -/
def isWordChar (c : Char) : Bool := c.isAlphanum || c == '_'

/-- Character class `\s`: white space and line terminators. -/
def isSpace (c : Char) : Bool :=
  let n := c.toNat
  n == 9 || n == 10 || n == 11 || n == 12 || n == 13 || n == 32 || n == 160 ||
  n == 5760 || (8192 ≤ n && n ≤ 8202) || n == 8232 || n == 8233 || n == 8239 ||
  n == 8287 || n == 12288 || n == 65279

/-- Method `String.prototype.toLowerCase`. -/
def toLowerCase (s : Str) : Str := s.map Char.toLower

/-- Method `String.prototype.toUpperCase`. -/
def toUpperCase (s : Str) : Str := s.map Char.toUpper

/-- Method `String.prototype.trim`. -/
def trim (s : Str) : Str := ((s.dropWhile isSpace).reverse.dropWhile isSpace).reverse

/-- Method `String.prototype.includes`. -/
def includes : Str → Str → Bool
  | [], kw => kw.isEmpty
  | c :: cs, kw => kw.isPrefixOf (c :: cs) || includes cs kw

/-- Splitting at every character that satisfies `p`; an empty text gives one empty piece. -/
def splitBy (p : Char → Bool) : Str → List Str
  | [] => [[]]
  | c :: cs =>
    if p c then [] :: splitBy p cs
    else match splitBy p cs with
      | [] => [[c]]
      | w :: ws => (c :: w) :: ws

/-- Call `s.split(' ')`. -/
def splitSpace (s : Str) : List Str := splitBy (fun c => c == ' ') s

/-- Call `xs.filter(Boolean)` on a list of strings: the empty strings are dropped. -/
def filterBoolean (xs : List Str) : List Str := xs.filter (fun w => !w.isEmpty)

/-- Call `xs.join(' ')`. -/
def joinSpace : List Str → Str
  | [] => []
  | [x] => x
  | x :: y :: rest => x ++ ' ' :: joinSpace (y :: rest)

/-- Construction `new Set(xs)`: the distinct elements in order of first occurrence. -/
def setOf : List Str → List Str
  | [] => []
  | t :: ts => t :: (setOf ts).filter (fun u => u != t)

/-- Call `s.replace(/[^\w\s]/g, ' ')`. -/
def blankNonWord (s : Str) : Str :=
  s.map (fun c => if isWordChar c || isSpace c then c else ' ')

/-- Call `s.replace(/[^\w\s]/g, '')`. -/
def dropNonWord (s : Str) : Str := s.filter (fun c => isWordChar c || isSpace c)

/-- Call `s.replace(/\s+/g, ' ')`: every maximal run of white space becomes one blank. -/
def collapseSpaces : Str → Str
  | [] => []
  | [c] => if isSpace c then [' '] else [c]
  | c :: d :: cs =>
    if isSpace c then
      (if isSpace d then collapseSpaces (d :: cs) else ' ' :: collapseSpaces (d :: cs))
    else c :: collapseSpaces (d :: cs)

/-- Substitution of the `$` patterns of a replacement text for a pattern
without capture groups: `$$`, `$&`, the text before the match and the text
after it; any other `$` stands for itself. -/
def getSubstitution (matched before after : Str) : Str → Str
  | [] => []
  | [c] => [c]
  | c :: d :: rest =>
    if c == '$' then
      if d == '$' then '$' :: getSubstitution matched before after rest
      else if d == '&' then matched ++ getSubstitution matched before after rest
      else if d.toNat == 96 then before ++ getSubstitution matched before after rest
      else if d.toNat == 39 then after ++ getSubstitution matched before after rest
      else c :: getSubstitution matched before after (d :: rest)
    else c :: getSubstitution matched before after (d :: rest)

/-- Scan of `s.replace(new RegExp(pat, 'g'), repl)` for a literal, non-empty
`pat`: `skip` counts the characters of the current match still to pass over,
`before` is the text already passed, in reverse. -/
def replaceAllGo (pat repl : Str) : Nat → Str → Str → Str
  | _, _, [] => []
  | skip + 1, before, c :: cs => replaceAllGo pat repl skip (c :: before) cs
  | 0, before, c :: cs =>
    if pat.isPrefixOf (c :: cs) then
      getSubstitution pat before.reverse ((c :: cs).drop pat.length) repl ++
        replaceAllGo pat repl (pat.length - 1) (c :: before) cs
    else c :: replaceAllGo pat repl 0 (c :: before) cs

/-- Call `s.replace(new RegExp(pat, 'g'), repl)` for a literal, non-empty `pat`. -/
def replaceAll (pat repl s : Str) : Str := replaceAllGo pat repl 0 [] s

/-- Property read `obj[k]` on a dictionary, and `map.get(k)` on a `Map`. -/
def get {κ α : Type} [DecidableEq κ] (obj : List (κ × α)) (k : κ) : Option α := obj.lookup k

/-- Property write `obj[k] = v` on a dictionary, and `map.set(k, v)` on a `Map`. -/
def set {κ α : Type} [DecidableEq κ] : List (κ × α) → κ → α → List (κ × α)
  | [], k, v => [(k, v)]
  | (k1, v1) :: rest, k, v => if k1 = k then (k, v) :: rest else (k1, v1) :: set rest k v

/-- A value held by a dictionary of counters: a number, or the text that `+`
produces once one of its operands is not a number. -/
inductive Value where
  | number (n : Nat)
  | text (s : Str)
deriving DecidableEq

/-- The text to which `+` converts a built-in function of the given name (the
rendering of V8). -/
def nativeFunction (name : String) : Str :=
  ("function " ++ name ++ "() \x7b [native code] \x7d").toList

/-- The properties that an object created by `{}` inherits from
`Object.prototype`, each with the text to which `+` converts its value: the
built-in functions, and under `__proto__` the prototype object itself. -/
def objectPrototype : List (String × Str) :=
  [("constructor", nativeFunction "Object"),
   ("__defineGetter__", nativeFunction "__defineGetter__"),
   ("__defineSetter__", nativeFunction "__defineSetter__"),
   ("hasOwnProperty", nativeFunction "hasOwnProperty"),
   ("__lookupGetter__", nativeFunction "__lookupGetter__"),
   ("__lookupSetter__", nativeFunction "__lookupSetter__"),
   ("isPrototypeOf", nativeFunction "isPrototypeOf"),
   ("propertyIsEnumerable", nativeFunction "propertyIsEnumerable"),
   ("toString", nativeFunction "toString"),
   ("valueOf", nativeFunction "valueOf"),
   ("__proto__", "[object Object]".toList),
   ("toLocaleString", nativeFunction "toLocaleString")]

/-- Expression `(counts[key] || 0) + 1` on an object `counts` created by `{}`:
a stored number is counted up, a stored or inherited value that is no number
is truthy and `+` appends the text `1` to its text, an absent key gives 1. -/
def countUp (counts : List (String × Value)) (key : String) : Value :=
  match get counts key with
  | some (.number n) => .number (n + 1)
  | some (.text s) => if s.isEmpty then .number 1 else .text (s ++ ['1'])
  | none =>
    match get objectPrototype key with
    | some inherited => .text (inherited ++ ['1'])
    | none => .number 1

/-- Assignment `counts[key] = value` of a number or a text on an object
created by `{}`: under `__proto__` the inherited setter runs, which ignores a
value that is no object, and nothing is stored. -/
def assign (counts : List (String × Value)) (key : String) (value : Value) :
    List (String × Value) :=
  if key = "__proto__" then counts else set counts key value

/-- The sum of the values of a dictionary of counters, `none` where one of
them is not a number. -/
def sumCounts : List (String × Value) → Option Nat
  | [] => some 0
  | (_, .number n) :: rest => (sumCounts rest).map (fun total => n + total)
  | (_, .text _) :: _ => none

end JS

/-! ## Data model -/

/-- One entry of `intents.json`. -/
structure IntentDef where
  name : String
  keywords : List Str
  utterances : List Str
deriving DecidableEq

/-- One entry of `demoOrders.json`. -/
structure Order where
  id : Str
  status : Str
  deliveryDate : Str
  items : List Str
  total : ℚ
deriving DecidableEq

/-- The entries of `responseTemplates.json` that the processors read. -/
structure Templates where
  fallback : Str
  greeting : Str
  order_status : Str
  refund : Str
  complaint : Str
  human_escalation : Str
deriving DecidableEq

/-- One stored turn of a session: `{ message, intent, confidence, timestamp }`. -/
structure Turn where
  message : Str
  intent : String
  confidence : ℚ
  timestamp : Nat
deriving DecidableEq

/-- The profile of a session. -/
structure Profile where
  messageCount : Nat
  topIntents : List (String × JS.Value)
  avgConfidence : ℚ
  firstSeen : Nat
  lastSeen : Nat
deriving DecidableEq

/-- The field `analytics` of the processor. -/
structure Analytics where
  totalMessages : Nat
  intentCounts : List (String × JS.Value)
  avgConfidence : ℚ
  sessionCount : Nat
deriving DecidableEq

/-- The mutable fields of an `AdvancedProcessor`. -/
structure State where
  conversationHistory : List (String × List Turn)
  userProfiles : List (String × Profile)
  analytics : Analytics
deriving DecidableEq

/-- The result of `analyzeSentiment`. -/
structure Sentiment where
  score : Int
  label : String
  confidence : ℚ
deriving DecidableEq

/-- The value `best` of `detectIntentWithContext`. -/
structure Best where
  intent : String
  score : ℚ
  confidence : ℚ
deriving DecidableEq

/-- The field `metadata` of a result of `AdvancedProcessor.process`. -/
structure Metadata where
  sessionId : String
  sentiment : String
  sentimentScore : Int
  processingTime : Nat
  isReturningUser : Bool
  contextUsed : Bool
  order : Option Order
  ticketId : Option Str
  escalationReason : Option String
deriving DecidableEq

/-- The value returned by `AdvancedProcessor.process`. -/
structure Result where
  reply : Str
  intent : String
  confidence : ℚ
  metadata : Metadata
deriving DecidableEq

/-- The values a call of `process` reads from its environment: the clock,
the measured processing time and the six characters drawn for a ticket
(`Math.random().toString(36).substring(2,8).toUpperCase()`). -/
structure Ambient where
  now : Nat
  elapsed : Nat
  random : Str
deriving DecidableEq

/-- The argument `{ sessionId, message }` of `process`. -/
structure Request where
  sessionId : String
  message : Str
deriving DecidableEq

namespace JS

/-- Call `Math.max(...xs)` on a non-empty list (every call site guards the empty list). -/
def mathMax : List ℚ → ℚ
  | [] => 0
  | x :: rest => rest.foldl max x

/-- Length of the longest run of decimal digits at the start of a text. -/
def digitRun (s : Str) : Nat := (s.takeWhile Char.isDigit).length

/-- Leftmost match of a regular expression given by its matcher: `m prev rest`
is the length of the match that starts where `rest` starts, `prev` being the
character just before. The result is `match[0]`. -/
def search (m : Option Char → Str → Option Nat) : Option Char → Str → Option Str
  | prev, [] => (m prev []).map (fun n => List.take n [])
  | prev, c :: cs =>
    match m prev (c :: cs) with
    | some n => some ((c :: cs).take n)
    | none => search m (some c) cs

/-- Matcher of `ORD[0-9]{3,6}` under the flag `i`. -/
def matchOrd (s : Str) : Option Nat :=
  match s with
  | a :: b :: c :: rest =>
    if a.toUpper == 'O' && b.toUpper == 'R' && c.toUpper == 'D' && 3 ≤ digitRun rest
    then some (3 + min 6 (digitRun rest)) else none
  | _ => none

/-- Matcher of `ORDER[0-9]{3,6}` under the flag `i`. -/
def matchOrder (s : Str) : Option Nat :=
  match s with
  | a :: b :: c :: d :: e :: rest =>
    if a.toUpper == 'O' && b.toUpper == 'R' && c.toUpper == 'D' && d.toUpper == 'E' &&
      e.toUpper == 'R' && 3 ≤ digitRun rest
    then some (5 + min 6 (digitRun rest)) else none
  | _ => none

/-- Test that a word character starts the text. -/
def startsWithWord (s : Str) : Bool :=
  match s with
  | [] => false
  | c :: _ => isWordChar c

/-- Matcher of `\b[0-9]{5,8}\b`: no word character before, then the longest
of 8, 7, 6, 5 digits after which a word boundary stands. -/
def matchBare (prev : Option Char) (s : Str) : Option Nat :=
  if (match prev with | some p => isWordChar p | none => false) then none
  else [8, 7, 6, 5].find? (fun k => decide (k ≤ digitRun s) && !startsWithWord (s.drop k))

/-- Matcher of `#[0-9]{4,6}`. -/
def matchHash (s : Str) : Option Nat :=
  match s with
  | h :: rest =>
    if h == '#' && 4 ≤ digitRun rest then some (1 + min 6 (digitRun rest)) else none
  | _ => none

/-- Matcher of `[0-9]{5,}`. -/
def matchDigits5 (s : Str) : Option Nat :=
  if 5 ≤ digitRun s then some (digitRun s) else none

end JS

namespace AdvancedProcessor

/-- Method `normalize(text)`. -/
def normalize (text : Str) : Str :=
  JS.trim (JS.collapseSpaces (JS.blankNonWord (JS.toLowerCase text)))

/-- Expression `weights[token] || 1` on the stored entries of `weights`. -/
def weightOr1 (weights : List (Str × ℚ)) (token : Str) : ℚ :=
  match JS.get weights token with
  | some w => if w = 0 then 1 else w
  | none => 1

/-- Tokens of a text as `tokenOverlap` builds them. -/
def tokens (a : Str) : List Str := JS.setOf (JS.filterBoolean (JS.splitSpace (normalize a)))

/-- Method `tokenOverlap(a, b, weights)` in exact arithmetic; the same method
with the rounding of every addition and of the quotient is
`AdvancedProcessor.Binary64.tokenOverlap`. -/
def tokenOverlap (a b : Str) (weights : List (Str × ℚ)) : ℚ :=
  let toksA := tokens a
  let toksB := tokens b
  if toksA.length = 0 ∨ toksB.length = 0 then 0
  else
    let acc := toksA.foldl
      (fun (acc : ℚ × ℚ) token =>
        if token ∈ toksB then (acc.1 + weightOr1 weights token, acc.2 + weightOr1 weights token)
        else acc)
      (0, 0)
    if acc.2 > 0 then acc.1 / ((max toksA.length toksB.length : Nat) : ℚ) else 0

/-- The word list `positiveWords` of `analyzeSentiment`. -/
def positiveWords : List Str :=
  ["good", "great", "excellent", "happy", "satisfied", "love", "amazing", "perfect",
    "thank"].map String.toList

/-- The word list `negativeWords` of `analyzeSentiment`. -/
def negativeWords : List Str :=
  ["bad", "terrible", "awful", "hate", "angry", "frustrated", "disappointed", "broken",
    "damaged", "problem"].map String.toList

/-- Method `analyzeSentiment(text)`. -/
def analyzeSentiment (text : Str) : Sentiment :=
  let words := JS.splitSpace (normalize text)
  let score : Int := words.foldl
    (fun (score : Int) word =>
      let score := if word ∈ positiveWords then score + 1 else score
      if word ∈ negativeWords then score - 1 else score)
    0
  { score := score
    label := if score > 0 then "positive" else if score < 0 then "negative" else "neutral"
    confidence := min ((score.natAbs : ℚ) / (words.length : ℚ) * 5) 1 }

end AdvancedProcessor

namespace AdvancedProcessor

/-- One row of the matrix of `levenshteinDistance`, after its first cell: `c2`
is the character of `str2` of this row, `diag` and `ups` come from the row
above, `left` is the cell just written. -/
def levRowGo (c2 : Char) : Str → Nat → List Nat → Nat → List Nat
  | c1 :: s1, diag, up :: ups, left =>
    let v := if c2 = c1 then diag else min (min (diag + 1) (left + 1)) (up + 1)
    v :: levRowGo c2 s1 up ups v
  | _, _, _, _ => []

/-- Row `i` of the matrix from row `i - 1`: the first cell is `i`. -/
def levRow (str1 : Str) (above : List Nat) (i : Nat) (c2 : Char) : List Nat :=
  match above with
  | [] => [i]
  | a0 :: as => i :: levRowGo c2 str1 a0 as i

/-- Rows `1 .. str2.length` of the matrix; the result is the last row. -/
def levRows (str1 : Str) : Str → List Nat → Nat → List Nat
  | [], above, _ => above
  | c2 :: s2, above, i => levRows str1 s2 (levRow str1 above i c2) (i + 1)

/-- Method `levenshteinDistance(str1, str2)`: the cell `matrix[str2.length][str1.length]`. -/
def levenshteinDistance (str1 str2 : Str) : Nat :=
  (levRows str1 str2 (List.range (str1.length + 1)) 1).getLastD 0

/-- Method `calculateCharSimilarity(str1, str2)`. -/
def calculateCharSimilarity (str1 str2 : Str) : ℚ :=
  let longer := if str1.length > str2.length then str1 else str2
  let shorter := if str1.length > str2.length then str2 else str1
  if longer.length = 0 then 1
  else ((longer.length : ℚ) - (levenshteinDistance longer shorter : ℚ)) / (longer.length : ℚ)

/-- Method `calculateSemanticSimilarity(text, intentDef)`. -/
def calculateSemanticSimilarity (text : Str) (intentDef : IntentDef) : ℚ :=
  let intentWords := JS.splitSpace (JS.joinSpace intentDef.utterances)
  let textWords := JS.splitSpace text
  let similarity : ℚ := textWords.foldl
    (fun (similarity : ℚ) textWord =>
      intentWords.foldl
        (fun (similarity : ℚ) intentWord =>
          if textWord.length > 2 ∧ intentWord.length > 2
          then similarity + calculateCharSimilarity textWord intentWord
          else similarity)
        similarity)
    0
  similarity /
    (if textWords.length * intentWords.length = 0 then 1
     else ((textWords.length * intentWords.length : Nat) : ℚ))

/-- The object `contextWeights` built from the recent turns. -/
def contextWeights (recentMessages : List Turn) : List (Str × ℚ) :=
  recentMessages.foldl
    (fun w msg =>
      let w :=
        if msg.intent = "order_status" then
          JS.set (JS.set (JS.set w "order".toList 2) "status".toList 2) "track".toList 2
        else w
      if msg.intent = "refund" then
        JS.set (JS.set (JS.set w "refund".toList 2) "return".toList 2) "money".toList 2
      else w)
    []

/-- The combined score of one catalog entry in the loop of `detectIntentWithContext`. -/
def intentScore (weights : List (Str × ℚ)) (text : Str) (intentDef : IntentDef) : ℚ :=
  let keywordScore : ℚ := intentDef.keywords.foldl
    (fun acc kw => if JS.includes text kw then acc + weightOr1 weights kw else acc) 0
  let utteranceScores := intentDef.utterances.map (fun u => tokenOverlap text u weights)
  let maxUtteranceScore := if utteranceScores.length = 0 then 0 else JS.mathMax utteranceScores
  let semanticScore := calculateSemanticSimilarity text intentDef
  keywordScore * (4 / 10) + maxUtteranceScore * (4 / 10) + semanticScore * (2 / 10)

/-- One pass of the loop body of `detectIntentWithContext`. -/
def detectStep (weights : List (Str × ℚ)) (text : Str) (best : Best) (intentDef : IntentDef) :
    Best :=
  let score := intentScore weights text intentDef
  if score > best.score then
    { intent := intentDef.name, score := score, confidence := min (score / 3 + 2 / 10) 1 }
  else best

/-- Method `detectIntentWithContext(message, sessionId)`, reading the catalog
`intents` and the field `conversationHistory`. -/
def detectIntentWithContext (intents : List IntentDef)
    (conversationHistory : List (String × List Turn)) (message : Str) (sessionId : String) :
    Best :=
  let history := (JS.get conversationHistory sessionId).getD []
  let recentMessages := history.drop (history.length - 3)
  let weights := contextWeights recentMessages
  let text := normalize message
  intents.foldl (detectStep weights text) { intent := "fallback", score := 0, confidence := 0 }

/-- Method `findOrderId(text)`: the four patterns in order, the first that matches wins. -/
def findOrderId (text : Str) : Option Str :=
  match JS.search (fun _ s => JS.matchOrd s) none text with
  | some m => some (JS.toUpperCase m)
  | none =>
    match JS.search (fun _ s => JS.matchOrder s) none text with
    | some m => some (JS.toUpperCase m)
    | none =>
      match JS.search JS.matchBare none text with
      | some m => some (JS.toUpperCase m)
      | none =>
        match JS.search (fun _ s => JS.matchHash s) none text with
        | some m => some (JS.toUpperCase m)
        | none => none

end AdvancedProcessor

namespace AdvancedProcessor

/-- The argument `context` of `fillTemplate`; the default `{}` has no sentiment. -/
structure Context where
  sentiment : Option Sentiment
  isReturningUser : Bool
deriving DecidableEq

/-- The regular expression source built for a slot name: the name between braces. -/
def slotPattern (key : Str) : Str := [Char.ofNat 123] ++ key ++ [Char.ofNat 125]

/-- The slot-filling loop of `fillTemplate`: one global replacement per slot, in key order. -/
def fillSlots (template : Str) (slots : List (Str × Str)) : Str :=
  slots.foldl (fun result slot => JS.replaceAll (slotPattern slot.1) slot.2 result) template

/-- Method `fillTemplate(template, slots, context)`. -/
def fillTemplate (template : Str) (slots : List (Str × Str)) (context : Context) : Str :=
  let result := fillSlots template slots
  let result :=
    if (match context.sentiment with | some s => decide (s.label = "negative") | none => false)
    then "I understand you\x27re frustrated. ".toList ++ result else result
  if context.isReturningUser then "Welcome back! ".toList ++ result else result

/-- The part of `updateContext` that writes `conversationHistory`. -/
def pushTurn (conversationHistory : List (String × List Turn)) (sessionId : String)
    (turn : Turn) : List (String × List Turn) :=
  let history := (JS.get conversationHistory sessionId).getD [] ++ [turn]
  JS.set conversationHistory sessionId (if history.length > 10 then history.tail else history)

/-- The part of `updateContext` that writes one profile. -/
def bumpProfile (profile : Profile) (intent : String) (confidence : ℚ) (now : Nat) : Profile :=
  { profile with
    messageCount := profile.messageCount + 1
    topIntents := JS.assign profile.topIntents intent (JS.countUp profile.topIntents intent)
    avgConfidence := (profile.avgConfidence + confidence) / 2
    lastSeen := now }

/-- The part of `updateContext` that writes `userProfiles`. -/
def touchProfile (userProfiles : List (String × Profile)) (sessionId : String)
    (intent : String) (confidence : ℚ) (now : Nat) : List (String × Profile) :=
  let profile := (JS.get userProfiles sessionId).getD
    { messageCount := 0, topIntents := [], avgConfidence := 0, firstSeen := now, lastSeen := now }
  JS.set userProfiles sessionId (bumpProfile profile intent confidence now)

/-- Method `updateContext(sessionId, message, intent, confidence)`. -/
def updateContext (st : State) (sessionId : String) (message : Str) (intent : String)
    (confidence : ℚ) (now : Nat) : State :=
  { conversationHistory := pushTurn st.conversationHistory sessionId
      { message := message, intent := intent, confidence := confidence, timestamp := now }
    userProfiles := touchProfile st.userProfiles sessionId intent confidence now
    analytics :=
      { totalMessages := st.analytics.totalMessages + 1
        intentCounts := JS.assign st.analytics.intentCounts intent
          (JS.countUp st.analytics.intentCounts intent)
        avgConfidence := (st.analytics.avgConfidence + confidence) / 2
        sessionCount :=
          if (JS.get st.conversationHistory sessionId).isSome then st.analytics.sessionCount
          else st.analytics.sessionCount + 1 } }

/-- The state of a processor just constructed. -/
def fresh : State :=
  { conversationHistory := []
    userProfiles := []
    analytics := { totalMessages := 0, intentCounts := [], avgConfidence := 0, sessionCount := 0 } }

end AdvancedProcessor

namespace AdvancedProcessor

/-- The reply, the confidence and the entity fields of the metadata chosen by
the `switch` of `process`. -/
structure Composed where
  reply : Str
  confidence : ℚ
  order : Option Order
  ticketId : Option Str
  escalationReason : Option String
deriving DecidableEq

/-- The `switch (intentResult.intent)` of `process`. -/
def compose (templates : Templates) (demoOrders : List Order) (intentResult : Best)
    (orderId : Option Str) (sentiment : Sentiment) (context : Context) (random : Str) :
    Composed :=
  if intentResult.intent = "greeting" then
    { reply := if context.isReturningUser then "Welcome back! How can I help you today?".toList
        else templates.greeting
      confidence := intentResult.confidence, order := none, ticketId := none
      escalationReason := none }
  else if intentResult.intent = "order_status" then
    match orderId with
    | some orderId =>
      match demoOrders.find? (fun o => decide (o.id = orderId)) with
      | some order =>
        { reply := fillTemplate templates.order_status
            [("orderId".toList, order.id), ("status".toList, order.status),
              ("deliveryDate".toList, order.deliveryDate)] context
          confidence := max intentResult.confidence (9 / 10), order := some order
          ticketId := none, escalationReason := none }
      | none =>
        { reply := "I couldn\x27t find order ".toList ++ orderId ++
            ". Please verify the order ID or try asking without it.".toList
          confidence := 6 / 10, order := none, ticketId := none, escalationReason := none }
    | none =>
      { reply := ("I\x27d be happy to check your order status! " ++
          "Please provide your order ID (e.g., ORD1001).").toList
        confidence := 7 / 10, order := none, ticketId := none, escalationReason := none }
  else if intentResult.intent = "refund" then
    { reply := fillTemplate templates.refund
        [("orderId".toList, orderId.getD "your order".toList)] context
      confidence := intentResult.confidence, order := none, ticketId := none
      escalationReason := none }
  else if intentResult.intent = "complaint" then
    { reply := if sentiment.label = "negative"
        then "I sincerely apologize for the trouble you\x27re experiencing. ".toList ++
          templates.complaint
        else templates.complaint
      confidence := intentResult.confidence, order := none, ticketId := none
      escalationReason := none }
  else if intentResult.intent = "human_escalation" then
    let ticketId := "TCK-".toList ++ random
    { reply := fillTemplate templates.human_escalation [("ticketId".toList, ticketId)] context
      confidence := 95 / 100, order := none, ticketId := some ticketId
      escalationReason := some
        (if sentiment.label = "negative" then "customer_frustration" else "general_request") }
  else
    { reply := if sentiment.label = "negative"
        then ("I understand you\x27re having an issue. " ++
          "Let me connect you with a human agent who can better assist you.").toList
        else templates.fallback
      confidence := min intentResult.confidence (4 / 10), order := none, ticketId := none
      escalationReason := none }

/-- Method `process({ sessionId, message })`: the returned value and the
state it leaves. The first value of `reply` (the fallback template or a fixed
sentence) is overwritten by every branch of the `switch` and is not kept. -/
def process (intents : List IntentDef) (templates : Templates) (demoOrders : List Order)
    (st : State) (req : Request) (amb : Ambient) : Result × State :=
  let sentiment := analyzeSentiment req.message
  let intentResult := detectIntentWithContext intents st.conversationHistory req.message
    req.sessionId
  let orderId := findOrderId req.message
  let isReturningUser :=
    match JS.get st.userProfiles req.sessionId with
    | some userProfile => decide (userProfile.messageCount > 1)
    | none => false
  let context : Context := { sentiment := some sentiment, isReturningUser := isReturningUser }
  let c := compose templates demoOrders intentResult orderId sentiment context amb.random
  let st1 := updateContext st req.sessionId req.message intentResult.intent c.confidence amb.now
  ({ reply := c.reply
     intent := intentResult.intent
     confidence := c.confidence
     metadata :=
      { sessionId := req.sessionId
        sentiment := sentiment.label
        sentimentScore := sentiment.score
        processingTime := amb.elapsed
        isReturningUser := isReturningUser
        contextUsed := isReturningUser
        order := c.order
        ticketId := c.ticketId
        escalationReason := c.escalationReason } }, st1)

/-- A sequence of calls of `process` on one processor: the results in order
and the final state. -/
def processAll (intents : List IntentDef) (templates : Templates) (demoOrders : List Order) :
    State → List (Request × Ambient) → List Result × State
  | st, [] => ([], st)
  | st, (req, amb) :: rest =>
    let step := process intents templates demoOrders st req amb
    let tail := processAll intents templates demoOrders step.2 rest
    (step.1 :: tail.1, tail.2)

end AdvancedProcessor

namespace PromptProcessor

/-- Function `normalize(s)`. -/
def normalize (s : Str) : Str := JS.trim (JS.dropNonWord (JS.toLowerCase s))

/-- Call `s.split(/\s+/)`: splitting at every maximal run of white space. -/
def splitWhitespace (s : Str) : List Str := JS.splitSpace (JS.collapseSpaces s)

/-- Tokens of a text as `tokenOverlap` builds them. -/
def tokens (a : Str) : List Str := JS.setOf (JS.filterBoolean (splitWhitespace (normalize a)))

/-- Function `tokenOverlap(a, b)`. -/
def tokenOverlap (a b : Str) : ℚ :=
  let toksA := tokens a
  let toksB := tokens b
  if toksA.length = 0 ∨ toksB.length = 0 then 0
  else
    let common : Nat := toksA.foldl (fun common t => if t ∈ toksB then common + 1 else common) 0
    (common : ℚ) / ((max toksA.length toksB.length : Nat) : ℚ)

/-- Matcher of `ORD[0-9]{3,6}|[0-9]{5,}` under the flag `i`: the first alternative first. -/
def matchOrderId (s : Str) : Option Nat :=
  match JS.matchOrd s with
  | some n => some n
  | none => JS.matchDigits5 s

/-- Function `findOrderId(text)`. -/
def findOrderId (text : Str) : Option Str :=
  (JS.search (fun _ s => matchOrderId s) none text).map JS.toUpperCase

/-- Function `fillTemplate(template, slots)`. -/
def fillTemplate (template : Str) (slots : List (Str × Str)) : Str :=
  slots.foldl
    (fun out slot => JS.replaceAll ([Char.ofNat 123] ++ slot.1 ++ [Char.ofNat 125]) slot.2 out)
    template

/-- The value `best` of `process`. -/
structure Best where
  intent : String
  score : ℚ
deriving DecidableEq

/-- The total score of one catalog entry in the first loop of `process`. -/
def totalScore (text : Str) (it : IntentDef) : ℚ :=
  let kwScore : Nat := it.keywords.foldl
    (fun acc kw => if kw.isEmpty then acc else acc + (if JS.includes text kw then 1 else 0)) 0
  let utteranceScores := it.utterances.map (fun u => tokenOverlap text u)
  let utterMax := if utteranceScores.length = 0 then 0 else JS.mathMax utteranceScores
  (kwScore : ℚ) + utterMax

/-- The first loop of `process`: keywords and utterance overlap. -/
def firstPass (intents : List IntentDef) (text : Str) : Best :=
  intents.foldl
    (fun best it =>
      if totalScore text it > best.score then { intent := it.name, score := totalScore text it }
      else best)
    { intent := "fallback", score := 0 }

/-- The second loop of `process`: overlap with the joined utterances. -/
def secondPass (intents : List IntentDef) (text : Str) (best : Best) : Best :=
  intents.foldl
    (fun best it =>
      if tokenOverlap text (JS.joinSpace it.utterances) > best.score
      then { intent := it.name, score := tokenOverlap text (JS.joinSpace it.utterances) }
      else best)
    best

/-- The intent resolution of `process`: the first loop, then the second when the score is zero. -/
def resolve (intents : List IntentDef) (text : Str) : Best :=
  let best := firstPass intents text
  if best.score = 0 then secondPass intents text best else best

/-- The field `metadata` of a result of `process`. -/
structure Metadata where
  sessionId : String
  order : Option Order
  ticketId : Option Str
deriving DecidableEq

/-- The value returned by `process`. -/
structure Result where
  reply : Str
  intent : String
  confidence : ℚ
  metadata : Metadata
deriving DecidableEq

/-- Function `process({ sessionId, message })`; `random` is the text drawn for
a ticket. The first value of `reply` is overwritten by every branch and is not
kept; the two `order_status` branches are one test of the intent and, inside
it, one of `orderId`. -/
def process (intents : List IntentDef) (templates : Templates) (demoOrders : List Order)
    (req : Request) (random : Str) : Result :=
  let text := normalize req.message
  let best := resolve intents text
  let confidence : ℚ := min 1 (best.score / 2 + 1 / 10)
  let orderId := findOrderId req.message
  let plain (reply : Str) (confidence : ℚ) : Result :=
    { reply := reply, intent := best.intent, confidence := confidence
      metadata := { sessionId := req.sessionId, order := none, ticketId := none } }
  if best.intent = "order_status" then
    match orderId with
    | some orderId =>
      match demoOrders.find? (fun o => decide (o.id = orderId)) with
      | some order =>
        { reply := fillTemplate templates.order_status
            [("orderId".toList, order.id), ("status".toList, order.status),
              ("deliveryDate".toList, order.deliveryDate)]
          intent := best.intent
          confidence := max confidence (8 / 10)
          metadata := { sessionId := req.sessionId, order := some order, ticketId := none } }
      | none =>
        plain ("I couldn\x27t find order ".toList ++ orderId ++
          ". Please check the order id or ask without id.".toList) (5 / 10)
    | none =>
      plain "Please share your order id (e.g., ORD1001) so I can check the status.".toList
        confidence
  else if best.intent = "refund" then
    plain (fillTemplate templates.refund
      [("orderId".toList, orderId.getD ([Char.ofNat 123] ++ "orderId".toList ++ [Char.ofNat 125]))])
      confidence
  else if best.intent = "greeting" then plain templates.greeting confidence
  else if best.intent = "complaint" then plain templates.complaint confidence
  else if best.intent = "human_escalation" then
    { reply := fillTemplate templates.human_escalation [("ticketId".toList, "TCK-".toList ++ random)]
      intent := best.intent
      confidence := 9 / 10
      metadata := { sessionId := req.sessionId, order := none
                    ticketId := some ("TCK-".toList ++ random) } }
  else if best.intent = "thanks" then
    plain "You\x27re welcome! Anything else I can help with?".toList confidence
  else plain templates.fallback (min confidence (4 / 10))

end PromptProcessor

/-! ## Sequences of calls -/

/-- The arguments of one call of `updateContext`, with the clock value it reads. -/
structure Call where
  sessionId : String
  message : Str
  intent : String
  confidence : ℚ
  now : Nat
deriving DecidableEq

namespace AdvancedProcessor

/-- A sequence of calls of `updateContext` on one processor. -/
def runUpdates (st : State) (calls : List Call) : State :=
  calls.foldl (fun st c => updateContext st c.sessionId c.message c.intent c.confidence c.now) st

/-- The calls made for one session, in order. -/
def callsFor (sessionId : String) (calls : List Call) : List Call :=
  calls.filter (fun c => decide (c.sessionId = sessionId))

/-- The turn that a call stores. -/
def turnOf (c : Call) : Turn :=
  { message := c.message, intent := c.intent, confidence := c.confidence, timestamp := c.now }

/-- The recurrence of the running average: `avg <- (avg + c) / 2`, started at 0. -/
def runningAverage (confidences : List ℚ) : ℚ :=
  confidences.foldl (fun avg c => (avg + c) / 2) 0

/-- The closed form of the running average of `c_1 .. c_n`: the sum of `c_i / 2^(n-i+1)`. -/
def weightedSum (confidences : List ℚ) : ℚ :=
  ∑ i in Finset.range confidences.length,
    confidences.getD i 0 / 2 ^ (confidences.length - i)

end AdvancedProcessor

/-! ## Specification-side notions -/

/-- A text that is `ORD` in any letter case followed by 3 to 6 decimal digits.
Letters are compared after upper-casing, as the flag `i` does. -/
def isOrdCode (m : Str) : Bool :=
  match m with
  | a :: b :: c :: ds =>
    a.toUpper == 'O' && b.toUpper == 'R' && c.toUpper == 'D' &&
      decide (3 ≤ ds.length) && decide (ds.length ≤ 6) && ds.all Char.isDigit
  | _ => false

namespace AdvancedProcessor

/-- The combined score that `detectIntentWithContext` computes for a catalog
entry, for a message in a session with the stored histories `hist`. -/
def combinedScore (hist : List (String × List Turn)) (message : Str) (sessionId : String)
    (intentDef : IntentDef) : ℚ :=
  intentScore
    (contextWeights (((JS.get hist sessionId).getD []).drop
      (((JS.get hist sessionId).getD []).length - 3)))
    (normalize message) intentDef

end AdvancedProcessor

/-- A small catalog for concrete runs: a greeting entry, a second entry with
the same keyword, and an order-status entry. -/
def sampleCatalog : List IntentDef :=
  [{ name := "greeting", keywords := ["hello".toList, "hi".toList],
     utterances := ["hello there".toList, "good morning".toList] },
   { name := "salutation", keywords := ["hello".toList, "hi".toList],
     utterances := ["hello there".toList, "good morning".toList] },
   { name := "order_status", keywords := ["order".toList, "track".toList],
     utterances := ["where is my order".toList] }]

/-- A template table for concrete runs. -/
def sampleTemplates : Templates :=
  { fallback := "Sorry, I did not get that.".toList
    greeting := "Hello! How can I help?".toList
    order_status := "Order \x7borderId\x7d is \x7bstatus\x7d, due \x7bdeliveryDate\x7d.".toList
    refund := "Refund started for \x7borderId\x7d.".toList
    complaint := "We are sorry to hear that.".toList
    human_escalation := "Ticket \x7bticketId\x7d was opened.".toList }

/-- An order catalog for concrete runs. -/
def sampleOrders : List Order :=
  [{ id := "ORD1001".toList, status := "Shipped".toList, deliveryDate := "2025-10-20".toList
     items := ["Widget".toList], total := 25 }]

namespace AdvancedProcessor

/-- The invariant of the loop of `detectIntentWithContext`. -/
def BestOk (b : Best) : Prop := 0 ≤ b.score ∧ 0 ≤ b.confidence ∧ b.confidence ≤ 1

end AdvancedProcessor

namespace JS

/-- The non-empty pieces of a text between white space. -/
def words (s : Str) : List Str := filterBoolean (splitBy isSpace s)

end JS

/-- The shape of the identifiers that the `findOrderId` functions return: the
first character is `O`, `#` or a digit, and no character is `$` or an opening brace. -/
def OrderIdShape (oid : Str) : Prop :=
  (∃ h t, oid = h :: t ∧ (h = 'O' ∨ h = '#' ∨ h.isDigit = true)) ∧
  ∀ c ∈ oid, c ≠ '$' ∧ c ≠ Char.ofNat 123

namespace AdvancedProcessor

/-- The phrases that `fillTemplate` puts before the filled template: the
welcome for a returning user first, then the phrase for a negative sentiment. -/
def replyPrefix (context : Context) : Str :=
  (if context.isReturningUser then "Welcome back! ".toList else []) ++
  (if (match context.sentiment with | some s => decide (s.label = "negative") | none => false)
   then "I understand you\x27re frustrated. ".toList else [])

end AdvancedProcessor

/-- An order catalog for concrete runs whose status text is itself the slot
of the delivery date. -/
def nestedOrders : List Order :=
  [{ id := "ORD1001".toList, status := "\x7bdeliveryDate\x7d".toList
     deliveryDate := "2025-10-20".toList, items := ["Widget".toList], total := 25 }]

/-- The sample catalog extended by an escalation entry and a thanks entry. -/
def escalationCatalog : List IntentDef :=
  sampleCatalog ++
  [{ name := "human_escalation", keywords := ["human".toList, "agent".toList],
     utterances := ["speak to a human".toList] },
   { name := "thanks", keywords := ["thanks".toList, "thank you".toList],
     utterances := ["thanks a lot".toList] }]

namespace AdvancedProcessor

/-- The sum of the weights of the tokens that two token sets share. -/
def sharedWeight (toksA toksB : List Str) (weights : List (Str × ℚ)) : ℚ :=
  ((toksA.filter (fun t => decide (t ∈ toksB))).map (weightOr1 weights)).sum

end AdvancedProcessor

/-- The Levenshtein edit distance by the standard recursive definition: the
least number of single-character deletions, insertions and substitutions,
each of cost 1, that turn `s` into `t`. -/
def editDistance : Str → Str → Nat
  | [], t => t.length
  | a :: s, [] => (a :: s).length
  | a :: s, b :: t =>
    min (editDistance s (b :: t) + 1)
      (min (editDistance (a :: s) t + 1) (editDistance s t + (if a = b then 0 else 1)))
termination_by s t => s.length + t.length

namespace AdvancedProcessor

/-- The cells of the row of the matrix that belongs to the part of `str2`
read so far (`p2r`, reversed), after the part of `str1` read so far (`p1r`,
reversed), as distances by the recursive definition. -/
def cellsFrom (p2r : Str) : Str → Str → List Nat
  | _, [] => []
  | p1r, c :: rest => editDistance p2r (c :: p1r) :: cellsFrom p2r (c :: p1r) rest

end AdvancedProcessor

namespace JS

/-- A text in which every white-space character is a blank and no two
white-space characters are adjacent. -/
def tidy : Str → Bool
  | [] => true
  | [c] => !isSpace c || c == ' '
  | c :: d :: cs => (!isSpace c || (c == ' ' && !isSpace d)) && tidy (d :: cs)

end JS

namespace UltraAIProcessor

/-- The field `emotionPatterns`: the emotions in the order of the object, each with its keywords. -/
def emotionPatterns : List (String × List Str) :=
  [("angry", ["angry", "furious", "mad", "frustrated", "annoyed", "upset"].map String.toList),
   ("sad", ["sad", "disappointed", "unhappy", "depressed", "down"].map String.toList),
   ("happy", ["happy", "great", "awesome", "excellent", "wonderful", "amazing"].map String.toList),
   ("confused",
    ["confused", "lost", "unclear", "don\x27t understand", "help"].map String.toList),
   ("urgent",
    ["urgent", "asap", "immediately", "emergency", "critical", "now"].map String.toList)]

/-- Expression `text.toLowerCase().split(/\s+/)`. -/
def wordsOf (text : Str) : List Str := PromptProcessor.splitWhitespace (JS.toLowerCase text)

/-- The score of one emotion in `analyzeEmotion`: the number of its keywords
that some word of the text includes. -/
def emotionScore (words : List Str) (keywords : List Str) : Nat :=
  keywords.foldl
    (fun score keyword =>
      if words.any (fun word => JS.includes word keyword) then score + 1 else score)
    0

/-- The object `emotions` of `analyzeEmotion`: the score of every emotion. -/
def emotionHits (text : Str) : List (String × Nat) :=
  emotionPatterns.map (fun e => (e.1, emotionScore (wordsOf text) e.2))

/-- The value `totalScore` of `analyzeEmotion`. -/
def totalScore (text : Str) : Nat := ((emotionHits text).map Prod.snd).sum

/-- The object `normalizedEmotions` of `analyzeEmotion`. -/
def normalizedEmotions (text : Str) : List (String × ℚ) :=
  (emotionHits text).map
    (fun e => (e.1, if totalScore text > 0 then (e.2 : ℚ) / (totalScore text : ℚ) else 0))

/-- Call `entries.reduce((a, b) => value(a) > value(b) ? a : b)` without an
initial value; the keys are distinct, so the value looked up under the key
of an entry is the value of the entry. On an empty list the call throws. -/
def reducePrimary : List (String × ℚ) → Option (String × ℚ)
  | [] => none
  | e :: rest => some (rest.foldl (fun a b => if a.2 > b.2 then a else b) e)

/-- The result of `calculateSentiment`. -/
structure SentimentScore where
  score : ℚ
  label : String
  confidence : ℚ
deriving DecidableEq

/-- The word list `positiveWords` of `calculateSentiment`. -/
def positiveWords : List Str :=
  ["good", "great", "excellent", "amazing", "wonderful", "perfect", "love", "like",
    "happy"].map String.toList

/-- The word list `negativeWords` of `calculateSentiment`. -/
def negativeWords : List Str :=
  ["bad", "terrible", "awful", "hate", "dislike", "angry", "frustrated", "broken",
    "wrong"].map String.toList

/-- Method `calculateSentiment(text)`. -/
def calculateSentiment (text : Str) : SentimentScore :=
  let words := wordsOf text
  let score : Int := words.foldl
    (fun (score : Int) word =>
      let score := if word ∈ positiveWords then score + 1 else score
      if word ∈ negativeWords then score - 1 else score)
    0
  { score := (score : ℚ) / (words.length : ℚ)
    label := if score > 0 then "positive" else if score < 0 then "negative" else "neutral"
    confidence := min ((score.natAbs : ℚ) / (words.length : ℚ) * 5) 1 }

/-- The value returned by `analyzeEmotion`. -/
structure EmotionalState where
  primary : String
  scores : List (String × ℚ)
  intensity : ℚ
  sentiment : SentimentScore
deriving DecidableEq

/-- Method `analyzeEmotion(text)`; the result is `none` where the method throws. -/
def analyzeEmotion (text : Str) : Option EmotionalState :=
  match reducePrimary (normalizedEmotions text) with
  | none => none
  | some e =>
    some
      { primary := e.1
        scores := normalizedEmotions text
        intensity := JS.mathMax ((normalizedEmotions text).map Prod.snd)
        sentiment := calculateSentiment text }

end UltraAIProcessor

/-! ## The generation-service variant (`backend/src/services/geminiAI.js`)

The answer of the remote service is an input of the call that reads it; the
prompt text that `buildPrompt` sends has no other use and is not modelled.
A thrown error is the `error` case of `Except`. -/

namespace GeminiAI

/-- One element of `content.parts` in the payload of the service. -/
structure Part where
  text : Option Str
deriving DecidableEq

/-- The field `content` of a candidate. -/
structure Content where
  parts : Option (List Part)
deriving DecidableEq

/-- One element of `candidates` in the payload of the service. -/
structure Candidate where
  content : Option Content
deriving DecidableEq

/-- The parsed body `data` of a response; an absent field is `none`. -/
structure Payload where
  candidates : Option (List Candidate)
deriving DecidableEq

/-- What the request of `callGeminiAPI` ends in: `fetch` is not defined, the
request rejects, or a response arrives with its flag `ok` and its body (`none`
where `response.json()` rejects). -/
inductive FetchOutcome where
  | unavailable
  | rejected
  | response (ok : Bool) (body : Option Payload)
deriving DecidableEq

/-- Method `callGeminiAPI(prompt)` on the outcome of its request: the candidate
text, `none` where the property `text` is absent. -/
def callGeminiAPI (outcome : FetchOutcome) : Except String (Option Str) :=
  match outcome with
  | .unavailable => .error "Fetch is not available"
  | .rejected => .error "request failed"
  | .response ok body =>
    if !ok then .error "Gemini API error"
    else
      match body with
      | none => .error "body is not JSON"
      | some data =>
        match data.candidates with
        | none => .error "Invalid response from Gemini API"
        | some [] => .error "Invalid response from Gemini API"
        | some (candidate :: _) =>
          match candidate.content with
          | none => .error "Invalid response from Gemini API"
          | some content =>
            match content.parts with
            | none => .error "TypeError: parts is undefined"
            | some [] => .error "TypeError: parts[0] is undefined"
            | some (part :: _) => .ok part.text

/-- Method `detectIntent(message)`. -/
def detectIntent (message : Str) : String :=
  let lowerMessage := JS.toLowerCase message
  let has (kw : String) : Bool := JS.includes lowerMessage kw.toList
  if has "order" || has "track" || has "delivery" || has "status" then "order_inquiry"
  else if has "refund" || has "return" || has "money back" || has "exchange" then
    "refund_request"
  else if has "problem" || has "issue" || has "broken" || has "damaged" || has "wrong" ||
      has "late" then "complaint"
  else if has "hello" || has "hi" || has "hey" || has "good morning" ||
      has "good afternoon" then "greeting"
  else if has "human" || has "agent" || has "speak to someone" || has "manager" ||
      has "supervisor" then "human_escalation"
  else if has "shipping" || has "delivery time" || has "when will" || has "arrive" then
    "shipping_inquiry"
  else if has "product" || has "item" || has "available" || has "price" ||
      has "specifications" then "product_inquiry"
  else if has "account" || has "login" || has "password" || has "payment" || has "bill" then
    "account_billing"
  else if has "technical" || has "support" || has "help" || has "setup" || has "install" then
    "technical_support"
  else "general_inquiry"

/-- The value `{ primary, intensity }` of `detectEmotion`. -/
structure Emotion where
  primary : String
  intensity : ℚ
deriving DecidableEq

/-- Method `detectEmotion(message)`. -/
def detectEmotion (message : Str) : Emotion :=
  let lowerMessage := JS.toLowerCase message
  let has (kw : String) : Bool := JS.includes lowerMessage kw.toList
  if has "angry" || has "frustrated" || has "terrible" || has "awful" || has "horrible" then
    { primary := "angry", intensity := 8 / 10 }
  else if has "disappointed" || has "unhappy" || has "sad" || has "upset" then
    { primary := "disappointed", intensity := 6 / 10 }
  else if has "happy" || has "great" || has "excellent" || has "amazing" || has "love" then
    { primary := "happy", intensity := 7 / 10 }
  else if has "confused" || has "don\x27t understand" || has "help" || has "clarify" then
    { primary := "confused", intensity := 5 / 10 }
  else { primary := "neutral", intensity := 3 / 10 }

/-- Method `calculateConfidence(response, intent)`; reading `response.length`
throws where the response is `undefined`. -/
def calculateConfidence (response : Option Str) (intent : String) : Except String ℚ :=
  match response with
  | none => .error "TypeError: response is undefined"
  | some response =>
    let confidence : ℚ := 7 / 10
    let confidence :=
      if intent ≠ "general_inquiry" ∧ response.length > 50 then confidence + 2 / 10
      else confidence
    let confidence := if response.length < 20 then confidence - 3 / 10 else confidence
    let confidence :=
      if JS.includes response "policy".toList || JS.includes response "day".toList ||
          JS.includes response "refund".toList || JS.includes response "warranty".toList
      then confidence + 1 / 10 else confidence
    .ok (min (max confidence (1 / 10)) 1)

/-- Method `generateSuggestions(intent, context)`; the context is not read. -/
def generateSuggestions (intent : String) : List Str :=
  (if intent = "order_inquiry" then
    ["Track my package", "Change delivery address", "Cancel order", "View order details"]
  else if intent = "refund_request" then
    ["Start refund process", "Check refund status", "Return policy", "Exchange item"]
  else if intent = "complaint" then
    ["Report issue", "Request replacement", "Speak to manager", "File complaint"]
  else if intent = "shipping_inquiry" then
    ["Expedite shipping", "Delivery options", "Shipping policy", "Track package"]
  else if intent = "product_inquiry" then
    ["Product specifications", "Availability", "Price check", "Similar products"]
  else if intent = "account_billing" then
    ["Reset password", "Update payment method", "View billing history", "Account settings"]
  else if intent = "technical_support" then
    ["Setup assistance", "Troubleshooting guide", "Contact tech support", "Warranty claim"]
  else if intent = "human_escalation" then
    ["Create support ticket", "Schedule callback", "Live chat", "Speak to specialist"]
  else ["Order status", "Return item", "Product information", "Contact support"]).map
    String.toList

/-- The value returned by `generateResponse`; `text` is `none` where the
JavaScript value is `undefined`. -/
structure Response where
  text : Option Str
  intent : String
  confidence : ℚ
  emotion : Emotion
  suggestions : List Str
  source : String
  timestamp : Str
deriving DecidableEq

/-- The values a call of `generateResponse` reads from its environment:
`Math.random()` and the two readings of the clock, as ISO texts. -/
structure Ambient where
  random : ℚ
  now : Str
  later : Str
deriving DecidableEq

/-- Method `processResponse(aiResponse, userMessage, context)`. -/
def processResponse (aiResponse : Option Str) (userMessage : Str) (now : Str) :
    Except String Response :=
  let intent := detectIntent userMessage
  match calculateConfidence aiResponse intent with
  | .error e => .error e
  | .ok confidence =>
    .ok
      { text := aiResponse
        intent := intent
        confidence := confidence
        emotion := detectEmotion userMessage
        suggestions := generateSuggestions intent
        source := "gemini-ai"
        timestamp := now }

/-- The array `fallbackResponses` of `getFallbackResponse`. -/
def fallbackResponses : List Str :=
  [("I apologize, but I\x27m having trouble processing your request right now. Let me connect " ++
      "you with a human agent who can better assist you with personalized support."),
   ("I\x27m experiencing some technical difficulties. In the meantime, you can check our " ++
      "comprehensive FAQ section or I can create a support ticket for you to get detailed " ++
      "assistance."),
   ("I want to make sure I give you accurate and complete information. Would you like me to " ++
      "connect you with a specialist who can help with your specific question or " ++
      "situation?")].map String.toList

/-- Method `getFallbackResponse(message, context)`; neither argument is read. -/
def getFallbackResponse (amb : Ambient) : Response :=
  { text := fallbackResponses[Int.toNat ⌊amb.random * (fallbackResponses.length : ℚ)⌋]?
    intent := "fallback"
    confidence := 3 / 10
    emotion := { primary := "neutral", intensity := 3 / 10 }
    suggestions := ["Speak to human agent", "Try again", "Check FAQ"].map String.toList
    source := "fallback"
    timestamp := amb.now }

/-- One stored exchange of a session: `{ userMessage, aiResponse, timestamp }`. -/
structure Exchange where
  userMessage : Str
  aiResponse : Option Str
  timestamp : Str
deriving DecidableEq

/-- The field `conversationHistory` of a `GeminiAI`. -/
abbrev History := List (String × List Exchange)

/-- Method `updateConversationHistory(sessionId, userMessage, aiResponse)`. -/
def updateConversationHistory (conversationHistory : History) (sessionId : String)
    (userMessage : Str) (aiResponse : Option Str) (timestamp : Str) : History :=
  let history := (JS.get conversationHistory sessionId).getD [] ++
    [{ userMessage := userMessage, aiResponse := aiResponse, timestamp := timestamp }]
  JS.set conversationHistory sessionId (if history.length > 10 then history.tail else history)

/-- Method `generateResponse(message, sessionId, context)`: the returned value
and the history it leaves. The body of `try` ends at the first step that
throws, and `catch` returns the fallback response. -/
def generateResponse (conversationHistory : History) (message : Str) (sessionId : String)
    (outcome : FetchOutcome) (amb : Ambient) : Response × History :=
  match callGeminiAPI outcome with
  | .error _ => (getFallbackResponse amb, conversationHistory)
  | .ok response =>
    match processResponse response message amb.now with
    | .error _ => (getFallbackResponse amb, conversationHistory)
    | .ok processedResponse =>
      (processedResponse,
        updateConversationHistory conversationHistory sessionId message processedResponse.text
          amb.later)

/-- A payload with one candidate whose text is `text`. -/
def payloadOf (text : Option Str) : Payload :=
  { candidates := some [{ content := some { parts := some [{ text := text }] } }] }

end GeminiAI

namespace AdvancedProcessor

/-- The default `{}` of the parameter `context` of `fillTemplate`: no
sentiment and no returning user. -/
def noContext : Context := { sentiment := none, isReturningUser := false }

/-- The test `context.sentiment && context.sentiment.label === 'negative'` of `fillTemplate`. -/
def Context.negative (context : Context) : Bool :=
  match context.sentiment with
  | some s => decide (s.label = "negative")
  | none => false

end AdvancedProcessor

namespace AdvancedProcessor

/-- The value `recentMessages` of `detectIntentWithContext`: `history.slice(-3)`
of the stored history of the session, the empty list for an unknown session. -/
def recentMessages (conversationHistory : List (String × List Turn)) (sessionId : String) :
    List Turn :=
  ((JS.get conversationHistory sessionId).getD []).drop
    (((JS.get conversationHistory sessionId).getD []).length - 3)

/-- Method `detectIntentWithContext(message, sessionId)` as a step of the
processor: the value it returns and the fields it leaves. The method reads
`conversationHistory` and assigns no field of the processor. -/
def detectIntentWithContextStep (intents : List IntentDef) (st : State) (message : Str)
    (sessionId : String) : Best × State :=
  (detectIntentWithContext intents st.conversationHistory message sessionId, st)

/-- Two stored histories for concrete runs: four turns and three turns whose
last three intents agree, with other messages, confidences and times. -/
def historyLong : List (String × List Turn) :=
  [("s1",
    [{ message := "hello".toList, intent := "greeting", confidence := 1 / 2, timestamp := 1 },
     { message := "track it".toList, intent := "order_status", confidence := 7 / 10,
       timestamp := 2 },
     { message := "money back".toList, intent := "refund", confidence := 3 / 10, timestamp := 3 },
     { message := "hi".toList, intent := "greeting", confidence := 1 / 2, timestamp := 4 }])]

/-- The three-turn history that pairs with `historyLong`. -/
def historyShort : List (String × List Turn) :=
  [("s2",
    [{ message := "where is it".toList, intent := "order_status", confidence := 9 / 10,
       timestamp := 50 },
     { message := "refund please".toList, intent := "refund", confidence := 1, timestamp := 60 },
     { message := "good morning".toList, intent := "greeting", confidence := 1 / 5,
       timestamp := 70 }])]

end AdvancedProcessor

namespace AdvancedProcessor

/-- The entries of a dictionary of counters with their numbers, `none` where
one of the values is not a number. -/
def numericEntries : List (String × JS.Value) → Option (List (String × Nat))
  | [] => some []
  | (k, .number n) :: rest => (numericEntries rest).map (fun es => (k, n) :: es)
  | (_, .text _) :: _ => none

/-- The value returned by `getAnalytics`: the fields of `analytics`, the
number of sessions in `conversationHistory` and the five most frequent
intents (`none` where the order of the entries is left to the engine). -/
structure AnalyticsView where
  totalMessages : Nat
  intentCounts : List (String × JS.Value)
  avgConfidence : ℚ
  sessionCount : Nat
  activeSessions : Nat
  topIntents : Option (List (String × Nat))
deriving DecidableEq

/-- Method `getAnalytics()` as a step of the processor: the value it returns
and the fields it leaves. The entries of `intentCounts` are copied, sorted by
falling count (the sort is stable) and cut to five; no field is assigned.
Intent names are not array indices, so the entries stand in insertion order.
Where a count is not a number the comparison `b - a` is NaN, the order that
`sort` leaves is implementation-defined, and `topIntents` is `none`. -/
def getAnalytics (st : State) : AnalyticsView × State :=
  ({ totalMessages := st.analytics.totalMessages
     intentCounts := st.analytics.intentCounts
     avgConfidence := st.analytics.avgConfidence
     sessionCount := st.analytics.sessionCount
     activeSessions := st.conversationHistory.length
     topIntents := (numericEntries st.analytics.intentCounts).map
      (fun es => (es.insertionSort (fun a b => b.2 ≤ a.2)).take 5) }, st)

end AdvancedProcessor

namespace PromptProcessor

/-- Function `process` with its second loop (the lines that try the overlap
with the joined utterances when the best score is zero) taken out: `best`
is the value of the first loop; every other line is the one of `process`. -/
def processWithoutSecondPass (intents : List IntentDef) (templates : Templates)
    (demoOrders : List Order) (req : Request) (random : Str) : Result :=
  let text := normalize req.message
  let best := firstPass intents text
  let confidence : ℚ := min 1 (best.score / 2 + 1 / 10)
  let orderId := findOrderId req.message
  let plain (reply : Str) (confidence : ℚ) : Result :=
    { reply := reply, intent := best.intent, confidence := confidence
      metadata := { sessionId := req.sessionId, order := none, ticketId := none } }
  if best.intent = "order_status" then
    match orderId with
    | some orderId =>
      match demoOrders.find? (fun o => decide (o.id = orderId)) with
      | some order =>
        { reply := fillTemplate templates.order_status
            [("orderId".toList, order.id), ("status".toList, order.status),
              ("deliveryDate".toList, order.deliveryDate)]
          intent := best.intent
          confidence := max confidence (8 / 10)
          metadata := { sessionId := req.sessionId, order := some order, ticketId := none } }
      | none =>
        plain ("I couldn\x27t find order ".toList ++ orderId ++
          ". Please check the order id or ask without id.".toList) (5 / 10)
    | none =>
      plain "Please share your order id (e.g., ORD1001) so I can check the status.".toList
        confidence
  else if best.intent = "refund" then
    plain (fillTemplate templates.refund
      [("orderId".toList, orderId.getD ([Char.ofNat 123] ++ "orderId".toList ++ [Char.ofNat 125]))])
      confidence
  else if best.intent = "greeting" then plain templates.greeting confidence
  else if best.intent = "complaint" then plain templates.complaint confidence
  else if best.intent = "human_escalation" then
    { reply := fillTemplate templates.human_escalation [("ticketId".toList, "TCK-".toList ++ random)]
      intent := best.intent
      confidence := 9 / 10
      metadata := { sessionId := req.sessionId, order := none
                    ticketId := some ("TCK-".toList ++ random) } }
  else if best.intent = "thanks" then
    plain "You\x27re welcome! Anything else I can help with?".toList confidence
  else plain templates.fallback (min confidence (4 / 10))

end PromptProcessor

/-! ## Regular expressions of the intent patterns

The patterns of `intentPatterns` are read through `pattern.test(message)`
only, so only the existence of a match counts, not its extent. No pattern
carries the flag `g`, so `test` keeps no position between calls. -/

namespace JS

/-- The fragment of regular expressions that the intent patterns use, all
under the flag `i`: a literal text, one character of a class, repetitions of
a class, sequence, alternative, the start of the text and a word boundary.
Groups only delimit alternatives and are not kept. -/
inductive Re where
  | lit (s : Str)
  | cls (p : Char → Bool)
  | star (p : Char → Bool)
  | opt (p : Char → Bool)
  | seq (a b : Re)
  | alt (a b : Re)
  | bol
  | wordBoundary

/-- Repetition `c+` of a class: one character of the class, then `c*`. -/
def Re.plus (p : Char → Bool) : Re := .seq (.cls p) (.star p)

/-- Class `.`: any character but a line terminator. -/
def isDot (c : Char) : Bool :=
  !(c.toNat == 10 || c.toNat == 13 || c.toNat == 8232 || c.toNat == 8233)

/-- A literal text at the start of `rest` under the flag `i`: the rest behind
it and the last character passed. -/
def matchLit : Str → Option Char → Str → Option (Option Char × Str)
  | [], prev, rest => some (prev, rest)
  | _ :: _, _, [] => none
  | l :: ls, _, c :: cs => if c.toUpper == l.toUpper then matchLit ls (some c) cs else none

/-- Repetition `c*` followed by the continuation `k`: `k` is tried after
every number of characters of the class. -/
def starK (p : Char → Bool) (k : Option Char → Str → Bool) : Option Char → Str → Bool
  | prev, [] => k prev []
  | prev, c :: cs => k prev (c :: cs) || (p c && starK p k (some c) cs)

/-- Matching at a fixed place: `accepts r k prev rest` holds when `r` matches
a start of `rest`, the character before it being `prev`, and the
continuation `k` accepts what follows. -/
def Re.accepts : Re → (Option Char → Str → Bool) → Option Char → Str → Bool
  | .lit s, k, prev, rest =>
    match matchLit s prev rest with
    | some (prev2, rest2) => k prev2 rest2
    | none => false
  | .cls p, k, _, rest =>
    match rest with
    | c :: cs => p c && k (some c) cs
    | [] => false
  | .star p, k, prev, rest => starK p k prev rest
  | .opt p, k, prev, rest =>
    (match rest with
      | c :: cs => p c && k (some c) cs
      | [] => false) || k prev rest
  | .seq a b, k, prev, rest => a.accepts (b.accepts k) prev rest
  | .alt a b, k, prev, rest => a.accepts k prev rest || b.accepts k prev rest
  | .bol, k, prev, rest => prev.isNone && k prev rest
  | .wordBoundary, k, prev, rest =>
    ((match prev with | some p => isWordChar p | none => false) != startsWithWord rest) &&
      k prev rest

/-- The search of `test`: a match that starts here or further right. -/
def Re.testFrom (r : Re) : Option Char → Str → Bool
  | prev, [] => r.accepts (fun _ _ => true) prev []
  | prev, c :: cs => r.accepts (fun _ _ => true) prev (c :: cs) || Re.testFrom r (some c) cs

/-- Call `pattern.test(text)` for a pattern without the flags `g` and `y`. -/
def Re.test (r : Re) (text : Str) : Bool := r.testFrom none text

end JS

/-! ## The processor with emotions (`backend/src/services/ultraAIProcessor.js`) -/

namespace UltraAIProcessor

/-- One entry of `intentPatterns`, as far as `detectIntentWithContext` reads it. -/
structure IntentConfig where
  keywords : List Str
  patterns : List JS.Re
  weight : ℚ
  sentiment : Option String

/-- The field `intentPatterns`: the intents in the order of the object. -/
def intentPatterns : List (String × IntentConfig) :=
  [("greeting",
    { keywords := ["hello", "hi", "hey", "good morning", "good evening", "greetings"].map
        String.toList
      patterns :=
        [.seq .bol (.seq (.alt (.lit "hi".toList) (.alt (.lit "hello".toList) (.lit "hey".toList)))
            .wordBoundary),
         .seq (.lit "good".toList) (.seq (JS.Re.plus JS.isSpace)
            (.alt (.lit "morning".toList) (.alt (.lit "afternoon".toList)
              (.lit "evening".toList))))]
      weight := 9 / 10
      sentiment := none }),
   ("order_status",
    { keywords := ["order", "track", "status", "delivery", "shipped", "where"].map String.toList
      patterns :=
        [.seq (.lit "order".toList) (.seq (.star JS.isSpace)
            (.seq (.opt (fun c => c == '#')) (JS.Re.plus JS.isWordChar))),
         .seq (.lit "track".toList) (.seq (.star JS.isDot) (.lit "order".toList)),
         .seq (.lit "where".toList) (.seq (.star JS.isDot) (.lit "order".toList))]
      weight := 95 / 100
      sentiment := none }),
   ("complaint",
    { keywords := ["problem", "issue", "broken", "damaged", "defective", "complaint",
        "wrong"].map String.toList
      patterns :=
        [.seq (.lit "not".toList) (.seq (JS.Re.plus JS.isSpace) (.lit "working".toList)),
         .alt (.lit "broken".toList) (.alt (.lit "damaged".toList) (.lit "defective".toList))]
      weight := 85 / 100
      sentiment := some "negative" }),
   ("refund",
    { keywords := ["refund", "return", "money back", "cancel", "reimburse"].map String.toList
      patterns :=
        [.seq (.lit "want".toList) (.seq (.star JS.isDot) (.lit "refund".toList)),
         .seq (.lit "return".toList) (.seq (.star JS.isDot) (.lit "item".toList)),
         .seq (.lit "money".toList) (.seq (JS.Re.plus JS.isSpace) (.lit "back".toList))]
      weight := 9 / 10
      sentiment := none }),
   ("technical_support",
    { keywords := ["help", "support", "how to", "tutorial", "guide", "instructions"].map
        String.toList
      patterns :=
        [.seq (.lit "how".toList) (.seq (JS.Re.plus JS.isSpace) (.seq (.lit "do".toList)
            (.seq (JS.Re.plus JS.isSpace) (.lit "i".toList)))),
         .seq (.lit "need".toList) (.seq (JS.Re.plus JS.isSpace) (.lit "help".toList)),
         .seq (.lit "can".toList) (.seq (JS.Re.plus JS.isSpace) (.seq (.lit "you".toList)
            (.seq (JS.Re.plus JS.isSpace) (.lit "help".toList))))]
      weight := 8 / 10
      sentiment := none }),
   ("human_escalation",
    { keywords := ["human", "agent", "representative", "person", "speak to someone"].map
        String.toList
      patterns :=
        [.seq (.lit "speak".toList) (.seq (.star JS.isDot) (.lit "human".toList)),
         .seq (.lit "talk".toList) (.seq (.star JS.isDot) (.lit "person".toList)),
         .seq (.lit "human".toList) (.seq (JS.Re.plus JS.isSpace) (.lit "agent".toList))]
      weight := 95 / 100
      sentiment := none })]

/-- One stored entry of a session: `{ message, timestamp, type: 'user' }`. -/
structure HistoryEntry where
  message : Str
  timestamp : Str
  type : String
deriving DecidableEq

/-- Property read `item.intent` on a stored entry: the entries that
`updateConversationHistory` writes have the fields `message`, `timestamp` and
`type` only, so the read gives `undefined`. -/
def HistoryEntry.intent (_ : HistoryEntry) : Option String := none

/-- The value returned by `getConversationContext`. -/
structure ConversationContext where
  items : List HistoryEntry
  summary : Str
  currentMessage : Option Str
deriving DecidableEq

/-- The field `conversationHistory` of an `UltraAIProcessor`. -/
abbrev History := List (String × List HistoryEntry)

/-- Method `updateConversationHistory(sessionId, message)`; `contextWindow` is 10. -/
def updateConversationHistory (conversationHistory : History) (sessionId : String)
    (message : Str) (timestamp : Str) : History :=
  let history := (JS.get conversationHistory sessionId).getD [] ++
    [{ message := message, timestamp := timestamp, type := "user" }]
  JS.set conversationHistory sessionId (if history.length > 10 then history.tail else history)

/-- Method `getConversationContext(sessionId)`. -/
def getConversationContext (conversationHistory : History) (sessionId : String) :
    ConversationContext :=
  let history := (JS.get conversationHistory sessionId).getD []
  { items := history
    summary := (Nat.repr history.length).toList ++ " previous interactions".toList
    currentMessage := history.getLast?.map HistoryEntry.message }

/-- Method `calculateContextRelevance(intent, context)`. Its only call is
guarded by `context.items.length > 0`; for an empty list the quotient is
`0 / 0`, not a number in JavaScript, and is not meant by the value here. -/
def calculateContextRelevance (intent : String) (context : ConversationContext) : ℚ :=
  let recentIntents := context.items.map HistoryEntry.intent
  let intentFrequency := (recentIntents.filter (fun i => decide (i = some intent))).length
  min ((intentFrequency : ℚ) / (context.items.length : ℚ)) (5 / 10)

/-- The field `metadata` of a match of `detectIntentWithContext`. -/
structure MatchMetadata where
  keywordMatches : Nat
  patternMatches : Nat
  contextInfluence : Bool
  emotionalInfluence : Bool
deriving DecidableEq

/-- The value `bestMatch` of `detectIntentWithContext`; the metadata of the
initial value is the empty object. -/
structure IntentAnalysis where
  intent : String
  confidence : ℚ
  metadata : Option MatchMetadata
deriving DecidableEq

/-- The score of one entry of `intentPatterns` in the loop of `detectIntentWithContext`. -/
def intentScore (message : Str) (context : ConversationContext) (emotion : EmotionalState)
    (intentName : String) (config : IntentConfig) : ℚ :=
  let text := JS.toLowerCase message
  let keywordMatches :=
    (config.keywords.filter (fun keyword => JS.includes text (JS.toLowerCase keyword))).length
  let score : ℚ := 0 + (keywordMatches : ℚ) / (config.keywords.length : ℚ) * (4 / 10)
  let patternMatches := (config.patterns.filter (fun pattern => pattern.test message)).length
  let score := score + (patternMatches : ℚ) /
    (if config.patterns.length = 0 then 1 else (config.patterns.length : ℚ)) * (4 / 10)
  let score :=
    if context.items.length > 0 then
      score + calculateContextRelevance intentName context * (2 / 10)
    else score
  let score :=
    if config.sentiment = some emotion.primary then score + 1 / 10 else score
  score * config.weight

/-- One pass of the loop body of `detectIntentWithContext`. -/
def detectStep (message : Str) (context : ConversationContext) (emotion : EmotionalState)
    (bestMatch : IntentAnalysis) (entry : String × IntentConfig) : IntentAnalysis :=
  let score := intentScore message context emotion entry.1 entry.2
  if score > bestMatch.confidence then
    { intent := entry.1
      confidence := min score 1
      metadata := some
        { keywordMatches :=
            (entry.2.keywords.filter
              (fun keyword => JS.includes (JS.toLowerCase message) (JS.toLowerCase keyword))).length
          patternMatches := (entry.2.patterns.filter (fun pattern => pattern.test message)).length
          contextInfluence := decide (context.items.length > 0)
          emotionalInfluence := decide (entry.2.sentiment = some emotion.primary) } }
  else bestMatch

/-- Method `detectIntentWithContext(message, context, emotion)`. -/
def detectIntentWithContext (message : Str) (context : ConversationContext)
    (emotion : EmotionalState) : IntentAnalysis :=
  intentPatterns.foldl (detectStep message context emotion)
    { intent := "fallback", confidence := 0, metadata := none }

/-- One entry of the history of a profile: `{ message, intent, emotion, timestamp }`. -/
structure ProfileEntry where
  message : Str
  intent : IntentAnalysis
  emotion : EmotionalState
  timestamp : Str
deriving DecidableEq

/-- The profile of a session; the field `preferences` stays the empty object. -/
structure UserProfile where
  sessionId : String
  visitCount : Nat
  history : List ProfileEntry
deriving DecidableEq

/-- The fields of an `UltraAIProcessor` that `processMessage` writes. -/
structure State where
  conversationHistory : History
  userProfiles : List (String × UserProfile)
deriving DecidableEq

/-- Method `updateUserProfile(sessionId, data)`. -/
def updateUserProfile (userProfiles : List (String × UserProfile)) (sessionId : String)
    (message : Str) (intent : IntentAnalysis) (emotion : EmotionalState) (timestamp : Str) :
    List (String × UserProfile) :=
  let profile := (JS.get userProfiles sessionId).getD
    { sessionId := sessionId, visitCount := 1, history := [] }
  JS.set userProfiles sessionId
    { profile with
      visitCount := profile.visitCount + 1
      history := profile.history ++
        [{ message := message, intent := intent, emotion := emotion, timestamp := timestamp }] }

/-- The values a call of `processMessage` reads from the clock: the stamps of
the two stored entries and the measured time. -/
structure Ambient where
  historyTime : Str
  profileTime : Str
  elapsed : Nat
deriving DecidableEq

/-- The value returned by `processMessage`, without the fields that
`generateContextualResponse` fills (`reply`, `personality`, `suggestions` and
the rest of `metadata`): that method composes them from fixed texts, reads
the intent, the emotion and the profile, writes no field of the processor
and does not throw. The fields of the success case are `none` in the value
of the `catch` block. -/
structure Result where
  success : Bool
  intent : String
  confidence : ℚ
  emotion : Option EmotionalState
  context : Option Str
  contextUsed : Option Bool
  processingTime : Nat
deriving DecidableEq

/-- Method `processMessage({ sessionId, message })`: the returned value and
the state it leaves. -/
def processMessage (st : State) (sessionId : String) (message : Str) (amb : Ambient) :
    Result × State :=
  let conversationHistory :=
    updateConversationHistory st.conversationHistory sessionId message amb.historyTime
  match analyzeEmotion message with
  | none =>
    ({ success := false, intent := "error", confidence := 0, emotion := none, context := none
       contextUsed := none, processingTime := amb.elapsed },
     { st with conversationHistory := conversationHistory })
  | some emotionalState =>
    let context := getConversationContext conversationHistory sessionId
    let intentAnalysis := detectIntentWithContext message context emotionalState
    ({ success := true
       intent := intentAnalysis.intent
       confidence := intentAnalysis.confidence
       emotion := some emotionalState
       context := some context.summary
       contextUsed := some (decide (context.items.length > 0))
       processingTime := amb.elapsed },
     { conversationHistory := conversationHistory
       userProfiles := updateUserProfile st.userProfiles sessionId message intentAnalysis
         emotionalState amb.profileTime })

end UltraAIProcessor

/-! ## Numbers as IEEE 754 binary64

The operations of this section round their exact result to the nearest
value of binary64, ties to the even significand, as `+` and `/` do on
JavaScript numbers. They are used where the order of the additions decides
the result. -/

namespace JS

/-- A JavaScript number as a value of IEEE 754 binary64: a finite value, given
by the rational it denotes (the two zeros are one value), an infinity, or NaN. -/
inductive Number where
  | finite (q : ℚ)
  | infinite (negative : Bool)
  | nan
deriving DecidableEq

/-- The power of two with an integer exponent. -/
def pow2 (e : ℤ) : ℚ :=
  if 0 ≤ e then ((2 ^ e.toNat : ℕ) : ℚ) else 1 / ((2 ^ (-e).toNat : ℕ) : ℚ)

/-- The number of halvings that bring a natural number below 2, with a bound
on the number of steps. -/
def log2Go : Nat → Nat → Nat
  | 0, _ => 0
  | fuel + 1, n => if 2 ≤ n then log2Go fuel (n / 2) + 1 else 0

/-- The integer part of the binary logarithm of a positive natural number. -/
def floorLog2 (n : Nat) : Nat := log2Go n n

/-- The binary exponent of a positive rational `q`: the integer `e` with
`2^e ≤ q < 2^(e+1)`. -/
def exponentOf (q : ℚ) : ℤ :=
  let e : ℤ := (floorLog2 q.num.natAbs : ℤ) - (floorLog2 q.den : ℤ)
  if pow2 e ≤ q then e else e - 1

/-- The integer nearest to a rational that is not negative, the even one of
two that are equally near. -/
def roundHalfEven (q : ℚ) : ℕ :=
  let f := ⌊q⌋₊
  if q - f < 1 / 2 then f
  else if 1 / 2 < q - f then f + 1
  else if f % 2 = 0 then f else f + 1

/-- The value of binary64 nearest to a rational, ties to the even
significand: 53 significant bits, exponents from -1022 (shared by the
subnormal values) to 1023, an infinity from `2^1024` on. -/
def toBinary64 (q : ℚ) : Number :=
  if q = 0 then .finite 0
  else
    let e := max (exponentOf |q|) (-1022)
    let ulp := pow2 (e - 52)
    let r : ℚ := (roundHalfEven (|q| / ulp) : ℚ) * ulp
    if pow2 1024 ≤ r then .infinite (decide (q < 0))
    else .finite (if q < 0 then -r else r)

/-- Operator `+` on two numbers. -/
def Number.add : Number → Number → Number
  | .finite a, .finite b => toBinary64 (a + b)
  | .finite _, .infinite s => .infinite s
  | .infinite s, .finite _ => .infinite s
  | .infinite s, .infinite t => if s = t then .infinite s else .nan
  | _, _ => .nan

/-- Operator `/` of a number by a positive integer (`Math.max` of two set
sizes that are not 0). -/
def Number.divNat : Number → Nat → Number
  | .finite a, n => toBinary64 (a / (n : ℚ))
  | .infinite s, _ => .infinite s
  | .nan, _ => .nan

/-- Comparison `x > 0`. -/
def Number.isPositive : Number → Bool
  | .finite a => decide (0 < a)
  | .infinite s => !s
  | .nan => false

end JS

namespace AdvancedProcessor.Binary64

/-- Expression `weights[token] || 1` on an object `weights` created by `{}`
whose stored values are numbers: the stored number unless it is 0 or NaN, 1
for an absent name; `none` stands for the function or object inherited from
`Object.prototype` under that name, which is truthy and is no number. -/
def weightOr1 (weights : List (Str × JS.Number)) (token : Str) : Option JS.Number :=
  match JS.get weights token with
  | some w => some (if w = .finite 0 ∨ w = .nan then .finite 1 else w)
  | none =>
    if (JS.get JS.objectPrototype (String.mk token)).isSome then none else some (.finite 1)

/-- Statement `acc += weight`: two numbers are added; once an operand is no
number, `+` joins texts and the accumulator is a text that reads as no
number (`none`). -/
def addWeight (acc weight : Option JS.Number) : Option JS.Number :=
  match acc, weight with
  | some x, some w => some (x.add w)
  | _, _ => none

/-- Method `tokenOverlap(a, b, weights)` over binary64: the weights are added
in the order in which the tokens of `a` were inserted into their set. A text
in `totalWeight` compares as NaN, so that the result is 0. -/
def tokenOverlap (a b : Str) (weights : List (Str × JS.Number)) : JS.Number :=
  let toksA := tokens a
  let toksB := tokens b
  if toksA.length = 0 ∨ toksB.length = 0 then .finite 0
  else
    let acc := toksA.foldl
      (fun (acc : Option JS.Number × Option JS.Number) token =>
        if token ∈ toksB then
          (addWeight acc.1 (weightOr1 weights token), addWeight acc.2 (weightOr1 weights token))
        else acc)
      (some (.finite 0), some (.finite 0))
    match acc.2 with
    | some totalWeight =>
      if totalWeight.isPositive then
        match acc.1 with
        | some weightedScore => weightedScore.divNat (max toksA.length toksB.length)
        | none => .nan
      else .finite 0
    | none => .finite 0

/-- The rational that a finite number denotes (0 for a value that is not finite). -/
def exactValue : JS.Number → ℚ
  | .finite q => q
  | _ => 0

/-- The stored weights of a mapping as exact rationals. -/
def exactWeights (weights : List (Str × JS.Number)) : List (Str × ℚ) :=
  weights.map (fun kv => (kv.1, exactValue kv.2))

/-- Test that two token sets share a token whose weight is inherited from
`Object.prototype`. -/
def sharesInherited (toksA toksB : List Str) (weights : List (Str × JS.Number)) : Bool :=
  toksA.any (fun t => decide (t ∈ toksB) && (weightOr1 weights t).isNone)

/-- The mapping `{ a: 0.1, b: 0.2, c: 0.3 }`: each literal denotes the value
of binary64 nearest to it. -/
def fractionalWeights : List (Str × JS.Number) :=
  [("a".toList, JS.toBinary64 (1 / 10)), ("b".toList, JS.toBinary64 (2 / 10)),
   ("c".toList, JS.toBinary64 (3 / 10))]

/-- The context weights that `detectIntentWithContext` builds after a turn of
intent `order_status`. -/
def orderWeights : List (Str × JS.Number) :=
  [("order".toList, .finite 2), ("status".toList, .finite 2), ("track".toList, .finite 2)]

end AdvancedProcessor.Binary64

namespace PromptProcessor.Binary64

/-- Function `tokenOverlap(a, b)` over binary64: the quotient of two counts,
rounded once. -/
def tokenOverlap (a b : Str) : JS.Number :=
  let toksA := tokens a
  let toksB := tokens b
  if toksA.length = 0 ∨ toksB.length = 0 then .finite 0
  else
    let common : Nat := toksA.foldl (fun common t => if t ∈ toksB then common + 1 else common) 0
    JS.Number.divNat (.finite (common : ℚ)) (max toksA.length toksB.length)

end PromptProcessor.Binary64

/-! ## Dictionaries -/

namespace JS

theorem get_set_self {κ α : Type} [DecidableEq κ] (d : List (κ × α)) (k : κ) (v : α) :
    get (set d k v) k = some v := by
  induction d with
  | nil => simp [set, get, List.lookup]
  | cons e rest ih =>
    obtain ⟨k1, v1⟩ := e
    by_cases h : k1 = k
    · simp [set, h, get, List.lookup]
    · have h2 : (k == k1) = false := by simpa using fun h3 => h h3.symm
      simp only [get] at ih
      simp [set, h, get, List.lookup, h2, ih]

theorem get_set_other {κ α : Type} [DecidableEq κ] (d : List (κ × α)) (k k2 : κ) (v : α)
    (hne : k ≠ k2) : get (set d k v) k2 = get d k2 := by
  induction d with
  | nil =>
    have h2 : (k2 == k) = false := by simpa using fun h3 => hne h3.symm
    simp [set, get, List.lookup, h2]
  | cons e rest ih =>
    obtain ⟨k1, v1⟩ := e
    simp only [get] at ih
    by_cases h : k1 = k
    · subst h
      have h2 : (k2 == k1) = false := by simpa using fun h3 => hne h3.symm
      simp [set, get, List.lookup, h2]
    · cases h3 : (k2 == k1) <;> simp [set, h, get, List.lookup, h3, ih]

/-- The key `__proto__` names an inherited property. -/
theorem ne_proto_of_plain (k : String) (hk : get objectPrototype k = none) : k ≠ "__proto__" := by
  intro h
  rw [h] at hk
  exact absurd hk (by decide)

/-- Counting one more occurrence of a key that names no inherited property
adds one to the sum of the counts. -/
theorem sumCounts_countUp (d : List (String × Value)) (k : String) (total : Nat)
    (hk : get objectPrototype k = none) (hd : sumCounts d = some total) :
    sumCounts (assign d k (countUp d k)) = some (total + 1) := by
  rw [assign, if_neg (ne_proto_of_plain k hk)]
  induction d generalizing total with
  | nil =>
    simp only [sumCounts, Option.some.injEq] at hd
    subst hd
    simp [countUp, get, List.lookup, set, sumCounts] at hk ⊢
    simp [get, hk, sumCounts]
  | cons e rest ih =>
    obtain ⟨k1, v1⟩ := e
    cases v1 with
    | text t => simp [sumCounts] at hd
    | number n =>
      simp only [sumCounts, Option.map_eq_some'] at hd
      obtain ⟨r, hr, hrt⟩ := hd
      by_cases h : k1 = k
      · subst h
        simp [set, countUp, get, List.lookup, sumCounts, hr]
        omega
      · have h2 : (k == k1) = false := by simpa using fun h3 => h h3.symm
        have hc : countUp ((k1, Value.number n) :: rest) k = countUp rest k := by
          simp [countUp, get, List.lookup, h2]
        rw [hc]
        simp only [set, h, if_false, sumCounts, ih r hr, Option.map_some', Option.some.injEq]
        omega

end JS

/-! ## The session store -/

namespace AdvancedProcessor

theorem runUpdates_snoc (st : State) (calls : List Call) (c : Call) :
    runUpdates st (calls ++ [c]) =
      updateContext (runUpdates st calls) c.sessionId c.message c.intent c.confidence c.now := by
  simp [runUpdates, List.foldl_append]

theorem callsFor_snoc (sessionId : String) (calls : List Call) (c : Call) :
    callsFor sessionId (calls ++ [c]) =
      callsFor sessionId calls ++ (if c.sessionId = sessionId then [c] else []) := by
  by_cases h : c.sessionId = sessionId <;> simp [callsFor, List.filter_append, h]

/-- Appending to the last ten and shifting when eleven are held gives the last ten. -/
theorem lastTen_snoc {α : Type} (l : List α) (t : α) :
    (if (l.drop (l.length - 10) ++ [t]).length > 10 then (l.drop (l.length - 10) ++ [t]).tail
      else l.drop (l.length - 10) ++ [t]) = (l ++ [t]).drop ((l ++ [t]).length - 10) := by
  by_cases h : l.length ≤ 9
  · have h1 : l.length - 10 = 0 := by omega
    have h2 : (l ++ [t]).length - 10 = 0 := by simp; omega
    rw [h1, h2]
    simp
    omega
  · have h1 : (l.drop (l.length - 10) ++ [t]).length > 10 := by simp; omega
    rw [if_pos h1]
    have h2 : (l ++ [t]).length - 10 = (l.length - 10) + 1 := by simp; omega
    rw [h2, ← List.drop_one, List.drop_append_of_le_length (by simp; omega),
      List.drop_append_of_le_length (by omega), List.drop_drop]

/-- The history stored for a session after any sequence of calls on a fresh
processor: nothing before the first call for it, then the last ten turns. -/
theorem history_after (sessionId : String) (calls : List Call) :
    JS.get (runUpdates fresh calls).conversationHistory sessionId =
      if callsFor sessionId calls = [] then none
      else some (((callsFor sessionId calls).map turnOf).drop
        (((callsFor sessionId calls).map turnOf).length - 10)) := by
  induction calls using List.reverseRecOn with
  | nil => simp [runUpdates, fresh, callsFor, JS.get, List.lookup]
  | append_singleton calls c ih =>
    rw [runUpdates_snoc, callsFor_snoc]
    by_cases h : c.sessionId = sessionId
    · subst h
      simp only [updateContext, pushTurn, JS.get_set_self, if_true]
      rw [ih]
      have key := lastTen_snoc ((callsFor c.sessionId calls).map turnOf) (turnOf c)
      by_cases hc : callsFor c.sessionId calls = []
      · simp [hc, turnOf]
      · simp only [hc, if_false, Option.getD_some, List.map_append, List.map_cons, List.map_nil]
        simp only [turnOf] at key ⊢
        rw [key]
        simp
    · simp only [updateContext, pushTurn, if_neg h, List.append_nil]
      rw [JS.get_set_other _ _ _ _ h, ih]

end AdvancedProcessor

/-- Claim C2. For every session id and every sequence of calls of
`updateContext` on a fresh processor (calls for other sessions may be
interleaved), the history stored for the session consists of the last
`min N 10` turns submitted for it, in submission order, where `N` is the
number of calls for that session: its length is `min N 10`, so never more
than 10, and its messages are the last `min N 10` messages submitted. -/
theorem C2_history_keeps_last_ten (sessionId : String) (calls : List Call) :
    (JS.get (AdvancedProcessor.runUpdates AdvancedProcessor.fresh calls).conversationHistory
        sessionId).getD [] =
      ((AdvancedProcessor.callsFor sessionId calls).map AdvancedProcessor.turnOf).drop
        ((AdvancedProcessor.callsFor sessionId calls).length -
          min (AdvancedProcessor.callsFor sessionId calls).length 10) ∧
    ((JS.get (AdvancedProcessor.runUpdates AdvancedProcessor.fresh calls).conversationHistory
        sessionId).getD []).length = min (AdvancedProcessor.callsFor sessionId calls).length 10 ∧
    ((JS.get (AdvancedProcessor.runUpdates AdvancedProcessor.fresh calls).conversationHistory
        sessionId).getD []).length ≤ 10 ∧
    ((JS.get (AdvancedProcessor.runUpdates AdvancedProcessor.fresh calls).conversationHistory
        sessionId).getD []).map Turn.message =
      ((AdvancedProcessor.callsFor sessionId calls).map Call.message).drop
        ((AdvancedProcessor.callsFor sessionId calls).length -
          min (AdvancedProcessor.callsFor sessionId calls).length 10) := by
  have hmin : (AdvancedProcessor.callsFor sessionId calls).length -
      min (AdvancedProcessor.callsFor sessionId calls).length 10 =
      (AdvancedProcessor.callsFor sessionId calls).length - 10 := by omega
  have hst : (JS.get (AdvancedProcessor.runUpdates AdvancedProcessor.fresh
      calls).conversationHistory sessionId).getD [] =
      ((AdvancedProcessor.callsFor sessionId calls).map AdvancedProcessor.turnOf).drop
        ((AdvancedProcessor.callsFor sessionId calls).length - 10) := by
    rw [AdvancedProcessor.history_after]
    by_cases hc : AdvancedProcessor.callsFor sessionId calls = []
    · simp [hc]
    · simp [hc]
  rw [hst, hmin]
  refine ⟨rfl, ?_, ?_, ?_⟩
  · simp; omega
  · simp; omega
  · rw [List.map_drop, List.map_map]
    rfl

namespace AdvancedProcessor

theorem runningAverage_snoc (cs : List ℚ) (c : ℚ) :
    runningAverage (cs ++ [c]) = (runningAverage cs + c) / 2 := by
  simp [runningAverage, List.foldl_append]

theorem weightedSum_snoc (cs : List ℚ) (c : ℚ) :
    weightedSum (cs ++ [c]) = (weightedSum cs + c) / 2 := by
  unfold weightedSum
  rw [List.length_append, List.length_singleton, Finset.sum_range_succ, add_div, Finset.sum_div]
  congr 1
  · apply Finset.sum_congr rfl
    intro i hi
    have hi2 : i < cs.length := Finset.mem_range.mp hi
    have h1 : cs.length + 1 - i = (cs.length - i) + 1 := by omega
    rw [List.getD_append _ _ _ _ hi2, h1, pow_succ, div_div]
  · simp [List.getD_append_right]

/-- The recurrence `avg <- (avg + c) / 2` from 0 is the sum of `c_i / 2^(n-i+1)`. -/
theorem runningAverage_eq_weightedSum (cs : List ℚ) : runningAverage cs = weightedSum cs := by
  induction cs using List.reverseRecOn with
  | nil => simp [runningAverage, weightedSum]
  | append_singleton cs c ih => rw [runningAverage_snoc, weightedSum_snoc, ih]

/-- The profile stored for a session after any sequence of calls on a fresh
processor: none before the first call for it; afterwards its counter is the
number of calls, its average follows the recurrence, and, where no intent of
these calls names a property inherited from `Object.prototype`, the counts
of its intent histogram add up to the number of calls. -/
theorem profile_after (sessionId : String) (calls : List Call) :
    match JS.get (runUpdates fresh calls).userProfiles sessionId with
    | none => callsFor sessionId calls = []
    | some p =>
      callsFor sessionId calls ≠ [] ∧
      p.messageCount = (callsFor sessionId calls).length ∧
      ((∀ c ∈ callsFor sessionId calls, JS.get JS.objectPrototype c.intent = none) →
        JS.sumCounts p.topIntents = some (callsFor sessionId calls).length) ∧
      p.avgConfidence = runningAverage ((callsFor sessionId calls).map Call.confidence) := by
  induction calls using List.reverseRecOn with
  | nil => simp [runUpdates, fresh, callsFor, JS.get, List.lookup]
  | append_singleton calls c ih =>
    rw [runUpdates_snoc, callsFor_snoc]
    by_cases h : c.sessionId = sessionId
    · subst h
      simp only [updateContext, touchProfile, JS.get_set_self, if_true]
      cases hp : JS.get (runUpdates fresh calls).userProfiles c.sessionId with
      | none =>
        rw [hp] at ih
        simp only at ih
        refine ⟨by simp, by simp [ih, bumpProfile], ?_, by simp [ih, bumpProfile, runningAverage]⟩
        intro hplain
        have hc : JS.get JS.objectPrototype c.intent = none :=
          hplain c (by simp)
        simpa [ih, bumpProfile] using JS.sumCounts_countUp [] c.intent 0 hc rfl
      | some p =>
        rw [hp] at ih
        obtain ⟨_, h1, h2, h3⟩ := ih
        refine ⟨by simp, by simp [h1, bumpProfile], ?_,
          by simp [h3, bumpProfile, runningAverage_snoc]⟩
        intro hplain
        have hc : JS.get JS.objectPrototype c.intent = none :=
          hplain c (by simp)
        have hrest := h2 (fun x hx => hplain x (List.mem_append_left _ hx))
        simpa [bumpProfile] using JS.sumCounts_countUp p.topIntents c.intent _ hc hrest
    · simp only [updateContext, touchProfile, if_neg h, List.append_nil]
      rw [JS.get_set_other _ _ _ _ h]
      exact ih

end AdvancedProcessor

/-- Claim C3, amended. For every session and every non-empty sequence of confidences
passed in order to `updateContext` for that session on a fresh processor
(calls for other sessions may be interleaved), a profile is stored and its
`avgConfidence` equals the fold `avg <- (avg + c) / 2` started at 0, which is
the sum over `i` of `c_i / 2^(n-i+1)`; for the confidences `[1, 1/2]` the
stored value is `((0 + 1)/2 + 1/2)/2 = 1/2`. -/
theorem C3_running_average_recurrence (sessionId : String) (calls : List Call)
    (hne : AdvancedProcessor.callsFor sessionId calls ≠ []) :
    (∃ p, JS.get (AdvancedProcessor.runUpdates AdvancedProcessor.fresh calls).userProfiles
        sessionId = some p ∧
      p.avgConfidence = AdvancedProcessor.runningAverage
        ((AdvancedProcessor.callsFor sessionId calls).map Call.confidence) ∧
      p.avgConfidence = AdvancedProcessor.weightedSum
        ((AdvancedProcessor.callsFor sessionId calls).map Call.confidence)) ∧
    (∀ (m1 m2 : Str) (i1 i2 : String) (n1 n2 : Nat),
      (JS.get (AdvancedProcessor.runUpdates AdvancedProcessor.fresh
        [{ sessionId := sessionId, message := m1, intent := i1, confidence := 1, now := n1 },
         { sessionId := sessionId, message := m2, intent := i2, confidence := 1 / 2,
           now := n2 }]).userProfiles sessionId).map Profile.avgConfidence = some (1 / 2)) := by
  constructor
  · have h := AdvancedProcessor.profile_after sessionId calls
    cases hp : JS.get (AdvancedProcessor.runUpdates AdvancedProcessor.fresh calls).userProfiles
        sessionId with
    | none => rw [hp] at h; exact absurd h hne
    | some p =>
      rw [hp] at h
      exact ⟨p, rfl, h.2.2.2, by
        rw [h.2.2.2, AdvancedProcessor.runningAverage_eq_weightedSum]⟩
  · intro m1 m2 i1 i2 n1 n2
    have h := AdvancedProcessor.profile_after sessionId
      [{ sessionId := sessionId, message := m1, intent := i1, confidence := 1, now := n1 },
       { sessionId := sessionId, message := m2, intent := i2, confidence := 1 / 2, now := n2 }]
    cases hp : JS.get (AdvancedProcessor.runUpdates AdvancedProcessor.fresh
        [{ sessionId := sessionId, message := m1, intent := i1, confidence := 1, now := n1 },
         { sessionId := sessionId, message := m2, intent := i2, confidence := 1 / 2,
           now := n2 }]).userProfiles sessionId with
    | none =>
      rw [hp] at h
      simp [AdvancedProcessor.callsFor] at h
    | some p =>
      rw [hp] at h
      have h4 := h.2.2.2
      simp only [AdvancedProcessor.callsFor, List.filter, decide_True, List.map,
        AdvancedProcessor.runningAverage, List.foldl] at h4
      simp only [Option.map_some', h4]
      norm_num

/-- Witness of C3: three calls for session `s1`, one for another session in between. -/
theorem C3_running_average_recurrence_witness :
    AdvancedProcessor.callsFor "s1"
      [{ sessionId := "s1", message := "hi".toList, intent := "greeting", confidence := 1,
         now := 5 },
       { sessionId := "s2", message := "x".toList, intent := "fallback", confidence := 1 / 5,
         now := 6 },
       { sessionId := "s1", message := "refund".toList, intent := "refund", confidence := 1 / 2,
         now := 7 }] ≠ [] ∧
    ((∃ p, JS.get (AdvancedProcessor.runUpdates AdvancedProcessor.fresh
        [{ sessionId := "s1", message := "hi".toList, intent := "greeting", confidence := 1,
           now := 5 },
         { sessionId := "s2", message := "x".toList, intent := "fallback", confidence := 1 / 5,
           now := 6 },
         { sessionId := "s1", message := "refund".toList, intent := "refund",
           confidence := 1 / 2, now := 7 }]).userProfiles "s1" = some p ∧
      p.avgConfidence = AdvancedProcessor.runningAverage
        ((AdvancedProcessor.callsFor "s1"
          [{ sessionId := "s1", message := "hi".toList, intent := "greeting", confidence := 1,
             now := 5 },
           { sessionId := "s2", message := "x".toList, intent := "fallback",
             confidence := 1 / 5, now := 6 },
           { sessionId := "s1", message := "refund".toList, intent := "refund",
             confidence := 1 / 2, now := 7 }]).map Call.confidence) ∧
      p.avgConfidence = AdvancedProcessor.weightedSum
        ((AdvancedProcessor.callsFor "s1"
          [{ sessionId := "s1", message := "hi".toList, intent := "greeting", confidence := 1,
             now := 5 },
           { sessionId := "s2", message := "x".toList, intent := "fallback",
             confidence := 1 / 5, now := 6 },
           { sessionId := "s1", message := "refund".toList, intent := "refund",
             confidence := 1 / 2, now := 7 }]).map Call.confidence)) ∧
    (∀ (m1 m2 : Str) (i1 i2 : String) (n1 n2 : Nat),
      (JS.get (AdvancedProcessor.runUpdates AdvancedProcessor.fresh
        [{ sessionId := "s1", message := m1, intent := i1, confidence := 1, now := n1 },
         { sessionId := "s1", message := m2, intent := i2, confidence := 1 / 2,
           now := n2 }]).userProfiles "s1").map Profile.avgConfidence = some (1 / 2))) :=
  ⟨by simp [AdvancedProcessor.callsFor], C3_running_average_recurrence "s1" _
    (by simp [AdvancedProcessor.callsFor])⟩

/-- Counterexample to C3 as stated: after the confidences `[1, 1/2]` for one
session the stored `avgConfidence` is `1/2`, not `5/8 = 0.625`. -/
theorem C3_stated_value_counterexample :
    (JS.get (AdvancedProcessor.runUpdates AdvancedProcessor.fresh
      [{ sessionId := "s1", message := "hello".toList, intent := "greeting", confidence := 1,
         now := 1 },
       { sessionId := "s1", message := "thanks".toList, intent := "thanks", confidence := 1 / 2,
         now := 2 }]).userProfiles "s1").map Profile.avgConfidence = some (1 / 2) ∧
    (JS.get (AdvancedProcessor.runUpdates AdvancedProcessor.fresh
      [{ sessionId := "s1", message := "hello".toList, intent := "greeting", confidence := 1,
         now := 1 },
       { sessionId := "s1", message := "thanks".toList, intent := "thanks", confidence := 1 / 2,
         now := 2 }]).userProfiles "s1").map Profile.avgConfidence ≠ some (5 / 8) := by
  have h : (JS.get (AdvancedProcessor.runUpdates AdvancedProcessor.fresh
      [{ sessionId := "s1", message := "hello".toList, intent := "greeting", confidence := 1,
         now := 1 },
       { sessionId := "s1", message := "thanks".toList, intent := "thanks", confidence := 1 / 2,
         now := 2 }]).userProfiles "s1").map Profile.avgConfidence = some (1 / 2) := by
    simp [AdvancedProcessor.runUpdates, AdvancedProcessor.fresh, AdvancedProcessor.updateContext,
      AdvancedProcessor.touchProfile, AdvancedProcessor.bumpProfile, JS.get, JS.set, List.lookup,
      JS.assign, JS.countUp]
  refine ⟨h, ?_⟩
  rw [h]
  norm_num

namespace AdvancedProcessor

/-- For every session id, after any sequence of calls of `updateContext` on a
fresh processor that contains a call for that session, the stored profile
has `messageCount` equal to the number of calls made for that session id
(whether or not it exceeds the window of 10 turns); where no intent of these
calls names a property inherited from `Object.prototype`, this number is the
sum of the counts in `topIntents`. -/
theorem message_count_is_cumulative (sessionId : String) (calls : List Call)
    (hne : callsFor sessionId calls ≠ []) :
    ∃ p, JS.get (runUpdates fresh calls).userProfiles sessionId = some p ∧
      p.messageCount = (callsFor sessionId calls).length ∧
      ((∀ c ∈ callsFor sessionId calls, JS.get JS.objectPrototype c.intent = none) →
        JS.sumCounts p.topIntents = some p.messageCount) := by
  have h := profile_after sessionId calls
  cases hp : JS.get (runUpdates fresh calls).userProfiles sessionId with
  | none => rw [hp] at h; exact absurd h hne
  | some p =>
    rw [hp] at h
    exact ⟨p, rfl, h.2.1, fun hplain => by rw [h.2.1, h.2.2.1 hplain]⟩

/-- Twelve calls for one session, more than the window holds, with a catalog intent. -/
theorem message_count_of_twelve_calls :
    ∃ p, JS.get (runUpdates fresh (List.replicate 12
        (Call.mk "s1" "hi".toList "greeting" (1 / 2) 0))).userProfiles "s1" = some p ∧
      p.messageCount = 12 ∧ JS.sumCounts p.topIntents = some 12 := by
  have hlen : (callsFor "s1" (List.replicate 12
      (Call.mk "s1" "hi".toList "greeting" (1 / 2) 0))).length = 12 := by
    simp [callsFor, List.replicate]
  obtain ⟨p, hp, h1, h2⟩ := message_count_is_cumulative "s1" (List.replicate 12
    (Call.mk "s1" "hi".toList "greeting" (1 / 2) 0)) (by simp [callsFor, List.replicate])
  refine ⟨p, hp, by rw [h1, hlen], ?_⟩
  rw [h2 (fun c hc => ?_), h1, hlen]
  have hmem := (List.mem_filter.mp hc).1
  rw [List.eq_of_mem_replicate hmem]
  decide

end AdvancedProcessor

/-- Claim C4 at an intent whose name an object inherits from
`Object.prototype`. After one call of `updateContext` on a fresh processor
with the intent `constructor`, the profile of the session has `messageCount`
1, while `topIntents` holds under that name the text of the inherited
function followed by `1`, so that its values have no sum. With the intent
`__proto__` the profile has `messageCount` 1 and `topIntents` stays empty,
so that its values add up to 0. -/
theorem C4_inherited_intent_name_is_not_counted :
    (JS.get (AdvancedProcessor.updateContext AdvancedProcessor.fresh "s1" "hi".toList
        "constructor" (1 / 2) 0).userProfiles "s1").map
      (fun p => (p.messageCount, p.topIntents, JS.sumCounts p.topIntents)) =
      some (1, [("constructor",
        JS.Value.text "function Object() \x7b [native code] \x7d1".toList)], none) ∧
    (JS.get (AdvancedProcessor.updateContext AdvancedProcessor.fresh "s1" "hi".toList
        "__proto__" (1 / 2) 0).userProfiles "s1").map
      (fun p => (p.messageCount, p.topIntents, JS.sumCounts p.topIntents)) =
      some (1, [], some 0) := by
  decide!

/-! ## Confidence bounds of the context-aware processor -/

namespace AdvancedProcessor

theorem detectStep_ok (weights : List (Str × ℚ)) (text : Str) (b : Best) (d : IntentDef)
    (hb : BestOk b) : BestOk (detectStep weights text b d) := by
  unfold detectStep
  by_cases h : intentScore weights text d > b.score
  · have hpos : 0 < intentScore weights text d := lt_of_le_of_lt hb.1 h
    simp only [h, if_true]
    refine ⟨le_of_lt hpos, le_min ?_ (by norm_num), min_le_right _ _⟩
    have : 0 ≤ intentScore weights text d / 3 := div_nonneg (le_of_lt hpos) (by norm_num)
    linarith
  · simpa only [h, if_false] using hb

theorem foldl_detectStep_ok (weights : List (Str × ℚ)) (text : Str) (intents : List IntentDef)
    (b : Best) (hb : BestOk b) : BestOk (intents.foldl (detectStep weights text) b) := by
  induction intents generalizing b with
  | nil => simpa using hb
  | cons d rest ih => exact ih _ (detectStep_ok weights text b d hb)

theorem detect_ok (intents : List IntentDef) (hist : List (String × List Turn)) (message : Str)
    (sessionId : String) : BestOk (detectIntentWithContext intents hist message sessionId) := by
  unfold detectIntentWithContext
  exact foldl_detectStep_ok _ _ _ _ ⟨le_refl _, le_refl _, by norm_num⟩

/-- The confidence that the `switch` of `process` returns, branch by branch. -/
theorem compose_confidence (templates : Templates) (demoOrders : List Order)
    (ir : Best) (orderId : Option Str) (sentiment : Sentiment) (context : Context)
    (random : Str) :
    (compose templates demoOrders ir orderId sentiment context random).confidence =
      if ir.intent = "greeting" then ir.confidence
      else if ir.intent = "order_status" then
        match orderId with
        | some orderId =>
          match demoOrders.find? (fun o => decide (o.id = orderId)) with
          | some _ => max ir.confidence (9 / 10)
          | none => 6 / 10
        | none => 7 / 10
      else if ir.intent = "refund" then ir.confidence
      else if ir.intent = "complaint" then ir.confidence
      else if ir.intent = "human_escalation" then 95 / 100
      else min ir.confidence (4 / 10) := by
  unfold compose
  by_cases hg : ir.intent = "greeting"
  · rw [if_pos hg, if_pos hg]
  · rw [if_neg hg, if_neg hg]
    by_cases ho : ir.intent = "order_status"
    · rw [if_pos ho, if_pos ho]
      cases orderId with
      | none => rfl
      | some oid =>
        cases hf : demoOrders.find? (fun o => decide (o.id = oid)) with
        | none => simp only [hf]
        | some o => simp only [hf]
    · rw [if_neg ho, if_neg ho]
      by_cases hr : ir.intent = "refund"
      · rw [if_pos hr, if_pos hr]
      · rw [if_neg hr, if_neg hr]
        by_cases hc : ir.intent = "complaint"
        · rw [if_pos hc, if_pos hc]
        · rw [if_neg hc, if_neg hc]
          by_cases hh : ir.intent = "human_escalation"
          · rw [if_pos hh, if_pos hh]
          · rw [if_neg hh, if_neg hh]

theorem compose_confidence_range (templates : Templates) (demoOrders : List Order)
    (ir : Best) (orderId : Option Str) (sentiment : Sentiment) (context : Context)
    (random : Str) (h0 : 0 ≤ ir.confidence) (h1 : ir.confidence ≤ 1) :
    0 ≤ (compose templates demoOrders ir orderId sentiment context random).confidence ∧
    (compose templates demoOrders ir orderId sentiment context random).confidence ≤ 1 := by
  rw [compose_confidence]
  split_ifs
  · exact ⟨h0, h1⟩
  · split
    · split
      · exact ⟨le_trans h0 (le_max_left _ _), max_le h1 (by norm_num)⟩
      · constructor <;> norm_num
    · constructor <;> norm_num
  · exact ⟨h0, h1⟩
  · exact ⟨h0, h1⟩
  · constructor <;> norm_num
  · exact ⟨le_min h0 (by norm_num), le_trans (min_le_left _ _) h1⟩

/-- The turn that `updateContext` appends is the last of the stored history. -/
theorem updateContext_last_turn (st : State) (sessionId : String) (message : Str)
    (intent : String) (confidence : ℚ) (now : Nat) :
    ∃ h, JS.get (updateContext st sessionId message intent confidence now).conversationHistory
        sessionId = some h ∧
      h.getLast? = some
        { message := message, intent := intent, confidence := confidence, timestamp := now } := by
  simp only [updateContext, pushTurn, JS.get_set_self]
  refine ⟨_, rfl, ?_⟩
  split_ifs with hlen
  · generalize (JS.get st.conversationHistory sessionId).getD [] = old at hlen ⊢
    cases old with
    | nil => simp at hlen
    | cons a rest => simp
  · simp

theorem process_confidence_range (intents : List IntentDef) (templates : Templates)
    (demoOrders : List Order) (st : State) (req : Request) (amb : Ambient) :
    0 ≤ (process intents templates demoOrders st req amb).1.confidence ∧
    (process intents templates demoOrders st req amb).1.confidence ≤ 1 := by
  have hb := detect_ok intents st.conversationHistory req.message req.sessionId
  exact compose_confidence_range templates demoOrders _ _ _ _ _ hb.2.1 hb.2.2

theorem processAll_confidence_range (intents : List IntentDef) (templates : Templates)
    (demoOrders : List Order) (inputs : List (Request × Ambient)) (st : State) :
    ∀ r ∈ (processAll intents templates demoOrders st inputs).1,
      0 ≤ r.confidence ∧ r.confidence ≤ 1 := by
  induction inputs generalizing st with
  | nil => simp [processAll]
  | cons x rest ih =>
    obtain ⟨req, amb⟩ := x
    intro r hr
    simp only [processAll, List.mem_cons] at hr
    rcases hr with hr | hr
    · rw [hr]
      exact process_confidence_range intents templates demoOrders st req amb
    · exact ih _ r hr

end AdvancedProcessor

/-- Claim C1. For every intent catalog, order catalog and template table,
every state of the processor and every sequence of requests (any session
ids) sent to `process`: every returned confidence lies in `[0,1]`; and for a
further request sent after that sequence, the returned confidence lies in
`[0,1]` and is the confidence of the turn that `updateContext` stored last
in the history of the request's session. -/
theorem C1_confidence_in_unit_interval (intents : List IntentDef) (templates : Templates)
    (demoOrders : List Order) (st : State) (inputs : List (Request × Ambient))
    (req : Request) (amb : Ambient) :
    (∀ r ∈ (AdvancedProcessor.processAll intents templates demoOrders st inputs).1,
      0 ≤ r.confidence ∧ r.confidence ≤ 1) ∧
    0 ≤ (AdvancedProcessor.process intents templates demoOrders
      (AdvancedProcessor.processAll intents templates demoOrders st inputs).2 req
      amb).1.confidence ∧
    (AdvancedProcessor.process intents templates demoOrders
      (AdvancedProcessor.processAll intents templates demoOrders st inputs).2 req
      amb).1.confidence ≤ 1 ∧
    ∃ h t, JS.get (AdvancedProcessor.process intents templates demoOrders
        (AdvancedProcessor.processAll intents templates demoOrders st inputs).2 req
        amb).2.conversationHistory req.sessionId = some h ∧
      h.getLast? = some t ∧ t.message = req.message ∧
      t.confidence = (AdvancedProcessor.process intents templates demoOrders
        (AdvancedProcessor.processAll intents templates demoOrders st inputs).2 req
        amb).1.confidence := by
  refine ⟨AdvancedProcessor.processAll_confidence_range intents templates demoOrders inputs st,
    (AdvancedProcessor.process_confidence_range _ _ _ _ _ _).1,
    (AdvancedProcessor.process_confidence_range _ _ _ _ _ _).2, ?_⟩
  obtain ⟨h, h1, h2⟩ := AdvancedProcessor.updateContext_last_turn
    (AdvancedProcessor.processAll intents templates demoOrders st inputs).2 req.sessionId
    req.message
    (AdvancedProcessor.detectIntentWithContext intents
      (AdvancedProcessor.processAll intents templates demoOrders st
        inputs).2.conversationHistory req.message req.sessionId).intent
    (AdvancedProcessor.process intents templates demoOrders
      (AdvancedProcessor.processAll intents templates demoOrders st inputs).2 req
      amb).1.confidence amb.now
  exact ⟨h, _, h1, h2, rfl, rfl⟩

/-! ## Order identifiers -/

namespace JS

theorem digitRun_le_length (s : Str) : digitRun s ≤ s.length := by
  unfold digitRun
  exact (List.takeWhile_sublist _).length_le

/-- A start of the text made of digits is no longer than the digit run. -/
theorem length_le_digitRun (ds post : Str) (h : ds.all Char.isDigit = true) :
    ds.length ≤ digitRun (ds ++ post) := by
  induction ds with
  | nil => simp
  | cons d rest ih =>
    simp only [List.all_cons, Bool.and_eq_true] at h
    simp only [digitRun, List.cons_append, List.takeWhile_cons, h.1, if_true, List.length_cons]
    exact Nat.succ_le_succ (ih h.2)

/-- The first `k` characters are digits when `k` is at most the digit run. -/
theorem all_take_digitRun (s : Str) (k : Nat) (hk : k ≤ digitRun s) :
    (s.take k).all Char.isDigit = true := by
  induction s generalizing k with
  | nil => simp
  | cons c cs ih =>
    cases k with
    | zero => simp
    | succ k =>
      by_cases hc : c.isDigit = true
      · simp only [digitRun, List.takeWhile_cons, hc, if_true, List.length_cons] at hk
        simp only [List.take_succ_cons, List.all_cons, hc, Bool.true_and]
        exact ih k (by unfold digitRun; omega)
      · simp [digitRun, List.takeWhile_cons, hc] at hk

/-- A match of `ORD[0-9]{3,6}` at the start of `s` is an `ORD` code, the longest that starts `s`. -/
theorem matchOrd_some (s : Str) (n : Nat) (h : matchOrd s = some n) :
    isOrdCode (s.take n) = true ∧ (s.take n).length = n ∧
      ∀ m2 post2, s = m2 ++ post2 → isOrdCode m2 = true → m2.length ≤ n := by
  match s, h with
  | a :: b :: c :: rest, h =>
    simp only [matchOrd] at h
    split_ifs at h with hc
    simp only [Bool.and_eq_true, beq_iff_eq, decide_eq_true_eq] at hc
    obtain ⟨⟨⟨ha, hb⟩, hcc⟩, hr⟩ := hc
    have hn : n = 3 + min 6 (digitRun rest) := by simpa using h.symm
    have hlen := digitRun_le_length rest
    subst hn
    have htake : (a :: b :: c :: rest).take (3 + min 6 (digitRun rest)) =
        a :: b :: c :: rest.take (min 6 (digitRun rest)) := by
      rw [show 3 + min 6 (digitRun rest) = (min 6 (digitRun rest)) + 1 + 1 + 1 by omega]
      rfl
    refine ⟨?_, ?_, ?_⟩
    · rw [htake]
      simp only [isOrdCode, ha, hb, hcc, beq_self_eq_true, Bool.true_and, List.length_take,
        Bool.and_eq_true, decide_eq_true_eq]
      exact ⟨⟨by omega, by omega⟩, all_take_digitRun rest _ (min_le_right _ _)⟩
    · rw [htake]
      simp only [List.length_cons, List.length_take]
      omega
    · intro m2 post2 hs hm2
      match m2, hm2 with
      | a2 :: b2 :: c2 :: ds2, hm2 =>
        simp only [isOrdCode, Bool.and_eq_true, beq_iff_eq, decide_eq_true_eq] at hm2
        simp only [List.cons_append, List.cons.injEq] at hs
        obtain ⟨_, _, _, hrest⟩ := hs
        have := length_le_digitRun ds2 post2 hm2.2
        rw [← hrest] at this
        simp only [List.length_cons]
        omega

/-- Where `ORD[0-9]{3,6}` does not match, no `ORD` code starts the text. -/
theorem matchOrd_none (s : Str) (h : matchOrd s = none) (m2 post2 : Str) (hs : s = m2 ++ post2) :
    isOrdCode m2 = false := by
  cases hm : isOrdCode m2 with
  | false => rfl
  | true =>
    exfalso
    match m2, hm with
    | a2 :: b2 :: c2 :: ds2, hm =>
      simp only [isOrdCode, Bool.and_eq_true, beq_iff_eq, decide_eq_true_eq] at hm
      subst hs
      have hrun := length_le_digitRun ds2 post2 hm.2
      simp only [List.cons_append, matchOrd, hm.1.1.1.1.1, hm.1.1.1.1.2, hm.1.1.1.2,
        beq_self_eq_true, Bool.true_and, decide_eq_true_eq] at h
      split_ifs at h with hc
      omega

end JS

namespace JS

/-- The search for `ORD[0-9]{3,6}`: without a result no part of the text is
an `ORD` code; a result is the leftmost `ORD` code of the text, with as many
digits as that place allows. -/
theorem search_matchOrd (text : Str) (prev : Option Char) :
    match search (fun _ s => matchOrd s) prev text with
    | none => ∀ pre m post, text = pre ++ m ++ post → isOrdCode m = false
    | some m =>
      ∃ pre post, text = pre ++ m ++ post ∧ isOrdCode m = true ∧
        (∀ pre2 m2 post2, text = pre2 ++ m2 ++ post2 → isOrdCode m2 = true →
          pre.length ≤ pre2.length) ∧
        (∀ m2 post2, m ++ post = m2 ++ post2 → isOrdCode m2 = true → m2.length ≤ m.length) := by
  induction text generalizing prev with
  | nil =>
    simp only [search, matchOrd, Option.map_none']
    intro pre m post h
    have hm : m = [] := by
      have := congrArg List.length h
      simp only [List.length_nil, List.length_append] at this
      exact List.eq_nil_of_length_eq_zero (by omega)
    rw [hm]
    rfl
  | cons c cs ih =>
    simp only [search]
    cases hmo : matchOrd (c :: cs) with
    | some n =>
      simp only
      obtain ⟨h1, h2, h3⟩ := matchOrd_some _ _ hmo
      refine ⟨[], (c :: cs).drop n, by simp, h1, fun _ _ _ _ _ => Nat.zero_le _, ?_⟩
      intro m2 post2 hs hm2
      rw [List.take_append_drop] at hs
      rw [h2]
      exact h3 m2 post2 hs hm2
    | none =>
      simp only
      have ih2 := ih (some c)
      cases hse : search (fun _ s => matchOrd s) (some c) cs with
      | none =>
        rw [hse] at ih2
        simp only at ih2 ⊢
        intro pre m post h
        cases pre with
        | nil => exact matchOrd_none _ hmo m post (by simpa using h)
        | cons p pre2 =>
          simp only [List.cons_append, List.cons.injEq] at h
          exact ih2 pre2 m post h.2
      | some m =>
        rw [hse] at ih2
        simp only at ih2 ⊢
        obtain ⟨pre, post, h1, h2, h3, h4⟩ := ih2
        refine ⟨c :: pre, post, by simp [h1], h2, ?_, h4⟩
        intro pre2 m2 post2 hs hm2
        cases pre2 with
        | nil =>
          have := matchOrd_none _ hmo m2 post2 (by simpa using hs)
          rw [this] at hm2
          exact absurd hm2 (by simp)
        | cons p pre3 =>
          simp only [List.cons_append, List.cons.injEq] at hs
          simp only [List.length_cons]
          exact Nat.succ_le_succ (h3 pre3 m2 post2 hs.2 hm2)

end JS

/-- Claim C5. For every text that contains a part matching `ORD` (any letter
case) followed by 3 to 6 digits, `AdvancedProcessor.findOrderId` returns the
upper-cased leftmost such part, with as many digits as possible up to 6,
whatever digit runs or `#` codes the text also contains and wherever they
stand; for `order ORD1001 or 12345` it returns `ORD1001`. -/
theorem C5_findOrderId_prefers_ord_code (text : Str)
    (h : ∃ pre m post, text = pre ++ m ++ post ∧ isOrdCode m = true) :
    (∃ pre m post, text = pre ++ m ++ post ∧ isOrdCode m = true ∧
      (∀ pre2 m2 post2, text = pre2 ++ m2 ++ post2 → isOrdCode m2 = true →
        pre.length ≤ pre2.length) ∧
      (∀ m2 post2, m ++ post = m2 ++ post2 → isOrdCode m2 = true → m2.length ≤ m.length) ∧
      AdvancedProcessor.findOrderId text = some (JS.toUpperCase m)) ∧
    AdvancedProcessor.findOrderId "order ORD1001 or 12345".toList = some "ORD1001".toList := by
  refine ⟨?_, by decide⟩
  have hs := JS.search_matchOrd text none
  cases hse : JS.search (fun _ s => JS.matchOrd s) none text with
  | none =>
    rw [hse] at hs
    obtain ⟨pre, m, post, h1, h2⟩ := h
    have := hs pre m post h1
    rw [this] at h2
    exact absurd h2 (by simp)
  | some m =>
    rw [hse] at hs
    obtain ⟨pre, post, h1, h2, h3, h4⟩ := hs
    exact ⟨pre, m, post, h1, h2, h3, h4, by simp only [AdvancedProcessor.findOrderId, hse]⟩

/-- Witness of C5: a bare number and a `#` code stand before the `ORD` code. -/
theorem C5_findOrderId_prefers_ord_code_witness :
    (∃ pre m post, "call 5551234 #4321 about ord10019999".toList = pre ++ m ++ post ∧
      isOrdCode m = true) ∧
    ((∃ pre m post, "call 5551234 #4321 about ord10019999".toList = pre ++ m ++ post ∧
      isOrdCode m = true ∧
      (∀ pre2 m2 post2, "call 5551234 #4321 about ord10019999".toList = pre2 ++ m2 ++ post2 →
        isOrdCode m2 = true → pre.length ≤ pre2.length) ∧
      (∀ m2 post2, m ++ post = m2 ++ post2 → isOrdCode m2 = true → m2.length ≤ m.length) ∧
      AdvancedProcessor.findOrderId "call 5551234 #4321 about ord10019999".toList =
        some (JS.toUpperCase m)) ∧
    AdvancedProcessor.findOrderId "order ORD1001 or 12345".toList = some "ORD1001".toList) :=
  ⟨⟨"call 5551234 #4321 about ".toList, "ord100199".toList, "99".toList, by decide, by decide⟩,
    C5_findOrderId_prefers_ord_code _
      ⟨"call 5551234 #4321 about ".toList, "ord100199".toList, "99".toList, by decide,
        by decide⟩⟩

/-! ## The decision of `detectIntentWithContext` -/

namespace AdvancedProcessor

/-- Entries that do not beat the current best leave it unchanged. -/
theorem foldl_detectStep_of_le (weights : List (Str × ℚ)) (text : Str)
    (intents : List IntentDef) (b : Best)
    (hle : ∀ d ∈ intents, intentScore weights text d ≤ b.score) :
    intents.foldl (detectStep weights text) b = b := by
  induction intents with
  | nil => rfl
  | cons x rest ih =>
    have hx : ¬ intentScore weights text x > b.score :=
      not_lt.mpr (hle x (List.mem_cons_self _ _))
    simp only [List.foldl_cons, detectStep, hx, if_false]
    exact ih (fun d hd => hle d (List.mem_cons_of_mem _ hd))

/-- When some entry beats the current best, the loop ends on the first entry
of maximal score. -/
theorem foldl_detectStep_first_max (weights : List (Str × ℚ)) (text : Str)
    (intents : List IntentDef) (b : Best)
    (hex : ∃ d ∈ intents, b.score < intentScore weights text d) :
    ∃ pre d post, intents = pre ++ d :: post ∧
      (∀ e ∈ pre, intentScore weights text e < intentScore weights text d) ∧
      (∀ e ∈ post, intentScore weights text e ≤ intentScore weights text d) ∧
      b.score < intentScore weights text d ∧
      intents.foldl (detectStep weights text) b =
        { intent := d.name, score := intentScore weights text d
          confidence := min (intentScore weights text d / 3 + 2 / 10) 1 } := by
  induction intents generalizing b with
  | nil =>
    obtain ⟨d, hd, _⟩ := hex
    exact absurd hd (List.not_mem_nil d)
  | cons x rest ih =>
    by_cases hx : intentScore weights text x > b.score
    · have hstep : detectStep weights text b x =
          { intent := x.name, score := intentScore weights text x
            confidence := min (intentScore weights text x / 3 + 2 / 10) 1 } := by
        simp only [detectStep, hx, if_true]
      by_cases hrest : ∃ d ∈ rest, intentScore weights text x < intentScore weights text d
      · obtain ⟨pre, d, post, h1, h2, h3, h4, h5⟩ := ih (detectStep weights text b x)
          (by rw [hstep]; exact hrest)
        rw [hstep] at h4
        refine ⟨x :: pre, d, post, by rw [h1]; rfl, ?_, h3, lt_trans hx h4, ?_⟩
        · intro e he
          rcases List.mem_cons.mp he with he | he
          · rw [he]; exact h4
          · exact h2 e he
        · simpa only [List.foldl_cons] using h5
      · have hle : ∀ d ∈ rest, intentScore weights text d ≤ intentScore weights text x := by
          intro d hd
          exact not_lt.mp (fun hlt => hrest ⟨d, hd, hlt⟩)
        refine ⟨[], x, rest, rfl, by simp, hle, hx, ?_⟩
        simp only [List.foldl_cons, hstep]
        exact foldl_detectStep_of_le weights text rest _ hle
    · have hstep : detectStep weights text b x = b := by
        simp only [detectStep, hx, if_false]
      obtain ⟨d, hd, hlt⟩ := hex
      have hdrest : d ∈ rest := by
        rcases List.mem_cons.mp hd with hd | hd
        · rw [hd] at hlt; exact absurd hlt hx
        · exact hd
      obtain ⟨pre, d2, post, h1, h2, h3, h4, h5⟩ := ih b ⟨d, hdrest, hlt⟩
      refine ⟨x :: pre, d2, post, by rw [h1]; rfl, ?_, h3, h4, ?_⟩
      · intro e he
        rcases List.mem_cons.mp he with he | he
        · rw [he]; exact lt_of_le_of_lt (not_lt.mp hx) h4
        · exact h2 e he
      · simpa only [List.foldl_cons, hstep] using h5

end AdvancedProcessor

/-- Claim C6. For every intent catalog (an ordered list), message and
session history, if some catalog entry has a combined score greater than
zero, then `detectIntentWithContext` returns the name of the entry that
comes first in catalog order among those of maximal combined score (every
entry before it scores strictly less, every entry after it scores at most
as much), and the returned score is that maximum. -/
theorem C6_first_maximal_intent_wins (intents : List IntentDef)
    (hist : List (String × List Turn)) (message : Str) (sessionId : String)
    (hpos : ∃ d ∈ intents, 0 < AdvancedProcessor.combinedScore hist message sessionId d) :
    ∃ pre d post, intents = pre ++ d :: post ∧
      (∀ e ∈ pre, AdvancedProcessor.combinedScore hist message sessionId e <
        AdvancedProcessor.combinedScore hist message sessionId d) ∧
      (∀ e ∈ post, AdvancedProcessor.combinedScore hist message sessionId e ≤
        AdvancedProcessor.combinedScore hist message sessionId d) ∧
      (AdvancedProcessor.detectIntentWithContext intents hist message sessionId).intent =
        d.name ∧
      (AdvancedProcessor.detectIntentWithContext intents hist message sessionId).score =
        AdvancedProcessor.combinedScore hist message sessionId d := by
  obtain ⟨pre, d, post, h1, h2, h3, _, h5⟩ := AdvancedProcessor.foldl_detectStep_first_max
    (AdvancedProcessor.contextWeights (((JS.get hist sessionId).getD []).drop
      (((JS.get hist sessionId).getD []).length - 3)))
    (AdvancedProcessor.normalize message) intents
    { intent := "fallback", score := 0, confidence := 0 } hpos
  refine ⟨pre, d, post, h1, h2, h3, ?_, ?_⟩
  · simp only [AdvancedProcessor.detectIntentWithContext, h5]
  · simp only [AdvancedProcessor.detectIntentWithContext, h5]
    rfl

/-- Witness of C6: two entries tie on the message `Hello there`; the first is returned. -/
theorem C6_first_maximal_intent_wins_witness :
    (∃ d ∈ sampleCatalog,
      0 < AdvancedProcessor.combinedScore [] "Hello there".toList "s1" d) ∧
    ∃ pre d post, sampleCatalog = pre ++ d :: post ∧
      (∀ e ∈ pre, AdvancedProcessor.combinedScore [] "Hello there".toList "s1" e <
        AdvancedProcessor.combinedScore [] "Hello there".toList "s1" d) ∧
      (∀ e ∈ post, AdvancedProcessor.combinedScore [] "Hello there".toList "s1" e ≤
        AdvancedProcessor.combinedScore [] "Hello there".toList "s1" d) ∧
      (AdvancedProcessor.detectIntentWithContext sampleCatalog [] "Hello there".toList
        "s1").intent = d.name ∧
      (AdvancedProcessor.detectIntentWithContext sampleCatalog [] "Hello there".toList
        "s1").score = AdvancedProcessor.combinedScore [] "Hello there".toList "s1" d :=
  ⟨by decide!, C6_first_maximal_intent_wins sampleCatalog [] "Hello there".toList "s1"
    (by decide!)⟩

/-- Claim C7, amended. For every intent catalog, message and session history:
when the returned best score is above zero, which is the case exactly when
some catalog entry has a combined score above zero, the confidence returned
by `detectIntentWithContext` is `clamp(score/3 + 0.2, 0, 1)` and is nonzero;
otherwise the result is intent `fallback` with score 0 and confidence 0. -/
theorem C7_confidence_of_detect (intents : List IntentDef)
    (hist : List (String × List Turn)) (message : Str) (sessionId : String) :
    (AdvancedProcessor.detectIntentWithContext intents hist message sessionId).confidence =
      (if 0 < (AdvancedProcessor.detectIntentWithContext intents hist message sessionId).score
       then max 0 (min ((AdvancedProcessor.detectIntentWithContext intents hist message
          sessionId).score / 3 + 2 / 10) 1)
       else 0) ∧
    (0 < (AdvancedProcessor.detectIntentWithContext intents hist message sessionId).score ↔
      ∃ d ∈ intents, 0 < AdvancedProcessor.combinedScore hist message sessionId d) ∧
    (if 0 < (AdvancedProcessor.detectIntentWithContext intents hist message sessionId).score
     then 0 < (AdvancedProcessor.detectIntentWithContext intents hist message
        sessionId).confidence
     else AdvancedProcessor.detectIntentWithContext intents hist message sessionId =
        { intent := "fallback", score := 0, confidence := 0 }) := by
  by_cases hpos : ∃ d ∈ intents, 0 < AdvancedProcessor.combinedScore hist message sessionId d
  · obtain ⟨pre, d, post, _, _, _, h4, h5⟩ := AdvancedProcessor.foldl_detectStep_first_max
      (AdvancedProcessor.contextWeights (((JS.get hist sessionId).getD []).drop
        (((JS.get hist sessionId).getD []).length - 3)))
      (AdvancedProcessor.normalize message) intents
      { intent := "fallback", score := 0, confidence := 0 } hpos
    have hd : AdvancedProcessor.detectIntentWithContext intents hist message sessionId = _ := h5
    rw [hd]
    simp only at h4 ⊢
    have hc : 0 ≤ min (AdvancedProcessor.intentScore
        (AdvancedProcessor.contextWeights (((JS.get hist sessionId).getD []).drop
          (((JS.get hist sessionId).getD []).length - 3)))
        (AdvancedProcessor.normalize message) d / 3 + 2 / 10) 1 := by
      refine le_min ?_ (by norm_num)
      have := div_nonneg (le_of_lt h4) (by norm_num : (0 : ℚ) ≤ 3)
      linarith
    have hc2 : 0 < min (AdvancedProcessor.intentScore
        (AdvancedProcessor.contextWeights (((JS.get hist sessionId).getD []).drop
          (((JS.get hist sessionId).getD []).length - 3)))
        (AdvancedProcessor.normalize message) d / 3 + 2 / 10) 1 := by
      refine lt_min ?_ (by norm_num)
      have := div_nonneg (le_of_lt h4) (by norm_num : (0 : ℚ) ≤ 3)
      linarith
    refine ⟨?_, ?_, ?_⟩
    · rw [if_pos h4, max_eq_right hc]
    · exact ⟨fun _ => hpos, fun _ => h4⟩
    · rw [if_pos h4]
      exact hc2
  · have hle : ∀ d ∈ intents, AdvancedProcessor.intentScore
        (AdvancedProcessor.contextWeights (((JS.get hist sessionId).getD []).drop
          (((JS.get hist sessionId).getD []).length - 3)))
        (AdvancedProcessor.normalize message) d ≤
        ({ intent := "fallback", score := 0, confidence := 0 } : Best).score := by
      intro d hd
      exact not_lt.mp (fun hlt => hpos ⟨d, hd, hlt⟩)
    have hd : AdvancedProcessor.detectIntentWithContext intents hist message sessionId =
        { intent := "fallback", score := 0, confidence := 0 } :=
      AdvancedProcessor.foldl_detectStep_of_le _ _ intents _ hle
    rw [hd]
    simp only [lt_self_iff_false, if_false]
    exact ⟨trivial, ⟨fun h => absurd h (by simp), fun h => absurd h hpos⟩, trivial⟩

/-- Counterexample to C7 as stated: for the message `zz`, which matches no
entry of the sample catalog, `detectIntentWithContext` returns intent
`fallback` with score 0 and confidence 0, whereas `clamp(0/3 + 0.2, 0, 1)`
is `1/5`. -/
theorem C7_fallback_confidence_is_zero :
    AdvancedProcessor.detectIntentWithContext sampleCatalog [] "zz".toList "s1" =
      { intent := "fallback", score := 0, confidence := 0 } ∧
    (AdvancedProcessor.detectIntentWithContext sampleCatalog [] "zz".toList "s1").confidence ≠
      max 0 (min ((AdvancedProcessor.detectIntentWithContext sampleCatalog [] "zz".toList
        "s1").score / 3 + 2 / 10) 1) := by
  decide!

/-! ## Tokens -/

namespace JS

theorem mem_setOf (l : List Str) (t : Str) : t ∈ setOf l ↔ t ∈ l := by
  induction l with
  | nil => simp [setOf]
  | cons a rest ih =>
    simp only [setOf, List.mem_cons, List.mem_filter, ih, bne_iff_ne, ne_eq]
    constructor
    · rintro (h | ⟨h, _⟩)
      · exact Or.inl h
      · exact Or.inr h
    · intro h
      by_cases hta : t = a
      · exact Or.inl hta
      · rcases h with h | h
        · exact Or.inl h
        · exact Or.inr ⟨h, hta⟩

theorem splitBy_cons_form (p : Char → Bool) (s : Str) : ∃ w ws, splitBy p s = w :: ws := by
  cases s with
  | nil => exact ⟨[], [], rfl⟩
  | cons c cs =>
    by_cases hc : p c = true
    · exact ⟨[], splitBy p cs, by simp [splitBy, hc]⟩
    · cases hs : splitBy p cs with
      | nil => exact ⟨[c], [], by simp [splitBy, hc, hs]⟩
      | cons w ws => exact ⟨c :: w, ws, by simp [splitBy, hc, hs]⟩

theorem splitBy_cons_pos (p : Char → Bool) (c : Char) (cs : Str) (hc : p c = true) :
    splitBy p (c :: cs) = [] :: splitBy p cs := by
  simp [splitBy, hc]

theorem splitBy_cons_neg (p : Char → Bool) (c : Char) (cs w : Str) (ws : List Str)
    (hc : ¬ p c = true) (hs : splitBy p cs = w :: ws) :
    splitBy p (c :: cs) = (c :: w) :: ws := by
  simp [splitBy, hc, hs]

/-- A separator between two texts separates their pieces. -/
theorem splitBy_append_sep (p : Char → Bool) (x y : Str) (c : Char) (hc : p c = true) :
    splitBy p (x ++ c :: y) = splitBy p x ++ splitBy p y := by
  induction x with
  | nil => simp [splitBy, hc]
  | cons a x ih =>
    by_cases ha : p a = true
    · simp [splitBy, ha, ih]
    · obtain ⟨w, ws, hw⟩ := splitBy_cons_form p x
      rw [List.cons_append, splitBy_cons_neg p a _ w (ws ++ splitBy p y) ha (by rw [ih, hw]; rfl),
        splitBy_cons_neg p a x w ws ha hw]
      rfl

theorem words_append_sep (x y : Str) (c : Char) (hc : isSpace c = true) :
    words (x ++ c :: y) = words x ++ words y := by
  simp [words, filterBoolean, splitBy_append_sep isSpace x y c hc]

theorem words_dropWhile (s : Str) : words (s.dropWhile isSpace) = words s := by
  induction s with
  | nil => rfl
  | cons c cs ih =>
    by_cases hc : isSpace c = true
    · rw [List.dropWhile_cons_of_pos hc, ih]
      simp [words, filterBoolean, splitBy_cons_pos isSpace c cs hc]
    · rw [List.dropWhile_cons_of_neg hc]

theorem words_trim (s : Str) : words (trim s) = words s := by
  unfold trim
  rw [← words_dropWhile s]
  generalize s.dropWhile isSpace = t
  induction t using List.reverseRecOn with
  | nil => rfl
  | append_singleton x c ih =>
    by_cases hc : isSpace c = true
    · rw [List.reverse_append, List.reverse_singleton, List.singleton_append,
        List.dropWhile_cons_of_pos hc, ih, words_append_sep x [] c hc]
      simp [words, filterBoolean, splitBy]
    · rw [List.reverse_append, List.reverse_singleton, List.singleton_append,
        List.dropWhile_cons_of_neg hc]
      simp

end JS

namespace JS

theorem isSpace_blank : isSpace ' ' = true := by decide

theorem not_blank_of_not_isSpace (c : Char) (hc : ¬ isSpace c = true) : ¬ (c == ' ') = true := by
  intro h
  rw [beq_iff_eq] at h
  rw [h] at hc
  exact hc isSpace_blank

/-- Splitting the collapsed text at blanks and splitting the text at white
space give the same first piece and the same non-empty later pieces. -/
theorem split_collapse (s : Str) :
    ∃ w ws1 ws2, splitSpace (collapseSpaces s) = w :: ws1 ∧ splitBy isSpace s = w :: ws2 ∧
      filterBoolean ws1 = filterBoolean ws2 := by
  induction s using collapseSpaces.induct with
  | case1 => exact ⟨[], [], [], rfl, rfl, rfl⟩
  | case2 c hc =>
    refine ⟨[], [[]], [[]], ?_, ?_, rfl⟩
    · simp [collapseSpaces, hc, splitSpace, splitBy]
    · simp [splitBy, hc]
  | case3 c hc =>
    refine ⟨[c], [], [], ?_, ?_, rfl⟩
    · have := not_blank_of_not_isSpace c hc
      simp only [beq_iff_eq] at this
      simp [collapseSpaces, hc, splitSpace, splitBy, this]
    · simp [splitBy, hc]
  | case4 c d cs hc hd ih =>
    obtain ⟨w, ws1, ws2, h1, h2, h3⟩ := ih
    rw [splitBy_cons_pos isSpace d cs hd] at h2
    have hw : w = [] := (List.cons.inj h2).1.symm
    have hws : ws2 = splitBy isSpace cs := (List.cons.inj h2).2.symm
    subst hw
    refine ⟨[], ws1, [] :: ws2, ?_, ?_, ?_⟩
    · simp only [collapseSpaces, hc, hd, if_true]
      exact h1
    · rw [splitBy_cons_pos isSpace c _ hc, splitBy_cons_pos isSpace d cs hd, hws]
    · rw [h3]
      simp [filterBoolean]
  | case5 c d cs hc hd ih =>
    obtain ⟨w, ws1, ws2, h1, h2, h3⟩ := ih
    refine ⟨[], w :: ws1, w :: ws2, ?_, ?_, ?_⟩
    · have hcol : collapseSpaces (c :: d :: cs) = ' ' :: collapseSpaces (d :: cs) := by
        simp [collapseSpaces, hc, hd]
      rw [hcol, splitSpace, splitBy_cons_pos (fun c => c == ' ') ' ' _ (by decide)]
      exact congrArg _ h1
    · rw [splitBy_cons_pos isSpace c _ hc, h2]
    · simp only [filterBoolean, List.filter_cons] at h3 ⊢
      rw [h3]
  | case6 c d cs hc ih =>
    obtain ⟨w, ws1, ws2, h1, h2, h3⟩ := ih
    refine ⟨c :: w, ws1, ws2, ?_, ?_, h3⟩
    · simp only [collapseSpaces, hc, if_false]
      exact splitBy_cons_neg _ c _ w ws1 (not_blank_of_not_isSpace c hc) h1
    · exact splitBy_cons_neg isSpace c _ w ws2 hc h2

theorem filterBoolean_split_collapse (s : Str) :
    filterBoolean (splitSpace (collapseSpaces s)) = words s := by
  obtain ⟨w, ws1, ws2, h1, h2, h3⟩ := split_collapse s
  simp only [filterBoolean] at h3
  simp only [words, h1, h2, filterBoolean, List.filter_cons, h3]

end JS

namespace JS

theorem includes_iff_infix (s kw : Str) : includes s kw = true ↔ kw <:+: s := by
  induction s with
  | nil =>
    cases kw with
    | nil => simp [includes]
    | cons a rest => simp [includes]
  | cons c cs ih =>
    simp only [includes, Bool.or_eq_true, ih, List.infix_cons_iff]
    simp

theorem mathMax_zeros (l : List ℚ) (h : ∀ x ∈ l, x = 0) :
    (if l.length = 0 then 0 else mathMax l) = 0 := by
  cases l with
  | nil => simp
  | cons a rest =>
    have ha : a = 0 := h a (List.mem_cons_self _ _)
    have hrest : ∀ x ∈ rest, x = 0 := fun x hx => h x (List.mem_cons_of_mem _ hx)
    have hfold : ∀ (r : List ℚ), (∀ x ∈ r, x = 0) → r.foldl max 0 = 0 := by
      intro r
      induction r with
      | nil => intro _; rfl
      | cons b r ih =>
        intro hr
        have hb : b = 0 := hr b (List.mem_cons_self _ _)
        simp only [List.foldl_cons, hb, max_self]
        exact ih (fun x hx => hr x (List.mem_cons_of_mem _ hx))
    simp only [List.length_cons, Nat.succ_ne_zero, if_false, mathMax, ha]
    exact hfold rest hrest

end JS

namespace PromptProcessor

theorem mem_tokens (a t : Str) :
    t ∈ tokens a ↔ t ∈ JS.words (JS.dropNonWord (JS.toLowerCase a)) := by
  unfold tokens splitWhitespace normalize
  rw [JS.mem_setOf, JS.filterBoolean_split_collapse, JS.words_trim]

theorem tokens_nil : tokens [] = [] := by decide

/-- A token of the joined utterances is a token of one of them. -/
theorem mem_tokens_joinSpace (us : List Str) (t : Str) (h : t ∈ tokens (JS.joinSpace us)) :
    ∃ u ∈ us, t ∈ tokens u := by
  induction us using JS.joinSpace.induct with
  | case1 =>
    simp only [JS.joinSpace, tokens_nil] at h
    exact absurd h (List.not_mem_nil t)
  | case2 x => exact ⟨x, List.mem_singleton_self x, h⟩
  | case3 x y rest ih =>
    rw [mem_tokens] at h
    have hsplit : JS.dropNonWord (JS.toLowerCase (JS.joinSpace (x :: y :: rest))) =
        JS.dropNonWord (JS.toLowerCase x) ++
          ' ' :: JS.dropNonWord (JS.toLowerCase (JS.joinSpace (y :: rest))) := by
      simp only [JS.joinSpace, JS.dropNonWord, JS.toLowerCase, List.map_append, List.map_cons,
        List.filter_append]
      congr 1
    rw [hsplit, JS.words_append_sep _ _ ' ' JS.isSpace_blank, List.mem_append] at h
    rcases h with h | h
    · exact ⟨x, List.mem_cons_self _ _, (mem_tokens x t).mpr h⟩
    · obtain ⟨u, hu, htu⟩ := ih ((mem_tokens _ t).mpr h)
      exact ⟨u, List.mem_cons_of_mem _ hu, htu⟩

theorem foldl_common_zero (A B : List Str) (n : Nat) (h : ∀ t ∈ A, t ∉ B) :
    A.foldl (fun common t => if t ∈ B then common + 1 else common) n = n := by
  induction A with
  | nil => rfl
  | cons a rest ih =>
    simp only [List.foldl_cons, h a (List.mem_cons_self _ _), if_false]
    exact ih (fun t ht => h t (List.mem_cons_of_mem _ ht))

theorem tokenOverlap_eq_zero (a b : Str) (h : ∀ t ∈ tokens a, t ∉ tokens b) :
    tokenOverlap a b = 0 := by
  unfold tokenOverlap
  simp only
  split_ifs
  · rfl
  · rw [foldl_common_zero _ _ 0 h]
    simp

theorem totalScore_eq_zero (text : Str) (it : IntentDef)
    (hkw : ∀ kw ∈ it.keywords, kw ≠ [] → ¬ kw <:+: text)
    (htok : ∀ u ∈ it.utterances, ∀ t ∈ tokens text, t ∉ tokens u) :
    totalScore text it = 0 := by
  unfold totalScore
  have hk : ∀ (kws : List Str) (n : Nat), (∀ kw ∈ kws, kw ≠ [] → ¬ kw <:+: text) →
      kws.foldl (fun acc kw =>
        if kw.isEmpty then acc else acc + (if JS.includes text kw then 1 else 0)) n = n := by
    intro kws
    induction kws with
    | nil => intro n _; rfl
    | cons kw rest ih =>
      intro n hall
      simp only [List.foldl_cons]
      by_cases he : kw = []
      · simp only [he, List.isEmpty_nil, if_true]
        exact ih n (fun k hk2 => hall k (List.mem_cons_of_mem _ hk2))
      · have hinc : ¬ JS.includes text kw = true := by
          rw [JS.includes_iff_infix]
          exact hall kw (List.mem_cons_self _ _) he
        have hemp : ¬ kw.isEmpty = true := by simpa using he
        simp only [hemp, hinc, if_false, Nat.add_zero]
        exact ih n (fun k hk2 => hall k (List.mem_cons_of_mem _ hk2))
  have hu := JS.mathMax_zeros (it.utterances.map (fun u => tokenOverlap text u)) (by
    intro x hx
    obtain ⟨u, hu, rfl⟩ := List.mem_map.mp hx
    exact tokenOverlap_eq_zero text u (htok u hu))
  simp only [hk it.keywords 0 hkw, hu]
  simp

end PromptProcessor

namespace JS

theorem toNat_ofNat_lower (n : Nat) (h1 : 65 ≤ n) (h2 : n ≤ 90) :
    (Char.ofNat (n + 32)).toNat = n + 32 := by
  interval_cases n <;> rfl

theorem toLower_toLower (c : Char) : c.toLower.toLower = c.toLower := by
  by_cases h : 65 ≤ c.toNat ∧ c.toNat ≤ 90
  · have h1 : c.toLower = Char.ofNat (c.toNat + 32) := by
      unfold Char.toLower
      simp only [ge_iff_le, h, and_self, if_true]
    have h2 := toNat_ofNat_lower c.toNat h.1 h.2
    rw [h1]
    unfold Char.toLower
    simp only [ge_iff_le, h2]
    rw [if_neg]
    omega
  · have h1 : c.toLower = c := by
      unfold Char.toLower
      simp only [ge_iff_le, h, if_false]
    rw [h1, h1]

theorem trim_eq (s : Str) : trim s = (s.dropWhile isSpace).rdropWhile isSpace := rfl

theorem mem_of_mem_trim (s : Str) (c : Char) (h : c ∈ trim s) : c ∈ s := by
  rw [trim_eq] at h
  exact (List.dropWhile_suffix isSpace).subset ((List.rdropWhile_prefix isSpace _).subset h)

theorem trim_trim (s : Str) : trim (trim s) = trim s := by
  rw [trim_eq s]
  generalize hd : s.dropWhile isSpace = d
  have hhead : ∀ a r, d = a :: r → ¬ isSpace a = true := by
    intro a r hdr
    have := List.dropWhile_eq_self_iff.mp (show List.dropWhile isSpace d = d by
      rw [← hd, List.dropWhile_idempotent])
    rw [hdr] at this
    simpa using this (by simp)
  rw [trim_eq]
  have hdw : List.dropWhile isSpace (List.rdropWhile isSpace d) = List.rdropWhile isSpace d := by
    cases hr : List.rdropWhile isSpace d with
    | nil => rfl
    | cons a r =>
      obtain ⟨t, ht⟩ := List.rdropWhile_prefix isSpace d
      rw [hr] at ht
      exact List.dropWhile_cons_of_neg (hhead a (r ++ t) (by simpa using ht.symm))
  rw [hdw, List.rdropWhile_idempotent]

end JS

namespace PromptProcessor

/-- Function `normalize` is idempotent. -/
theorem normalize_normalize (s : Str) : normalize (normalize s) = normalize s := by
  unfold normalize
  have hlow : JS.toLowerCase (JS.trim (JS.dropNonWord (JS.toLowerCase s))) =
      JS.trim (JS.dropNonWord (JS.toLowerCase s)) := by
    unfold JS.toLowerCase
    conv_rhs => rw [← List.map_id (JS.trim (JS.dropNonWord (List.map Char.toLower s)))]
    apply List.map_congr_left
    intro c hc
    have hc2 := JS.mem_of_mem_trim _ _ hc
    simp only [JS.dropNonWord, List.mem_filter, List.mem_map] at hc2
    obtain ⟨⟨c0, _, hc0⟩, _⟩ := hc2
    rw [← hc0]
    exact JS.toLower_toLower c0
  have hdrop : JS.dropNonWord (JS.trim (JS.dropNonWord (JS.toLowerCase s))) =
      JS.trim (JS.dropNonWord (JS.toLowerCase s)) := by
    unfold JS.dropNonWord
    apply List.filter_eq_self.mpr
    intro c hc
    have hc2 := JS.mem_of_mem_trim _ _ hc
    exact (List.mem_filter.mp hc2).2
  rw [hlow, hdrop, JS.trim_trim]

theorem tokens_normalize (s : Str) : tokens (normalize s) = tokens s := by
  unfold tokens
  rw [normalize_normalize]

end PromptProcessor

namespace PromptProcessor

theorem firstPass_fallback (intents : List IntentDef) (text : Str)
    (h : ∀ it ∈ intents, totalScore text it = 0) :
    firstPass intents text = { intent := "fallback", score := 0 } := by
  unfold firstPass
  generalize hb : ({ intent := "fallback", score := 0 } : Best) = b
  have hs : b.score = 0 := by rw [← hb]
  clear hb
  induction intents with
  | nil => rfl
  | cons it rest ih =>
    have hit : ¬ totalScore text it > b.score := by
      rw [h it (List.mem_cons_self _ _), hs]
      exact lt_irrefl 0
    simp only [List.foldl_cons, hit, if_false]
    exact ih (fun i hi => h i (List.mem_cons_of_mem _ hi))

theorem secondPass_unchanged (intents : List IntentDef) (text : Str) (b : Best)
    (hs : b.score = 0)
    (h : ∀ it ∈ intents, tokenOverlap text (JS.joinSpace it.utterances) = 0) :
    secondPass intents text b = b := by
  unfold secondPass
  induction intents with
  | nil => rfl
  | cons it rest ih =>
    have hit : ¬ tokenOverlap text (JS.joinSpace it.utterances) > b.score := by
      rw [h it (List.mem_cons_self _ _), hs]
      exact lt_irrefl 0
    simp only [List.foldl_cons, hit, if_false]
    exact ih (fun i hi => h i (List.mem_cons_of_mem _ hi))

/-- Without a keyword hit and without a shared token, both loops keep the initial `best`. -/
theorem resolve_fallback (intents : List IntentDef) (text : Str)
    (hkw : ∀ it ∈ intents, ∀ kw ∈ it.keywords, kw ≠ [] → ¬ kw <:+: text)
    (htok : ∀ it ∈ intents, ∀ u ∈ it.utterances, ∀ t ∈ tokens text, t ∉ tokens u) :
    resolve intents text = { intent := "fallback", score := 0 } := by
  have h1 := firstPass_fallback intents text
    (fun it hit => totalScore_eq_zero text it (hkw it hit) (htok it hit))
  unfold resolve
  simp only [h1, if_true]
  apply secondPass_unchanged _ _ _ rfl
  intro it hit
  apply tokenOverlap_eq_zero
  intro t ht hmem
  obtain ⟨u, hu, htu⟩ := mem_tokens_joinSpace it.utterances t hmem
  exact htok it hit u hu t ht htu

/-- The result of `process` when the resolution ends on the initial `best`. -/
theorem process_of_fallback (intents : List IntentDef) (templates : Templates)
    (demoOrders : List Order) (req : Request) (random : Str)
    (h : resolve intents (normalize req.message) = { intent := "fallback", score := 0 }) :
    process intents templates demoOrders req random =
      { reply := templates.fallback, intent := "fallback", confidence := 1 / 10
        metadata := { sessionId := req.sessionId, order := none, ticketId := none } } := by
  have hconf : min (min (1 : ℚ) (0 / 2 + 1 / 10)) (4 / 10) = 1 / 10 := by norm_num
  unfold process
  simp only [h]
  rw [if_neg (by decide), if_neg (by decide), if_neg (by decide), if_neg (by decide),
    if_neg (by decide), if_neg (by decide), hconf]

end PromptProcessor

/-- Claim C8. For every intent catalog and every message such that no
non-empty catalog keyword is a substring of the normalized message (the code
skips empty keywords) and the message shares no token with any catalog
utterance (the message and its normalized form have the same tokens),
`promptProcessor.process` returns intent `fallback`, the
fallback template as reply and a confidence of at most 0.4 (it is 0.1); the
empty message satisfies both conditions for every catalog. -/
theorem C8_no_match_gives_fallback (intents : List IntentDef) (templates : Templates)
    (demoOrders : List Order) (req : Request) (random : Str)
    (hkw : ∀ it ∈ intents, ∀ kw ∈ it.keywords, kw ≠ [] →
      ¬ kw <:+: PromptProcessor.normalize req.message)
    (htok : ∀ it ∈ intents, ∀ u ∈ it.utterances,
      ∀ t ∈ PromptProcessor.tokens req.message, t ∉ PromptProcessor.tokens u) :
    ((PromptProcessor.process intents templates demoOrders req random).intent = "fallback" ∧
      (PromptProcessor.process intents templates demoOrders req random).reply =
        templates.fallback ∧
      (PromptProcessor.process intents templates demoOrders req random).confidence ≤ 4 / 10) ∧
    (∀ sessionId : String,
      (PromptProcessor.process intents templates demoOrders
        { sessionId := sessionId, message := [] } random).intent = "fallback" ∧
      (PromptProcessor.process intents templates demoOrders
        { sessionId := sessionId, message := [] } random).reply = templates.fallback ∧
      (PromptProcessor.process intents templates demoOrders
        { sessionId := sessionId, message := [] } random).confidence ≤ 4 / 10) := by
  constructor
  · rw [PromptProcessor.process_of_fallback intents templates demoOrders req random
      (PromptProcessor.resolve_fallback intents _ hkw (fun it hit u hu t ht =>
        htok it hit u hu t (PromptProcessor.tokens_normalize req.message ▸ ht)))]
    exact ⟨rfl, rfl, by norm_num⟩
  · intro sessionId
    have hn : PromptProcessor.normalize [] = [] := by decide
    have ht : PromptProcessor.tokens [] = [] := by decide
    rw [PromptProcessor.process_of_fallback intents templates demoOrders
      { sessionId := sessionId, message := [] } random
      (PromptProcessor.resolve_fallback intents (PromptProcessor.normalize [])
        (fun it _ kw _ hne hin => hne (List.eq_nil_of_infix_nil (hn ▸ hin)))
        (fun it _ u _ t hmem => by
          rw [hn, ht] at hmem
          exact absurd hmem (List.not_mem_nil t)))]
    exact ⟨rfl, rfl, by norm_num⟩

/-- Witness of C8: the message `blah blah unknown` against the sample catalog. -/
theorem C8_no_match_gives_fallback_witness :
    (∀ it ∈ sampleCatalog, ∀ kw ∈ it.keywords, kw ≠ [] →
      ¬ kw <:+: PromptProcessor.normalize "blah blah unknown".toList) ∧
    (∀ it ∈ sampleCatalog, ∀ u ∈ it.utterances,
      ∀ t ∈ PromptProcessor.tokens "blah blah unknown".toList, t ∉ PromptProcessor.tokens u) ∧
    (((PromptProcessor.process sampleCatalog sampleTemplates sampleOrders
        { sessionId := "s3", message := "blah blah unknown".toList } []).intent = "fallback" ∧
      (PromptProcessor.process sampleCatalog sampleTemplates sampleOrders
        { sessionId := "s3", message := "blah blah unknown".toList } []).reply =
        sampleTemplates.fallback ∧
      (PromptProcessor.process sampleCatalog sampleTemplates sampleOrders
        { sessionId := "s3", message := "blah blah unknown".toList } []).confidence ≤ 4 / 10) ∧
    (∀ sessionId : String,
      (PromptProcessor.process sampleCatalog sampleTemplates sampleOrders
        { sessionId := sessionId, message := [] } []).intent = "fallback" ∧
      (PromptProcessor.process sampleCatalog sampleTemplates sampleOrders
        { sessionId := sessionId, message := [] } []).reply = sampleTemplates.fallback ∧
      (PromptProcessor.process sampleCatalog sampleTemplates sampleOrders
        { sessionId := sessionId, message := [] } []).confidence ≤ 4 / 10)) :=
  ⟨by decide, by decide,
    C8_no_match_gives_fallback sampleCatalog sampleTemplates sampleOrders
      { sessionId := "s3", message := "blah blah unknown".toList } [] (by decide) (by decide)⟩

/-! ## Slot filling -/

namespace JS

theorem getSubstitution_plain (matched before after : Str) :
    ∀ (repl : Str), (∀ c ∈ repl, c ≠ '$') → getSubstitution matched before after repl = repl
  | [], _ => rfl
  | [_], _ => rfl
  | c :: d :: rest, h => by
    have hc : (c == '$') = false := by
      simpa using h c (List.mem_cons_self _ _)
    rw [getSubstitution]
    simp only [hc, Bool.false_eq_true, if_false]
    rw [getSubstitution_plain matched before after (d :: rest)
      (fun x hx => h x (List.mem_cons_of_mem _ hx))]

end JS

namespace JS

theorem replaceAllGo_nil (pat repl : Str) (skip : Nat) (before : Str) :
    replaceAllGo pat repl skip before [] = [] := by
  cases skip <;> rfl

/-- Passing over the rest of a match resumes the scan after it. -/
theorem replaceAllGo_skip (pat repl : Str) (skip : Nat) (before s : Str) :
    ∃ before2, replaceAllGo pat repl skip before s =
      replaceAllGo pat repl 0 before2 (s.drop skip) := by
  induction skip generalizing before s with
  | zero => exact ⟨before, rfl⟩
  | succ k ih =>
    cases s with
    | nil => exact ⟨before, by rw [replaceAllGo_nil, List.drop_nil, replaceAllGo_nil]⟩
    | cons c cs =>
      obtain ⟨b2, hb2⟩ := ih (c :: before) cs
      exact ⟨b2, by rw [replaceAllGo, hb2, List.drop_succ_cons]⟩

/-- A replacement text without `$` appears in the result when the pattern occurs. -/
theorem infix_replaceAllGo_of_pattern (pat repl : Str) (hp : pat ≠ [])
    (hr : ∀ c ∈ repl, c ≠ '$') (s before : Str) (h : pat <:+: s) :
    repl <:+: replaceAllGo pat repl 0 before s := by
  induction s generalizing before with
  | nil => exact absurd (List.eq_nil_of_infix_nil h) hp
  | cons c cs ih =>
    rw [replaceAllGo]
    by_cases hpre : pat.isPrefixOf (c :: cs) = true
    · rw [if_pos hpre, getSubstitution_plain _ _ _ _ hr]
      exact List.infix_append' [] repl _
    · rw [if_neg hpre]
      rcases List.infix_cons_iff.mp h with h1 | h1
      · exact absurd (by simpa using h1) hpre
      · exact (ih (c :: before) h1).trans (List.infix_cons (List.infix_refl _))

/-- A start of the text that avoids the first character of the pattern is kept. -/
theorem replaceAllGo_keeps_start (ph : Char) (pt repl : Str) (u : Str) (s before : Str)
    (hu : ∀ c ∈ u, c ≠ ph) (h : u <+: s) :
    u <+: replaceAllGo (ph :: pt) repl 0 before s := by
  induction u generalizing s before with
  | nil => exact List.nil_prefix
  | cons d u2 ih =>
    cases s with
    | nil => exact absurd (List.eq_nil_of_prefix_nil h) (List.cons_ne_nil _ _)
    | cons c cs =>
      obtain ⟨hdc, h2⟩ := List.cons_prefix_cons.mp h
      subst hdc
      have hne : (ph == d) = false := by
        simpa using fun he => hu d (List.mem_cons_self _ _) he.symm
      rw [replaceAllGo]
      simp only [List.isPrefixOf, hne, Bool.false_and, Bool.false_eq_true, if_false]
      exact List.cons_prefix_cons.mpr
        ⟨rfl, ih cs (d :: before) (fun x hx => hu x (List.mem_cons_of_mem _ hx)) h2⟩

/-- A part of `pat ++ rest` whose first character is not in `pat` lies in `rest`. -/
theorem infix_of_infix_append (pat rest : Str) (uh : Char) (ut : Str) (hnot : uh ∉ pat)
    (h : uh :: ut <:+: pat ++ rest) : uh :: ut <:+: rest := by
  induction pat with
  | nil => simpa using h
  | cons ph pt ih =>
    rcases List.infix_cons_iff.mp h with h1 | h1
    · have := (List.cons_prefix_cons.mp h1).1
      exact absurd (this ▸ List.mem_cons_self _ _) hnot
    · exact ih (fun hm => hnot (List.mem_cons_of_mem _ hm)) h1

/-- A part of the text that cannot overlap a match of the pattern is kept. -/
theorem infix_replaceAllGo_of_infix (ph : Char) (pt repl : Str) (uh : Char) (ut : Str)
    (hu1 : ∀ c ∈ uh :: ut, c ≠ ph) (hu2 : uh ∉ ph :: pt) (n : Nat) :
    ∀ (s before : Str), s.length ≤ n → uh :: ut <:+: s →
      uh :: ut <:+: replaceAllGo (ph :: pt) repl 0 before s := by
  induction n with
  | zero =>
    intro s before hlen h
    have hs : s = [] := List.eq_nil_of_length_eq_zero (Nat.le_zero.mp hlen)
    rw [hs] at h
    exact absurd (List.eq_nil_of_infix_nil h) (List.cons_ne_nil _ _)
  | succ n ih =>
    intro s before hlen h
    cases s with
    | nil => exact absurd (List.eq_nil_of_infix_nil h) (List.cons_ne_nil _ _)
    | cons c cs =>
      by_cases hpre : (ph :: pt).isPrefixOf (c :: cs) = true
      · rw [replaceAllGo, if_pos hpre]
        obtain ⟨b2, hb2⟩ := replaceAllGo_skip (ph :: pt) repl ((ph :: pt).length - 1)
          (c :: before) cs
        rw [hb2]
        have hpre2 : ph :: pt <+: c :: cs := by simpa using hpre
        obtain ⟨rest, hrest⟩ := hpre2
        have hdrop : cs.drop ((ph :: pt).length - 1) = rest := by
          have h3 : cs = pt ++ rest := by
            simp only [List.cons_append, List.cons.injEq] at hrest
            exact hrest.2.symm
          rw [h3]
          simp
        rw [hdrop]
        have hin : uh :: ut <:+: rest := by
          rw [← hrest] at h
          exact infix_of_infix_append _ _ _ _ hu2 h
        have hlen2 : rest.length ≤ n := by
          have := congrArg List.length hrest
          simp only [List.length_append, List.length_cons] at this hlen
          omega
        exact (ih rest b2 hlen2 hin).trans (List.suffix_append _ _).isInfix
      · rcases List.infix_cons_iff.mp h with h1 | h1
        · exact (replaceAllGo_keeps_start ph pt repl _ _ before hu1 h1).isInfix
        · rw [replaceAllGo, if_neg hpre]
          have hlen2 : cs.length ≤ n := by
            simp only [List.length_cons] at hlen
            omega
          exact (ih cs (c :: before) hlen2 h1).trans (List.infix_cons (List.infix_refl _))

end JS

/-! ## The shape of order identifiers -/

namespace JS

theorem isDigit_iff (c : Char) : c.isDigit = true ↔ 48 ≤ c.toNat ∧ c.toNat ≤ 57 := by
  simp only [Char.isDigit, Bool.and_eq_true, decide_eq_true_eq, Char.toNat, ge_iff_le]
  rfl

theorem toUpper_of_isDigit (c : Char) (h : c.isDigit = true) : c.toUpper = c := by
  rw [isDigit_iff] at h
  unfold Char.toUpper
  simp only
  rw [if_neg]
  omega

theorem ne_of_isDigit (c : Char) (h : c.isDigit = true) : c ≠ '$' ∧ c ≠ Char.ofNat 123 := by
  rw [isDigit_iff] at h
  constructor
  · intro hc
    rw [hc] at h
    revert h
    decide
  · intro hc
    rw [hc] at h
    revert h
    decide

theorem toUpperCase_digits (ds : Str) (h : ds.all Char.isDigit = true) :
    toUpperCase ds = ds := by
  induction ds with
  | nil => rfl
  | cons d rest ih =>
    simp only [List.all_cons, Bool.and_eq_true] at h
    simp only [toUpperCase, List.map_cons, toUpper_of_isDigit d h.1]
    exact congrArg _ (ih h.2)

theorem digits_clean (ds : Str) (h : ds.all Char.isDigit = true) :
    ∀ c ∈ ds, c ≠ '$' ∧ c ≠ Char.ofNat 123 := by
  intro c hc
  exact ne_of_isDigit c (List.all_eq_true.mp h c hc)

/-- Fixed upper-case letters followed by digits have the shape of an identifier. -/
theorem shape_letters_digits (l : Char) (ls ds : Str) (hl : l = 'O' ∨ l = '#')
    (hls : ∀ c ∈ ls, c ≠ '$' ∧ c ≠ Char.ofNat 123) (hds : ds.all Char.isDigit = true) :
    OrderIdShape (l :: ls ++ ds) := by
  refine ⟨⟨l, ls ++ ds, rfl, hl.elim Or.inl (fun h => Or.inr (Or.inl h))⟩, ?_⟩
  intro c hc
  rcases List.mem_cons.mp hc with hc | hc
  · rw [hc]
    rcases hl with hl | hl <;> rw [hl] <;> decide
  · rcases List.mem_append.mp hc with hc | hc
    · exact hls c hc
    · exact digits_clean ds hds c hc

theorem shape_digits (ds : Str) (hne : ds ≠ []) (hds : ds.all Char.isDigit = true) :
    OrderIdShape ds := by
  cases ds with
  | nil => exact absurd rfl hne
  | cons d rest =>
    refine ⟨⟨d, rest, rfl, Or.inr (Or.inr ?_)⟩, digits_clean _ hds⟩
    simp only [List.all_cons, Bool.and_eq_true] at hds
    exact hds.1

/-- A result of a search is the text that the matcher took at some place. -/
theorem search_some (m : Option Char → Str → Option Nat) (prev : Option Char) (text r : Str)
    (h : search m prev text = some r) : ∃ p s n, m p s = some n ∧ r = s.take n := by
  induction text generalizing prev with
  | nil =>
    simp only [search] at h
    cases hm : m prev [] with
    | none => rw [hm] at h; exact absurd h (by simp)
    | some n =>
      rw [hm] at h
      exact ⟨prev, [], n, hm, by simpa using h.symm⟩
  | cons c cs ih =>
    simp only [search] at h
    cases hm : m prev (c :: cs) with
    | none =>
      rw [hm] at h
      exact ih (some c) h
    | some n =>
      rw [hm] at h
      exact ⟨prev, c :: cs, n, hm, by simpa using h.symm⟩

theorem shape_of_matchOrd (s : Str) (n : Nat) (h : matchOrd s = some n) :
    OrderIdShape (toUpperCase (s.take n)) := by
  have hcode := (matchOrd_some s n h).1
  generalize s.take n = m at hcode
  match m, hcode with
  | a :: b :: c :: ds, hcode =>
    simp only [isOrdCode, Bool.and_eq_true, beq_iff_eq, decide_eq_true_eq] at hcode
    obtain ⟨⟨⟨⟨⟨ha, hb⟩, hc⟩, _⟩, _⟩, hds⟩ := hcode
    have : toUpperCase (a :: b :: c :: ds) = 'O' :: ['R', 'D'] ++ ds := by
      simp only [toUpperCase, List.map_cons, ha, hb, hc]
      exact congrArg _ (congrArg _ (congrArg _ (toUpperCase_digits ds hds)))
    rw [this]
    exact shape_letters_digits 'O' ['R', 'D'] ds (Or.inl rfl) (by decide) hds

theorem shape_of_matchOrder (s : Str) (n : Nat) (h : matchOrder s = some n) :
    OrderIdShape (toUpperCase (s.take n)) := by
  match s, h with
  | a :: b :: c :: d :: e :: rest, h =>
    simp only [matchOrder] at h
    split_ifs at h with hc
    simp only [Bool.and_eq_true, beq_iff_eq, decide_eq_true_eq] at hc
    obtain ⟨⟨⟨⟨⟨ha, hb⟩, hcc⟩, hd⟩, he⟩, _⟩ := hc
    have hn : n = min 6 (digitRun rest) + 1 + 1 + 1 + 1 + 1 := by
      have := Option.some.inj h
      omega
    have hds := all_take_digitRun rest (min 6 (digitRun rest)) (min_le_right _ _)
    have : toUpperCase ((a :: b :: c :: d :: e :: rest).take n) =
        'O' :: ['R', 'D', 'E', 'R'] ++ rest.take (min 6 (digitRun rest)) := by
      rw [hn]
      simp only [List.take_succ_cons, toUpperCase, List.map_cons, ha, hb, hcc, hd, he]
      exact congrArg _ (congrArg _ (congrArg _ (congrArg _ (congrArg _
        (toUpperCase_digits _ hds)))))
    rw [this]
    exact shape_letters_digits 'O' ['R', 'D', 'E', 'R'] _ (Or.inl rfl) (by decide) hds

theorem shape_of_matchHash (s : Str) (n : Nat) (h : matchHash s = some n) :
    OrderIdShape (toUpperCase (s.take n)) := by
  match s, h with
  | a :: rest, h =>
    simp only [matchHash] at h
    split_ifs at h with hc
    simp only [Bool.and_eq_true, beq_iff_eq, decide_eq_true_eq] at hc
    have hn : n = min 6 (digitRun rest) + 1 := by
      have := Option.some.inj h
      omega
    have hds := all_take_digitRun rest (min 6 (digitRun rest)) (min_le_right _ _)
    have : toUpperCase ((a :: rest).take n) = '#' :: [] ++ rest.take (min 6 (digitRun rest)) := by
      rw [hn, hc.1]
      simp only [List.take_succ_cons, toUpperCase, List.map_cons]
      exact congrArg _ (toUpperCase_digits _ hds)
    rw [this]
    exact shape_letters_digits '#' [] _ (Or.inr rfl) (by simp) hds

theorem shape_of_digits_taken (s : Str) (k : Nat) (hk : k ≤ digitRun s) (hpos : 0 < k) :
    OrderIdShape (toUpperCase (s.take k)) := by
  have hds := all_take_digitRun s k hk
  rw [toUpperCase_digits _ hds]
  refine shape_digits _ ?_ hds
  intro hnil
  have := congrArg List.length hnil
  have hlen := digitRun_le_length s
  simp only [List.length_take, List.length_nil] at this
  omega

theorem shape_of_matchBare (prev : Option Char) (s : Str) (n : Nat)
    (h : matchBare prev s = some n) : OrderIdShape (toUpperCase (s.take n)) := by
  unfold matchBare at h
  split_ifs at h
  have h1 := List.find?_some h
  have h2 := List.mem_of_find?_eq_some h
  simp only [Bool.and_eq_true, decide_eq_true_eq] at h1
  refine shape_of_digits_taken s n h1.1 ?_
  simp only [List.mem_cons, List.mem_singleton, List.not_mem_nil, or_false] at h2
  omega

theorem shape_of_matchDigits5 (s : Str) (n : Nat) (h : matchDigits5 s = some n) :
    OrderIdShape (toUpperCase (s.take n)) := by
  unfold matchDigits5 at h
  split_ifs at h with hc
  have hn : n = digitRun s := (Option.some.inj h).symm
  exact shape_of_digits_taken s n (by omega) (by omega)

end JS

namespace AdvancedProcessor

theorem findOrderId_shape (text oid : Str) (h : findOrderId text = some oid) :
    OrderIdShape oid := by
  unfold findOrderId at h
  cases h1 : JS.search (fun _ s => JS.matchOrd s) none text with
  | some m =>
    rw [h1] at h
    obtain ⟨p, s, n, hm, hr⟩ := JS.search_some _ _ _ _ h1
    rw [← Option.some.inj h, hr]
    exact JS.shape_of_matchOrd s n hm
  | none =>
    rw [h1] at h
    cases h2 : JS.search (fun _ s => JS.matchOrder s) none text with
    | some m =>
      rw [h2] at h
      obtain ⟨p, s, n, hm, hr⟩ := JS.search_some _ _ _ _ h2
      rw [← Option.some.inj h, hr]
      exact JS.shape_of_matchOrder s n hm
    | none =>
      rw [h2] at h
      cases h3 : JS.search JS.matchBare none text with
      | some m =>
        rw [h3] at h
        obtain ⟨p, s, n, hm, hr⟩ := JS.search_some _ _ _ _ h3
        rw [← Option.some.inj h, hr]
        exact JS.shape_of_matchBare p s n hm
      | none =>
        rw [h3] at h
        cases h4 : JS.search (fun _ s => JS.matchHash s) none text with
        | some m =>
          rw [h4] at h
          obtain ⟨p, s, n, hm, hr⟩ := JS.search_some _ _ _ _ h4
          rw [← Option.some.inj h, hr]
          exact JS.shape_of_matchHash s n hm
        | none =>
          rw [h4] at h
          exact absurd h (by simp)

/-- The first character of an identifier does not occur in a slot pattern
whose name has no `O`, no `#` and no digit. -/
theorem shape_head_not_in_pattern (h : Char) (key : Str)
    (hh : h = 'O' ∨ h = '#' ∨ h.isDigit = true)
    (hkey : ∀ c ∈ key, c ≠ 'O' ∧ c ≠ '#' ∧ c.isDigit = false) : h ∉ slotPattern key := by
  intro hmem
  have hall : ∀ c ∈ slotPattern key, c ≠ 'O' ∧ c ≠ '#' ∧ c.isDigit = false := by
    intro c hc
    simp only [slotPattern, List.mem_append, List.mem_singleton] at hc
    rcases hc with (hc | hc) | hc
    · rw [hc]; decide
    · exact hkey c hc
    · rw [hc]; decide
  obtain ⟨h1, h2, h3⟩ := hall h hmem
  rcases hh with hh | hh | hh
  · exact h1 hh
  · exact h2 hh
  · rw [hh] at h3
    exact absurd h3 (by simp)

/-- Replacing a slot keeps an identifier that the text contains. -/
theorem replaceAll_keeps_id (key repl oid s : Str) (hs : OrderIdShape oid)
    (hkey : ∀ c ∈ key, c ≠ 'O' ∧ c ≠ '#' ∧ c.isDigit = false) (h : oid <:+: s) :
    oid <:+: JS.replaceAll (slotPattern key) repl s := by
  obtain ⟨⟨hd, tl, hoid, hhd⟩, hclean⟩ := hs
  subst hoid
  exact JS.infix_replaceAllGo_of_infix (Char.ofNat 123) (key ++ [Char.ofNat 125]) repl hd tl
    (fun c hc => (hclean c hc).2) (shape_head_not_in_pattern hd key hhd hkey) s.length s []
    (le_refl _) h

/-- The filled order-status template contains the identifier when the
template contains the slot of the identifier. -/
theorem fillSlots_contains_id (template oid status deliveryDate : Str) (hs : OrderIdShape oid)
    (hph : slotPattern "orderId".toList <:+: template) :
    oid <:+: fillSlots template
      [("orderId".toList, oid), ("status".toList, status),
        ("deliveryDate".toList, deliveryDate)] := by
  simp only [fillSlots, List.foldl_cons, List.foldl_nil]
  apply replaceAll_keeps_id _ _ _ _ hs (by decide)
  apply replaceAll_keeps_id _ _ _ _ hs (by decide)
  exact JS.infix_replaceAllGo_of_pattern _ oid (by simp [slotPattern])
    (fun c hc => (hs.2 c hc).1) template [] hph

theorem fillTemplate_eq (template : Str) (slots : List (Str × Str)) (context : Context) :
    fillTemplate template slots context = replyPrefix context ++ fillSlots template slots := by
  unfold fillTemplate replyPrefix
  by_cases h1 : context.isReturningUser = true <;>
    by_cases h2 : (match context.sentiment with
      | some s => decide (s.label = "negative") | none => false) = true <;>
    simp [h1, h2]

end AdvancedProcessor

namespace JS

/-- A start of the text is kept where the pattern does not match at its first
character and the first character of the pattern does not occur later in it. -/
theorem replaceAllGo_keeps_start_of_no_match (ph : Char) (pt repl : Str) (u s before : Str)
    (hu : ∀ c ∈ u.tail, c ≠ ph) (h : u <+: s) (h0 : ¬ (ph :: pt).isPrefixOf s = true) :
    u <+: replaceAllGo (ph :: pt) repl 0 before s := by
  cases u with
  | nil => exact List.nil_prefix
  | cons d u2 =>
    cases s with
    | nil => exact absurd (List.eq_nil_of_prefix_nil h) (List.cons_ne_nil _ _)
    | cons c cs =>
      obtain ⟨hdc, h2⟩ := List.cons_prefix_cons.mp h
      subst hdc
      rw [replaceAllGo, if_neg h0]
      exact List.cons_prefix_cons.mpr
        ⟨rfl, replaceAllGo_keeps_start ph pt repl u2 cs (d :: before) hu h2⟩

/-- A part of the text that lies beside every occurrence of the pattern, and
in which the first character of the pattern stands at most in front, is kept. -/
theorem infix_replaceAllGo_of_clear (ph : Char) (pt repl u : Str)
    (hu1 : ∀ c ∈ u.tail, c ≠ ph)
    (hu2 : ∀ rest, u <:+: (ph :: pt) ++ rest → u <:+: rest) (n : Nat) :
    ∀ (s before : Str), s.length ≤ n → u <:+: s →
      u <:+: replaceAllGo (ph :: pt) repl 0 before s := by
  induction n with
  | zero =>
    intro s before hlen h
    have hs : s = [] := List.eq_nil_of_length_eq_zero (Nat.le_zero.mp hlen)
    rw [hs] at h ⊢
    rw [replaceAllGo_nil]
    exact h
  | succ n ih =>
    intro s before hlen h
    cases s with
    | nil =>
      rw [replaceAllGo_nil]
      exact h
    | cons c cs =>
      by_cases hpre : (ph :: pt).isPrefixOf (c :: cs) = true
      · rw [replaceAllGo, if_pos hpre]
        obtain ⟨b2, hb2⟩ := replaceAllGo_skip (ph :: pt) repl ((ph :: pt).length - 1)
          (c :: before) cs
        rw [hb2]
        have hpre2 : ph :: pt <+: c :: cs := by simpa using hpre
        obtain ⟨rest, hrest⟩ := hpre2
        have hdrop : cs.drop ((ph :: pt).length - 1) = rest := by
          have h3 : cs = pt ++ rest := by
            simp only [List.cons_append, List.cons.injEq] at hrest
            exact hrest.2.symm
          rw [h3]
          simp
        rw [hdrop]
        have hin : u <:+: rest := by
          rw [← hrest] at h
          exact hu2 rest h
        have hlen2 : rest.length ≤ n := by
          have := congrArg List.length hrest
          simp only [List.length_append, List.length_cons] at this hlen
          omega
        exact (ih rest b2 hlen2 hin).trans (List.suffix_append _ _).isInfix
      · rcases List.infix_cons_iff.mp h with h1 | h1
        · exact (replaceAllGo_keeps_start_of_no_match ph pt repl _ _ before hu1 h1 hpre).isInfix
        · rw [replaceAllGo, if_neg hpre]
          have hlen2 : cs.length ≤ n := by
            simp only [List.length_cons] at hlen
            omega
          exact (ih cs (c :: before) hlen2 h1).trans (List.infix_cons (List.infix_refl _))

/-- A part of `front ++ x :: back` in which `x` does not occur lies in `front` or in `back`. -/
theorem infix_split_at (x : Char) (u front back : Str) (hx : x ∉ u)
    (h : u <:+: front ++ x :: back) : u <:+: front ∨ u <:+: back := by
  induction front with
  | nil =>
    rcases List.infix_cons_iff.mp h with h1 | h1
    · cases u with
      | nil => exact Or.inl List.nil_infix
      | cons d u2 =>
        have := (List.cons_prefix_cons.mp h1).1
        exact absurd (this ▸ List.mem_cons_self _ _) hx
    · exact Or.inr h1
  | cons a front ih =>
    rcases List.infix_cons_iff.mp h with h1 | h1
    · have h2 : a :: front ++ [x] <+: a :: (front ++ x :: back) :=
        ⟨back, by simp⟩
      rcases List.prefix_or_prefix_of_prefix h1 h2 with h3 | h3
      · rcases List.prefix_concat_iff.mp h3 with h4 | h4
        · exact absurd (h4 ▸ by simp) hx
        · exact Or.inl h4.isInfix
      · exact absurd (h3.subset (by simp)) hx
    · rcases ih h1 with h2 | h2
      · exact Or.inl (h2.trans (List.infix_cons (List.infix_refl _)))
      · exact Or.inr h2

end JS

namespace AdvancedProcessor

/-- A text without braces that is no part of a slot name lies beside every
occurrence of the slot. -/
theorem infix_beside_slot (key u rest : Str)
    (hu : ∀ c ∈ u, c ≠ Char.ofNat 123 ∧ c ≠ Char.ofNat 125)
    (hkey : u <:+: key → u = []) (h : u <:+: slotPattern key ++ rest) : u <:+: rest := by
  cases u with
  | nil => exact List.nil_infix
  | cons d u2 =>
    have h1 : d :: u2 <:+: Char.ofNat 123 :: (key ++ Char.ofNat 125 :: rest) := by
      simpa [slotPattern] using h
    rcases List.infix_cons_iff.mp h1 with h2 | h2
    · have := (List.cons_prefix_cons.mp h2).1
      exact absurd this (hu d (List.mem_cons_self _ _)).1
    · rcases JS.infix_split_at (Char.ofNat 125) _ _ _
          (fun hm => (hu _ hm).2 rfl) h2 with h3 | h3
      · exact absurd (hkey h3) (List.cons_ne_nil _ _)
      · exact h3

/-- The slot of the status stays in the template when the slot of the
identifier is filled. -/
theorem status_slot_after_id (template oid : Str)
    (h : slotPattern "status".toList <:+: template) :
    slotPattern "status".toList <:+: JS.replaceAll (slotPattern "orderId".toList) oid template := by
  refine JS.infix_replaceAllGo_of_clear (Char.ofNat 123) ("orderId".toList ++ [Char.ofNat 125])
    oid (slotPattern "status".toList) (by decide) ?_ template.length template [] (le_refl _) h
  intro rest h1
  have h2 : slotPattern "status".toList <:+:
      Char.ofNat 123 :: ("orderId".toList ++ [Char.ofNat 125] ++ rest) := by
    simpa using h1
  rcases List.infix_cons_iff.mp h2 with h3 | h3
  · have h4 := (List.cons_prefix_cons.mp h3).2
    have h5 := (List.cons_prefix_cons.mp h4).1
    exact absurd h5 (by decide)
  · exact JS.infix_of_infix_append _ rest (Char.ofNat 123) "status\x7d".toList (by decide) h3

/-- The filled order-status template contains the status when the template
contains the slot of the status, the status has no `$` and no brace, and it
is not a part of the name of the slot that is filled after it. -/
theorem fillSlots_contains_status (template oid status deliveryDate : Str)
    (hclean : ∀ c ∈ status, c ≠ '$' ∧ c ≠ Char.ofNat 123 ∧ c ≠ Char.ofNat 125)
    (hpart : status <:+: "deliveryDate".toList → status = [])
    (hph : slotPattern "status".toList <:+: template) :
    status <:+: fillSlots template
      [("orderId".toList, oid), ("status".toList, status),
        ("deliveryDate".toList, deliveryDate)] := by
  simp only [fillSlots, List.foldl_cons, List.foldl_nil]
  refine JS.infix_replaceAllGo_of_clear (Char.ofNat 123)
    ("deliveryDate".toList ++ [Char.ofNat 125]) deliveryDate status
    (fun c hc => (hclean c (List.mem_of_mem_tail hc)).2.1)
    (fun rest h => infix_beside_slot "deliveryDate".toList status rest
      (fun c hc => (hclean c hc).2) hpart h) _ _ [] (le_refl _) ?_
  exact JS.infix_replaceAllGo_of_pattern _ status (by simp [slotPattern])
    (fun c hc => (hclean c hc).1) _ [] (status_slot_after_id template oid hph)

end AdvancedProcessor

namespace PromptProcessor

theorem prompt_findOrderId_shape (text oid : Str) (h : findOrderId text = some oid) :
    OrderIdShape oid := by
  unfold findOrderId at h
  cases h1 : JS.search (fun _ s => matchOrderId s) none text with
  | none => rw [h1] at h; exact absurd h (by simp)
  | some m =>
    rw [h1] at h
    obtain ⟨p, s, n, hm, hr⟩ := JS.search_some _ _ _ _ h1
    have hoid : oid = JS.toUpperCase (s.take n) := by
      rw [← hr]
      simpa using h.symm
    rw [hoid]
    unfold matchOrderId at hm
    cases h2 : JS.matchOrd s with
    | some k =>
      rw [h2] at hm
      rw [← Option.some.inj hm]
      exact JS.shape_of_matchOrd s k h2
    | none =>
      rw [h2] at hm
      exact JS.shape_of_matchDigits5 s n hm

theorem fillTemplate_eq_fillSlots (template : Str) (slots : List (Str × Str)) :
    fillTemplate template slots = AdvancedProcessor.fillSlots template slots := rfl

end PromptProcessor

/-! ## Order status replies -/

namespace PromptProcessor

/-- The intent of the result is the intent that the two loops resolved. -/
theorem process_intent (intents : List IntentDef) (templates : Templates)
    (demoOrders : List Order) (req : Request) (random : Str) :
    (process intents templates demoOrders req random).intent =
      (resolve intents (normalize req.message)).intent := by
  unfold process
  simp only
  split_ifs
  · split
    · split <;> rfl
    · rfl
  all_goals rfl

/-- The result of `process` in the branch of a known order. -/
theorem prompt_process_of_known_order (intents : List IntentDef) (templates : Templates)
    (demoOrders : List Order) (req : Request) (random : Str) (oid : Str) (order : Order)
    (hint : (resolve intents (normalize req.message)).intent = "order_status")
    (hid : findOrderId req.message = some oid)
    (hord : demoOrders.find? (fun o => decide (o.id = oid)) = some order) :
    process intents templates demoOrders req random =
      { reply := fillTemplate templates.order_status
          [("orderId".toList, order.id), ("status".toList, order.status),
            ("deliveryDate".toList, order.deliveryDate)]
        intent := "order_status"
        confidence := max (min 1 ((resolve intents (normalize req.message)).score / 2 + 1 / 10))
          (8 / 10)
        metadata := { sessionId := req.sessionId, order := some order, ticketId := none } } := by
  unfold process
  simp only [hint, hid, hord, if_true]

end PromptProcessor

/-- Claim C10. For every catalog and message for which `promptProcessor.process`
resolves intent `order_status` and `findOrderId(message)` is the id under
which the lookup `demoOrders.find` returns an order: the result has intent
`order_status`, `metadata.order` is that order, the reply is the
`order_status` template after the three global replacements of the slots
`orderId`, `status`, `deliveryDate` by the values of the order, the reply
contains the order id whenever the template contains the slot `orderId`,
and the confidence is at least 0.8. -/
theorem C10_known_order_reply (intents : List IntentDef) (templates : Templates)
    (demoOrders : List Order) (req : Request) (random : Str) (oid : Str) (order : Order)
    (hint : (PromptProcessor.process intents templates demoOrders req random).intent =
      "order_status")
    (hid : PromptProcessor.findOrderId req.message = some oid)
    (hord : demoOrders.find? (fun o => decide (o.id = oid)) = some order) :
    (PromptProcessor.process intents templates demoOrders req random).intent = "order_status" ∧
    (PromptProcessor.process intents templates demoOrders req random).metadata.order =
      some order ∧
    order.id = oid ∧
    (PromptProcessor.process intents templates demoOrders req random).reply =
      JS.replaceAll ([Char.ofNat 123] ++ "deliveryDate".toList ++ [Char.ofNat 125])
        order.deliveryDate
        (JS.replaceAll ([Char.ofNat 123] ++ "status".toList ++ [Char.ofNat 125]) order.status
          (JS.replaceAll ([Char.ofNat 123] ++ "orderId".toList ++ [Char.ofNat 125]) order.id
            templates.order_status)) ∧
    (([Char.ofNat 123] ++ "orderId".toList ++ [Char.ofNat 125]) <:+: templates.order_status →
      order.id <:+: (PromptProcessor.process intents templates demoOrders req random).reply) ∧
    8 / 10 ≤ (PromptProcessor.process intents templates demoOrders req random).confidence := by
  rw [PromptProcessor.process_intent] at hint
  have hoid : order.id = oid := by
    have := List.find?_some hord
    simpa using this
  rw [PromptProcessor.prompt_process_of_known_order intents templates demoOrders req random oid order
    hint hid hord]
  refine ⟨rfl, rfl, hoid, rfl, ?_, le_max_right _ _⟩
  intro hph
  have hshape : OrderIdShape order.id := hoid ▸ PromptProcessor.prompt_findOrderId_shape _ _ hid
  exact AdvancedProcessor.fillSlots_contains_id templates.order_status order.id order.status
    order.deliveryDate hshape hph

/-- Witness of C10: the message of the repository test, against the sample data. -/
theorem C10_known_order_reply_witness :
    (PromptProcessor.process sampleCatalog sampleTemplates sampleOrders
      { sessionId := "s2", message := "Where is my order ORD1001?".toList } []).reply =
      "Order ORD1001 is Shipped, due 2025-10-20.".toList ∧
    "ORD1001".toList <:+: (PromptProcessor.process sampleCatalog sampleTemplates sampleOrders
      { sessionId := "s2", message := "Where is my order ORD1001?".toList } []).reply ∧
    8 / 10 ≤ (PromptProcessor.process sampleCatalog sampleTemplates sampleOrders
      { sessionId := "s2", message := "Where is my order ORD1001?".toList } []).confidence := by
  have h := C10_known_order_reply sampleCatalog sampleTemplates sampleOrders
    { sessionId := "s2", message := "Where is my order ORD1001?".toList } [] "ORD1001".toList
    { id := "ORD1001".toList, status := "Shipped".toList, deliveryDate := "2025-10-20".toList
      items := ["Widget".toList], total := 25 }
    (by decide!) (by decide) (by decide!)
  refine ⟨?_, h.2.2.2.2.1 (by decide), h.2.2.2.2.2⟩
  rw [h.2.2.2.1]
  decide

namespace AdvancedProcessor

/-- The reply and the confidence of `process` in the branch of a known order. -/
theorem process_of_known_order (intents : List IntentDef) (templates : Templates)
    (demoOrders : List Order) (st : State) (req : Request) (amb : Ambient) (oid : Str)
    (order : Order)
    (hint : (detectIntentWithContext intents st.conversationHistory req.message
      req.sessionId).intent = "order_status")
    (hid : findOrderId req.message = some oid)
    (hord : demoOrders.find? (fun o => decide (o.id = oid)) = some order) :
    (process intents templates demoOrders st req amb).1.reply =
      fillTemplate templates.order_status
        [("orderId".toList, order.id), ("status".toList, order.status),
          ("deliveryDate".toList, order.deliveryDate)]
        { sentiment := some (analyzeSentiment req.message)
          isReturningUser := (process intents templates demoOrders st req
            amb).1.metadata.isReturningUser } ∧
    (process intents templates demoOrders st req amb).1.confidence =
      max (detectIntentWithContext intents st.conversationHistory req.message
        req.sessionId).confidence (9 / 10) ∧
    (process intents templates demoOrders st req amb).1.metadata.order = some order := by
  simp only [process, compose, hint, hid, hord]
  exact ⟨rfl, rfl, rfl⟩

end AdvancedProcessor

/-- Claim C9, amended. For every message and session for which
`detectIntentWithContext` yields intent `order_status` with confidence `c`
and `findOrderId` yields the id under which the lookup `demoOrders.find`
returns an order, `AdvancedProcessor.process` returns confidence
`max(c, 0.9)` (at least 0.9 and never below `c`), `metadata.order` equal to
that order, and a reply that is the `order_status` template after the three
global replacements of the slots `orderId`, `status`, `deliveryDate` by the
values of the order, preceded by `Welcome back! ` for a returning user and
then by the phrase for a negative sentiment; the reply contains the order
id whenever the template contains the slot `orderId`, and it contains the
status whenever the template contains the slot `status` and the status text
has no `$` and no brace and is not a part of the word `deliveryDate`. -/
theorem C9_known_order_reply (intents : List IntentDef) (templates : Templates)
    (demoOrders : List Order) (st : State) (req : Request) (amb : Ambient) (oid : Str)
    (order : Order)
    (hint : (AdvancedProcessor.detectIntentWithContext intents st.conversationHistory
      req.message req.sessionId).intent = "order_status")
    (hid : AdvancedProcessor.findOrderId req.message = some oid)
    (hord : demoOrders.find? (fun o => decide (o.id = oid)) = some order) :
    (AdvancedProcessor.process intents templates demoOrders st req amb).1.confidence =
      max (AdvancedProcessor.detectIntentWithContext intents st.conversationHistory
        req.message req.sessionId).confidence (9 / 10) ∧
    9 / 10 ≤ (AdvancedProcessor.process intents templates demoOrders st req amb).1.confidence ∧
    (AdvancedProcessor.detectIntentWithContext intents st.conversationHistory req.message
      req.sessionId).confidence ≤
      (AdvancedProcessor.process intents templates demoOrders st req amb).1.confidence ∧
    (AdvancedProcessor.process intents templates demoOrders st req amb).1.metadata.order =
      some order ∧
    order.id = oid ∧
    (AdvancedProcessor.process intents templates demoOrders st req amb).1.reply =
      (if (AdvancedProcessor.process intents templates demoOrders st req
          amb).1.metadata.isReturningUser then "Welcome back! ".toList else []) ++
      (if (AdvancedProcessor.process intents templates demoOrders st req
          amb).1.metadata.sentiment = "negative"
        then "I understand you\x27re frustrated. ".toList else []) ++
      JS.replaceAll (AdvancedProcessor.slotPattern "deliveryDate".toList) order.deliveryDate
        (JS.replaceAll (AdvancedProcessor.slotPattern "status".toList) order.status
          (JS.replaceAll (AdvancedProcessor.slotPattern "orderId".toList) order.id
            templates.order_status)) ∧
    (AdvancedProcessor.slotPattern "orderId".toList <:+: templates.order_status →
      order.id <:+: (AdvancedProcessor.process intents templates demoOrders st req
        amb).1.reply) ∧
    (AdvancedProcessor.slotPattern "status".toList <:+: templates.order_status →
      (∀ c ∈ order.status, c ≠ '$' ∧ c ≠ Char.ofNat 123 ∧ c ≠ Char.ofNat 125) →
      (order.status <:+: "deliveryDate".toList → order.status = []) →
      order.status <:+: (AdvancedProcessor.process intents templates demoOrders st req
        amb).1.reply) := by
  obtain ⟨hreply, hconf, hmeta⟩ := AdvancedProcessor.process_of_known_order intents templates
    demoOrders st req amb oid order hint hid hord
  have hoid : order.id = oid := by
    have := List.find?_some hord
    simpa using this
  have hshape : OrderIdShape order.id := hoid ▸ AdvancedProcessor.findOrderId_shape _ _ hid
  have hform : (AdvancedProcessor.process intents templates demoOrders st req amb).1.reply =
      (if (AdvancedProcessor.process intents templates demoOrders st req
          amb).1.metadata.isReturningUser then "Welcome back! ".toList else []) ++
      (if (AdvancedProcessor.process intents templates demoOrders st req
          amb).1.metadata.sentiment = "negative"
        then "I understand you\x27re frustrated. ".toList else []) ++
      AdvancedProcessor.fillSlots templates.order_status
        [("orderId".toList, order.id), ("status".toList, order.status),
          ("deliveryDate".toList, order.deliveryDate)] := by
    rw [hreply, AdvancedProcessor.fillTemplate_eq]
    simp only [AdvancedProcessor.replyPrefix, AdvancedProcessor.process, decide_eq_true_eq]
  refine ⟨hconf, ?_, ?_, hmeta, hoid, hform, ?_, ?_⟩
  · rw [hconf]; exact le_max_right _ _
  · rw [hconf]; exact le_max_left _ _
  · intro hph
    rw [hform]
    exact (AdvancedProcessor.fillSlots_contains_id templates.order_status order.id order.status
      order.deliveryDate hshape hph).trans (List.suffix_append _ _).isInfix
  · intro hph hclean hpart
    rw [hform]
    exact (AdvancedProcessor.fillSlots_contains_status templates.order_status order.id
      order.status order.deliveryDate hclean hpart hph).trans (List.suffix_append _ _).isInfix

/-- Witness of C9: a message with a negative word, on a fresh processor; the
reply contains the id `ORD1001` and the status `Shipped`. -/
theorem C9_known_order_reply_witness :
    (AdvancedProcessor.process sampleCatalog sampleTemplates sampleOrders
      AdvancedProcessor.fresh
      { sessionId := "s1", message := "Where is my broken order ORD1001?".toList }
      { now := 0, elapsed := 0, random := [] }).1.reply =
      "I understand you\x27re frustrated. Order ORD1001 is Shipped, due 2025-10-20.".toList ∧
    9 / 10 ≤ (AdvancedProcessor.process sampleCatalog sampleTemplates sampleOrders
      AdvancedProcessor.fresh
      { sessionId := "s1", message := "Where is my broken order ORD1001?".toList }
      { now := 0, elapsed := 0, random := [] }).1.confidence ∧
    "ORD1001".toList <:+: (AdvancedProcessor.process sampleCatalog sampleTemplates sampleOrders
      AdvancedProcessor.fresh
      { sessionId := "s1", message := "Where is my broken order ORD1001?".toList }
      { now := 0, elapsed := 0, random := [] }).1.reply ∧
    "Shipped".toList <:+: (AdvancedProcessor.process sampleCatalog sampleTemplates sampleOrders
      AdvancedProcessor.fresh
      { sessionId := "s1", message := "Where is my broken order ORD1001?".toList }
      { now := 0, elapsed := 0, random := [] }).1.reply := by
  have h := C9_known_order_reply sampleCatalog sampleTemplates sampleOrders
    AdvancedProcessor.fresh
    { sessionId := "s1", message := "Where is my broken order ORD1001?".toList }
    { now := 0, elapsed := 0, random := [] } "ORD1001".toList
    { id := "ORD1001".toList, status := "Shipped".toList, deliveryDate := "2025-10-20".toList
      items := ["Widget".toList], total := 25 }
    (by decide!) (by decide) (by decide!)
  refine ⟨by decide!, h.2.1, h.2.2.2.2.2.2.1 (by decide),
    h.2.2.2.2.2.2.2 (by decide) (by decide) (by decide)⟩

/-- Counterexample to C9 as stated. First, for the message
`Where is my broken order ORD1001?` on a fresh processor the intent is
`order_status` and the order is found, yet the reply is not the filled
template: the phrase for a negative sentiment stands before it. Second, for
an order whose status text is the slot of the delivery date, the template
contains the slot `status` and the reply does not contain the status: the
third replacement fills the slot that the status brought in. -/
theorem C9_reply_is_not_the_bare_template :
    ((AdvancedProcessor.detectIntentWithContext sampleCatalog
        AdvancedProcessor.fresh.conversationHistory
        "Where is my broken order ORD1001?".toList "s1").intent = "order_status" ∧
      AdvancedProcessor.findOrderId "Where is my broken order ORD1001?".toList =
        some "ORD1001".toList ∧
      (sampleOrders.find? (fun o => decide (o.id = "ORD1001".toList))).map Order.status =
        some "Shipped".toList ∧
      (AdvancedProcessor.process sampleCatalog sampleTemplates sampleOrders
        AdvancedProcessor.fresh
        { sessionId := "s1", message := "Where is my broken order ORD1001?".toList }
        { now := 0, elapsed := 0, random := [] }).1.reply ≠
        AdvancedProcessor.fillSlots sampleTemplates.order_status
          [("orderId".toList, "ORD1001".toList), ("status".toList, "Shipped".toList),
            ("deliveryDate".toList, "2025-10-20".toList)] ∧
      (AdvancedProcessor.process sampleCatalog sampleTemplates sampleOrders
        AdvancedProcessor.fresh
        { sessionId := "s1", message := "Where is my broken order ORD1001?".toList }
        { now := 0, elapsed := 0, random := [] }).1.reply =
        "I understand you\x27re frustrated. Order ORD1001 is Shipped, due 2025-10-20.".toList) ∧
    ((AdvancedProcessor.detectIntentWithContext sampleCatalog
        AdvancedProcessor.fresh.conversationHistory
        "Where is my order ORD1001?".toList "s1").intent = "order_status" ∧
      AdvancedProcessor.findOrderId "Where is my order ORD1001?".toList =
        some "ORD1001".toList ∧
      (nestedOrders.find? (fun o => decide (o.id = "ORD1001".toList))).map Order.status =
        some "\x7bdeliveryDate\x7d".toList ∧
      AdvancedProcessor.slotPattern "status".toList <:+: sampleTemplates.order_status ∧
      ¬ "\x7bdeliveryDate\x7d".toList <:+:
        (AdvancedProcessor.process sampleCatalog sampleTemplates nestedOrders
          AdvancedProcessor.fresh
          { sessionId := "s1", message := "Where is my order ORD1001?".toList }
          { now := 0, elapsed := 0, random := [] }).1.reply ∧
      (AdvancedProcessor.process sampleCatalog sampleTemplates nestedOrders
        AdvancedProcessor.fresh
        { sessionId := "s1", message := "Where is my order ORD1001?".toList }
        { now := 0, elapsed := 0, random := [] }).1.reply =
        "Order ORD1001 is 2025-10-20, due 2025-10-20.".toList) := by
  decide!

/-! ## Escalation and the order-status prompt -/

namespace AdvancedProcessor

/-- The result of `process` in the branch `human_escalation`. -/
theorem process_of_escalation (intents : List IntentDef) (templates : Templates)
    (demoOrders : List Order) (st : State) (req : Request) (amb : Ambient)
    (hint : (detectIntentWithContext intents st.conversationHistory req.message
      req.sessionId).intent = "human_escalation") :
    (process intents templates demoOrders st req amb).1.reply =
      fillTemplate templates.human_escalation [("ticketId".toList, "TCK-".toList ++ amb.random)]
        { sentiment := some (analyzeSentiment req.message)
          isReturningUser := (process intents templates demoOrders st req
            amb).1.metadata.isReturningUser } ∧
    (process intents templates demoOrders st req amb).1.confidence = 95 / 100 ∧
    (process intents templates demoOrders st req amb).1.metadata.ticketId =
      some ("TCK-".toList ++ amb.random) := by
  simp only [process, compose, hint]
  rw [if_neg (by decide), if_neg (by decide), if_neg (by decide), if_neg (by decide)]
  simp only [if_true]
  exact ⟨trivial, trivial, trivial⟩

/-- The result of `process` in the branch `order_status` without an order id. -/
theorem process_of_missing_id (intents : List IntentDef) (templates : Templates)
    (demoOrders : List Order) (st : State) (req : Request) (amb : Ambient)
    (hint : (detectIntentWithContext intents st.conversationHistory req.message
      req.sessionId).intent = "order_status")
    (hid : findOrderId req.message = none) :
    (process intents templates demoOrders st req amb).1.reply =
      ("I\x27d be happy to check your order status! " ++
        "Please provide your order ID (e.g., ORD1001).").toList ∧
    (process intents templates demoOrders st req amb).1.confidence = 7 / 10 := by
  simp only [process, compose, hint, hid]
  rw [if_neg (by decide)]
  simp only [if_true]
  exact ⟨trivial, trivial⟩

end AdvancedProcessor

/-- Claim C11, amended. For every message and session for which
`AdvancedProcessor.process` resolves intent `human_escalation`, and for every
text drawn for the ticket: `metadata.ticketId` is `TCK-` followed by the drawn
text, so a non-empty text that begins with `TCK-`; the confidence is 0.95, so
at least 0.9; the reply is the `human_escalation` template after the global
replacement of the slot `ticketId` by that identifier, preceded by
`Welcome back! ` for a returning user and then by the phrase for a negative
sentiment; and when the drawn text consists of digits and letters and the
template contains the slot, the reply contains the identifier. -/
theorem C11_escalation_ticket (intents : List IntentDef) (templates : Templates)
    (demoOrders : List Order) (st : State) (req : Request) (amb : Ambient)
    (hint : (AdvancedProcessor.process intents templates demoOrders st req amb).1.intent =
      "human_escalation") :
    (AdvancedProcessor.process intents templates demoOrders st req amb).1.metadata.ticketId =
      some ("TCK-".toList ++ amb.random) ∧
    "TCK-".toList ++ amb.random ≠ [] ∧
    "TCK-".toList <+: "TCK-".toList ++ amb.random ∧
    (AdvancedProcessor.process intents templates demoOrders st req amb).1.confidence =
      95 / 100 ∧
    9 / 10 ≤ (AdvancedProcessor.process intents templates demoOrders st req amb).1.confidence ∧
    (AdvancedProcessor.process intents templates demoOrders st req amb).1.reply =
      (if (AdvancedProcessor.process intents templates demoOrders st req
          amb).1.metadata.isReturningUser then "Welcome back! ".toList else []) ++
      (if (AdvancedProcessor.process intents templates demoOrders st req
          amb).1.metadata.sentiment = "negative"
        then "I understand you\x27re frustrated. ".toList else []) ++
      JS.replaceAll (AdvancedProcessor.slotPattern "ticketId".toList)
        ("TCK-".toList ++ amb.random) templates.human_escalation ∧
    ((∀ c ∈ amb.random, c.isAlphanum = true) →
      AdvancedProcessor.slotPattern "ticketId".toList <:+: templates.human_escalation →
      "TCK-".toList ++ amb.random <:+:
        (AdvancedProcessor.process intents templates demoOrders st req amb).1.reply) := by
  have hint2 : (AdvancedProcessor.detectIntentWithContext intents st.conversationHistory
      req.message req.sessionId).intent = "human_escalation" := hint
  obtain ⟨hreply, hconf, hmeta⟩ := AdvancedProcessor.process_of_escalation intents templates
    demoOrders st req amb hint2
  have hform : (AdvancedProcessor.process intents templates demoOrders st req amb).1.reply =
      (if (AdvancedProcessor.process intents templates demoOrders st req
          amb).1.metadata.isReturningUser then "Welcome back! ".toList else []) ++
      (if (AdvancedProcessor.process intents templates demoOrders st req
          amb).1.metadata.sentiment = "negative"
        then "I understand you\x27re frustrated. ".toList else []) ++
      JS.replaceAll (AdvancedProcessor.slotPattern "ticketId".toList)
        ("TCK-".toList ++ amb.random) templates.human_escalation := by
    rw [hreply, AdvancedProcessor.fillTemplate_eq]
    simp only [AdvancedProcessor.replyPrefix, AdvancedProcessor.process, decide_eq_true_eq,
      AdvancedProcessor.fillSlots, List.foldl_cons, List.foldl_nil]
  refine ⟨hmeta, by simp, List.prefix_append _ _, hconf, by rw [hconf]; norm_num, hform, ?_⟩
  intro hrand hph
  rw [hform]
  have hclean : ∀ c ∈ "TCK-".toList ++ amb.random, c ≠ '$' := by
    intro c hc
    rcases List.mem_append.mp hc with hc | hc
    · have hall : ∀ d ∈ "TCK-".toList, d ≠ '$' := by decide
      exact hall c hc
    · intro hd
      have := hrand c hc
      rw [hd] at this
      exact absurd this (by decide)
  exact (JS.infix_replaceAllGo_of_pattern _ _ (by simp [AdvancedProcessor.slotPattern]) hclean
    templates.human_escalation [] hph).trans (List.suffix_append _ _).isInfix

/-- Witness of C11: a request for a human, with a negative word, on a fresh processor. -/
theorem C11_escalation_ticket_witness :
    (AdvancedProcessor.process escalationCatalog sampleTemplates sampleOrders
      AdvancedProcessor.fresh
      { sessionId := "s1", message := "This is terrible, let me speak to a human".toList }
      { now := 0, elapsed := 0, random := "K3J9QZ".toList }).1.intent = "human_escalation" ∧
    (AdvancedProcessor.process escalationCatalog sampleTemplates sampleOrders
      AdvancedProcessor.fresh
      { sessionId := "s1", message := "This is terrible, let me speak to a human".toList }
      { now := 0, elapsed := 0, random := "K3J9QZ".toList }).1.metadata.ticketId =
      some "TCK-K3J9QZ".toList ∧
    9 / 10 ≤ (AdvancedProcessor.process escalationCatalog sampleTemplates sampleOrders
      AdvancedProcessor.fresh
      { sessionId := "s1", message := "This is terrible, let me speak to a human".toList }
      { now := 0, elapsed := 0, random := "K3J9QZ".toList }).1.confidence ∧
    "TCK-K3J9QZ".toList <:+:
      (AdvancedProcessor.process escalationCatalog sampleTemplates sampleOrders
        AdvancedProcessor.fresh
        { sessionId := "s1", message := "This is terrible, let me speak to a human".toList }
        { now := 0, elapsed := 0, random := "K3J9QZ".toList }).1.reply := by
  have h := C11_escalation_ticket escalationCatalog sampleTemplates sampleOrders
    AdvancedProcessor.fresh
    { sessionId := "s1", message := "This is terrible, let me speak to a human".toList }
    { now := 0, elapsed := 0, random := "K3J9QZ".toList } (by decide!)
  exact ⟨by decide!, h.1, h.2.2.2.2.1, h.2.2.2.2.2.2 (by decide) (by decide)⟩

/-- Counterexample to C11 as stated: for the message
`This is terrible, let me speak to a human` on a fresh processor the intent
is `human_escalation`, and the reply is not the template with the slot
replaced by the ticket identifier: the phrase for a negative sentiment
stands before it. -/
theorem C11_reply_has_sentiment_phrase :
    (AdvancedProcessor.process escalationCatalog sampleTemplates sampleOrders
      AdvancedProcessor.fresh
      { sessionId := "s1", message := "This is terrible, let me speak to a human".toList }
      { now := 0, elapsed := 0, random := "K3J9QZ".toList }).1.intent = "human_escalation" ∧
    (AdvancedProcessor.process escalationCatalog sampleTemplates sampleOrders
      AdvancedProcessor.fresh
      { sessionId := "s1", message := "This is terrible, let me speak to a human".toList }
      { now := 0, elapsed := 0, random := "K3J9QZ".toList }).1.metadata.ticketId =
      some "TCK-K3J9QZ".toList ∧
    (AdvancedProcessor.process escalationCatalog sampleTemplates sampleOrders
      AdvancedProcessor.fresh
      { sessionId := "s1", message := "This is terrible, let me speak to a human".toList }
      { now := 0, elapsed := 0, random := "K3J9QZ".toList }).1.reply ≠
      JS.replaceAll (AdvancedProcessor.slotPattern "ticketId".toList) "TCK-K3J9QZ".toList
        sampleTemplates.human_escalation ∧
    JS.replaceAll (AdvancedProcessor.slotPattern "ticketId".toList) "TCK-K3J9QZ".toList
      sampleTemplates.human_escalation = "Ticket TCK-K3J9QZ was opened.".toList ∧
    (AdvancedProcessor.process escalationCatalog sampleTemplates sampleOrders
      AdvancedProcessor.fresh
      { sessionId := "s1", message := "This is terrible, let me speak to a human".toList }
      { now := 0, elapsed := 0, random := "K3J9QZ".toList }).1.reply =
      "I understand you\x27re frustrated. Ticket TCK-K3J9QZ was opened.".toList := by
  decide!

/-- Claim C12, amended. For every message and session for which
`detectIntentWithContext` yields intent `order_status` (with any confidence
`c`) and `findOrderId` finds no order id in the message,
`AdvancedProcessor.process` replies with the prompt that asks for the order
id and returns the confidence 0.7, whatever `c` was. -/
theorem C12_missing_id_prompt (intents : List IntentDef) (templates : Templates)
    (demoOrders : List Order) (st : State) (req : Request) (amb : Ambient)
    (hint : (AdvancedProcessor.detectIntentWithContext intents st.conversationHistory
      req.message req.sessionId).intent = "order_status")
    (hid : AdvancedProcessor.findOrderId req.message = none) :
    (AdvancedProcessor.process intents templates demoOrders st req amb).1.intent =
      "order_status" ∧
    (AdvancedProcessor.process intents templates demoOrders st req amb).1.reply =
      ("I\x27d be happy to check your order status! " ++
        "Please provide your order ID (e.g., ORD1001).").toList ∧
    (AdvancedProcessor.process intents templates demoOrders st req amb).1.confidence = 7 / 10 :=
  ⟨hint, AdvancedProcessor.process_of_missing_id intents templates demoOrders st req amb hint
    hid⟩

/-- Witness of C12: the message `where is my order` on a fresh processor. -/
theorem C12_missing_id_prompt_witness :
    (AdvancedProcessor.detectIntentWithContext sampleCatalog
      AdvancedProcessor.fresh.conversationHistory "where is my order".toList "s1").intent =
      "order_status" ∧
    AdvancedProcessor.findOrderId "where is my order".toList = none ∧
    (AdvancedProcessor.process sampleCatalog sampleTemplates sampleOrders
      AdvancedProcessor.fresh { sessionId := "s1", message := "where is my order".toList }
      { now := 0, elapsed := 0, random := [] }).1.confidence = 7 / 10 :=
  ⟨by decide!, by decide,
    (C12_missing_id_prompt sampleCatalog sampleTemplates sampleOrders AdvancedProcessor.fresh
      { sessionId := "s1", message := "where is my order".toList }
      { now := 0, elapsed := 0, random := [] } (by decide!) (by decide)).2.2⟩

/-- Counterexample to C12 as stated: for the message `where is my order` on
a fresh processor `detectIntentWithContext` yields `order_status` with
confidence `143/300`, `findOrderId` finds nothing, and `process` returns the
confidence `7/10`, not `143/300`. -/
theorem C12_confidence_is_overwritten :
    (AdvancedProcessor.detectIntentWithContext sampleCatalog
      AdvancedProcessor.fresh.conversationHistory "where is my order".toList "s1").intent =
      "order_status" ∧
    AdvancedProcessor.findOrderId "where is my order".toList = none ∧
    (AdvancedProcessor.detectIntentWithContext sampleCatalog
      AdvancedProcessor.fresh.conversationHistory "where is my order".toList "s1").confidence =
      143 / 300 ∧
    (AdvancedProcessor.process sampleCatalog sampleTemplates sampleOrders
      AdvancedProcessor.fresh { sessionId := "s1", message := "where is my order".toList }
      { now := 0, elapsed := 0, random := [] }).1.confidence = 7 / 10 ∧
    (AdvancedProcessor.process sampleCatalog sampleTemplates sampleOrders
      AdvancedProcessor.fresh { sessionId := "s1", message := "where is my order".toList }
      { now := 0, elapsed := 0, random := [] }).1.confidence ≠
      (AdvancedProcessor.detectIntentWithContext sampleCatalog
        AdvancedProcessor.fresh.conversationHistory "where is my order".toList
        "s1").confidence := by
  decide!

/-! ## Confidence bounds of the baseline processor -/

namespace PromptProcessor

theorem firstPass_score_nonneg (intents : List IntentDef) (text : Str) :
    0 ≤ (firstPass intents text).score := by
  unfold firstPass
  generalize hb : ({ intent := "fallback", score := 0 } : Best) = b
  have hs : 0 ≤ b.score := by rw [← hb]
  clear hb
  induction intents generalizing b with
  | nil => exact hs
  | cons it rest ih =>
    simp only [List.foldl_cons]
    apply ih
    split_ifs with h
    · exact le_of_lt (lt_of_le_of_lt hs h)
    · exact hs

theorem secondPass_score_nonneg (intents : List IntentDef) (text : Str) (b : Best)
    (hs : 0 ≤ b.score) : 0 ≤ (secondPass intents text b).score := by
  unfold secondPass
  induction intents generalizing b with
  | nil => exact hs
  | cons it rest ih =>
    simp only [List.foldl_cons]
    apply ih
    split_ifs with h
    · exact le_of_lt (lt_of_le_of_lt hs h)
    · exact hs

theorem resolve_score_nonneg (intents : List IntentDef) (text : Str) :
    0 ≤ (resolve intents text).score := by
  unfold resolve
  simp only
  split_ifs
  · exact secondPass_score_nonneg _ _ _ (firstPass_score_nonneg intents text)
  · exact firstPass_score_nonneg intents text

/-- The confidence that `process` returns, branch by branch. -/
theorem process_confidence (intents : List IntentDef) (templates : Templates)
    (demoOrders : List Order) (req : Request) (random : Str) :
    (process intents templates demoOrders req random).confidence =
      if (resolve intents (normalize req.message)).intent = "order_status" then
        match findOrderId req.message with
        | some orderId =>
          match demoOrders.find? (fun o => decide (o.id = orderId)) with
          | some _ => max (min 1 ((resolve intents (normalize req.message)).score / 2 + 1 / 10))
              (8 / 10)
          | none => 5 / 10
        | none => min 1 ((resolve intents (normalize req.message)).score / 2 + 1 / 10)
      else if (resolve intents (normalize req.message)).intent = "refund" ∨
          (resolve intents (normalize req.message)).intent = "greeting" ∨
          (resolve intents (normalize req.message)).intent = "complaint" ∨
          (resolve intents (normalize req.message)).intent = "thanks" then
        min 1 ((resolve intents (normalize req.message)).score / 2 + 1 / 10)
      else if (resolve intents (normalize req.message)).intent = "human_escalation" then 9 / 10
      else min (min 1 ((resolve intents (normalize req.message)).score / 2 + 1 / 10)) (4 / 10) := by
  unfold process
  simp only
  by_cases ho : (resolve intents (normalize req.message)).intent = "order_status"
  · rw [if_pos ho, if_pos ho]
    cases findOrderId req.message with
    | none => rfl
    | some oid =>
      cases hf : demoOrders.find? (fun o => decide (o.id = oid)) with
      | none => simp only [hf]
      | some o => simp only [hf]
  · rw [if_neg ho, if_neg ho]
    by_cases hr : (resolve intents (normalize req.message)).intent = "refund"
    · rw [if_pos hr, if_pos (Or.inl hr)]
    · rw [if_neg hr]
      by_cases hg : (resolve intents (normalize req.message)).intent = "greeting"
      · rw [if_pos hg, if_pos (Or.inr (Or.inl hg))]
      · rw [if_neg hg]
        by_cases hc : (resolve intents (normalize req.message)).intent = "complaint"
        · rw [if_pos hc, if_pos (Or.inr (Or.inr (Or.inl hc)))]
        · rw [if_neg hc]
          by_cases hh : (resolve intents (normalize req.message)).intent = "human_escalation"
          · rw [if_pos hh, if_neg (by rw [hh]; decide), if_pos hh]
          · rw [if_neg hh]
            by_cases ht : (resolve intents (normalize req.message)).intent = "thanks"
            · rw [if_pos ht, if_pos (Or.inr (Or.inr (Or.inr ht)))]
            · rw [if_neg ht, if_neg (by tauto), if_neg hh]

end PromptProcessor

/-- Claim C13. For every intent catalog, order catalog, template table and
message, the empty message included, the confidence returned by
`promptProcessor.process` is strictly greater than 0 and at most 1. -/
theorem C13_prompt_confidence_range (intents : List IntentDef) (templates : Templates)
    (demoOrders : List Order) (req : Request) (random : Str) :
    (0 < (PromptProcessor.process intents templates demoOrders req random).confidence ∧
      (PromptProcessor.process intents templates demoOrders req random).confidence ≤ 1) ∧
    (0 < (PromptProcessor.process intents templates demoOrders
        { sessionId := req.sessionId, message := [] } random).confidence ∧
      (PromptProcessor.process intents templates demoOrders
        { sessionId := req.sessionId, message := [] } random).confidence ≤ 1) := by
  have key : ∀ r : Request,
      0 < (PromptProcessor.process intents templates demoOrders r random).confidence ∧
      (PromptProcessor.process intents templates demoOrders r random).confidence ≤ 1 := by
    intro r
    have hs := PromptProcessor.resolve_score_nonneg intents (PromptProcessor.normalize r.message)
    have h0 : 0 < min 1 ((PromptProcessor.resolve intents
        (PromptProcessor.normalize r.message)).score / 2 + 1 / 10) := by
      refine lt_min (by norm_num) ?_
      have := div_nonneg hs (by norm_num : (0 : ℚ) ≤ 2)
      linarith
    have h1 : min 1 ((PromptProcessor.resolve intents
        (PromptProcessor.normalize r.message)).score / 2 + 1 / 10) ≤ 1 := min_le_left _ _
    rw [PromptProcessor.process_confidence]
    split_ifs
    · split
      · split
        · exact ⟨lt_of_lt_of_le h0 (le_max_left _ _), max_le h1 (by norm_num)⟩
        · constructor <;> norm_num
      · exact ⟨h0, h1⟩
    · exact ⟨h0, h1⟩
    · constructor <;> norm_num
    · exact ⟨lt_min h0 (by norm_num), le_trans (min_le_left _ _) h1⟩
  exact ⟨key req, key _⟩

/-! ## Token overlap -/

namespace JS

theorem setOf_nodup (l : List Str) : (setOf l).Nodup := by
  induction l with
  | nil => exact List.nodup_nil
  | cons a rest ih =>
    simp only [setOf, List.nodup_cons, List.mem_filter, bne_iff_ne, ne_eq, not_true_eq_false,
      and_false, not_false_eq_true, true_and]
    exact ih.filter _

/-- The shared part of two duplicate-free lists is the same from either side, up to order. -/
theorem perm_filter_mem (A B : List Str) (hA : A.Nodup) (hB : B.Nodup) :
    (A.filter (fun t => decide (t ∈ B))).Perm (B.filter (fun t => decide (t ∈ A))) := by
  rw [List.perm_ext_iff_of_nodup (hA.filter _) (hB.filter _)]
  intro t
  simp only [List.mem_filter, decide_eq_true_eq]
  tauto

end JS

namespace AdvancedProcessor

/-- The loop of `tokenOverlap` adds the shared weight to both accumulators. -/
theorem foldl_weights (toksA toksB : List Str) (weights : List (Str × ℚ)) (x y : ℚ) :
    toksA.foldl
      (fun (acc : ℚ × ℚ) token =>
        if token ∈ toksB then (acc.1 + weightOr1 weights token, acc.2 + weightOr1 weights token)
        else acc)
      (x, y) =
    (x + sharedWeight toksA toksB weights, y + sharedWeight toksA toksB weights) := by
  induction toksA generalizing x y with
  | nil => simp [sharedWeight]
  | cons t rest ih =>
    simp only [List.foldl_cons]
    by_cases ht : t ∈ toksB
    · rw [if_pos ht, ih]
      simp only [sharedWeight, List.filter_cons, ht, decide_True, if_true, List.map_cons,
        List.sum_cons, add_assoc]
    · rw [if_neg ht, ih]
      simp only [sharedWeight, List.filter_cons, ht, decide_False, Bool.false_eq_true, if_false]

/-- Method `tokenOverlap` in closed form. -/
theorem tokenOverlap_eq (a b : Str) (weights : List (Str × ℚ)) :
    tokenOverlap a b weights =
      if (tokens a).length = 0 ∨ (tokens b).length = 0 then 0
      else if sharedWeight (tokens a) (tokens b) weights > 0
        then sharedWeight (tokens a) (tokens b) weights /
          ((max (tokens a).length (tokens b).length : Nat) : ℚ)
        else 0 := by
  unfold tokenOverlap
  simp only [foldl_weights, zero_add]

theorem sharedWeight_comm (A B : List Str) (weights : List (Str × ℚ)) (hA : A.Nodup)
    (hB : B.Nodup) : sharedWeight A B weights = sharedWeight B A weights := by
  unfold sharedWeight
  exact ((JS.perm_filter_mem A B hA hB).map _).sum_eq

theorem tokens_nodup (a : Str) : (tokens a).Nodup := JS.setOf_nodup _

end AdvancedProcessor

namespace PromptProcessor

theorem foldl_common (A B : List Str) (n : Nat) :
    A.foldl (fun common t => if t ∈ B then common + 1 else common) n =
      n + (A.filter (fun t => decide (t ∈ B))).length := by
  induction A generalizing n with
  | nil => simp
  | cons t rest ih =>
    simp only [List.foldl_cons]
    by_cases ht : t ∈ B
    · rw [if_pos ht, ih]
      simp only [List.filter_cons, ht, decide_True, if_true, List.length_cons]
      omega
    · rw [if_neg ht, ih]
      simp only [List.filter_cons, ht, decide_False, Bool.false_eq_true, if_false]

end PromptProcessor

/-- In exact arithmetic the overlap is symmetric for every weight mapping:
the shared tokens are the same from either side, up to order, and the
denominator is a maximum. -/
theorem tokenOverlap_comm_exact (a b : Str) (w : List (Str × ℚ)) :
    AdvancedProcessor.tokenOverlap a b w = AdvancedProcessor.tokenOverlap b a w ∧
    PromptProcessor.tokenOverlap a b = PromptProcessor.tokenOverlap b a := by
  constructor
  · rw [AdvancedProcessor.tokenOverlap_eq, AdvancedProcessor.tokenOverlap_eq,
      AdvancedProcessor.sharedWeight_comm _ _ w (AdvancedProcessor.tokens_nodup a)
        (AdvancedProcessor.tokens_nodup b),
      max_comm (AdvancedProcessor.tokens a).length]
    by_cases h : (AdvancedProcessor.tokens a).length = 0 ∨ (AdvancedProcessor.tokens b).length = 0
    · rw [if_pos h, if_pos h.symm]
    · have h3 : ¬ ((AdvancedProcessor.tokens b).length = 0 ∨
          (AdvancedProcessor.tokens a).length = 0) := fun h2 => h h2.symm
      rw [if_neg h, if_neg h3]
  · have hA : (PromptProcessor.tokens a).Nodup := JS.setOf_nodup _
    have hB : (PromptProcessor.tokens b).Nodup := JS.setOf_nodup _
    unfold PromptProcessor.tokenOverlap
    simp only [PromptProcessor.foldl_common, zero_add]
    rw [(JS.perm_filter_mem _ _ hA hB).length_eq, max_comm (PromptProcessor.tokens a).length]
    by_cases h : (PromptProcessor.tokens a).length = 0 ∨ (PromptProcessor.tokens b).length = 0
    · rw [if_pos h, if_pos h.symm]
    · have h3 : ¬ ((PromptProcessor.tokens b).length = 0 ∨
          (PromptProcessor.tokens a).length = 0) := fun h2 => h h2.symm
      rw [if_neg h, if_neg h3]

namespace JS

theorem mem_of_get_eq_some {κ α : Type} [DecidableEq κ] (d : List (κ × α)) (k : κ) (v : α)
    (h : get d k = some v) : (k, v) ∈ d := by
  induction d with
  | nil => simp [get, List.lookup] at h
  | cons e rest ih =>
    obtain ⟨k1, v1⟩ := e
    simp only [get, List.lookup] at h ih
    cases hk : (k == k1) with
    | true =>
      rw [hk] at h
      have hkk : k = k1 := by simpa using hk
      simp only [Option.some.injEq] at h
      rw [hkk, ← h]
      exact List.mem_cons_self _ _
    | false =>
      rw [hk] at h
      exact List.mem_cons_of_mem _ (ih h)

theorem mem_set {κ α : Type} [DecidableEq κ] (d : List (κ × α)) (k : κ) (v : α) (e : κ × α)
    (h : e ∈ set d k v) : e = (k, v) ∨ e ∈ d := by
  induction d with
  | nil =>
    simp only [set, List.mem_singleton] at h
    exact Or.inl h
  | cons e1 rest ih =>
    obtain ⟨k1, v1⟩ := e1
    simp only [set] at h
    split_ifs at h with hk
    · rcases List.mem_cons.mp h with h | h
      · exact Or.inl h
      · exact Or.inr (List.mem_cons_of_mem _ h)
    · rcases List.mem_cons.mp h with h | h
      · exact Or.inr (h ▸ List.mem_cons_self _ _)
      · rcases ih h with h2 | h2
        · exact Or.inl h2
        · exact Or.inr (List.mem_cons_of_mem _ h2)

end JS

namespace AdvancedProcessor

theorem weightOr1_le (weights : List (Str × ℚ)) (token : Str) (bound : ℚ) (hb : 1 ≤ bound)
    (hw : ∀ kv ∈ weights, kv.2 ≤ bound) : weightOr1 weights token ≤ bound := by
  unfold weightOr1
  cases hg : JS.get weights token with
  | none => exact hb
  | some v =>
    simp only
    split_ifs
    · exact hb
    · exact hw _ (JS.mem_of_get_eq_some weights token v hg)

theorem sharedWeight_le (A B : List Str) (weights : List (Str × ℚ)) (bound : ℚ)
    (hb : 1 ≤ bound) (hw : ∀ kv ∈ weights, kv.2 ≤ bound) :
    sharedWeight A B weights ≤ (A.length : ℚ) * bound := by
  unfold sharedWeight
  induction A with
  | nil => simp
  | cons t rest ih =>
    have hpos : 0 ≤ bound := le_trans (by norm_num) hb
    simp only [List.filter_cons, List.length_cons, Nat.cast_add, Nat.cast_one]
    split_ifs
    · simp only [List.map_cons, List.sum_cons]
      have := weightOr1_le weights t bound hb hw
      linarith
    · linarith

/-- Every weight that the context puts on a token is 2. -/
theorem contextWeights_values (recent : List Turn) : ∀ kv ∈ contextWeights recent, kv.2 = 2 := by
  unfold contextWeights
  have key : ∀ (w : List (Str × ℚ)), (∀ kv ∈ w, kv.2 = 2) →
      ∀ kv ∈ recent.foldl
        (fun w msg =>
          let w :=
            if msg.intent = "order_status" then
              JS.set (JS.set (JS.set w "order".toList 2) "status".toList 2) "track".toList 2
            else w
          if msg.intent = "refund" then
            JS.set (JS.set (JS.set w "refund".toList 2) "return".toList 2) "money".toList 2
          else w) w, kv.2 = 2 := by
    induction recent with
    | nil => intro w hw; exact hw
    | cons msg rest ih =>
      intro w hw
      simp only [List.foldl_cons]
      apply ih
      have hset : ∀ (d : List (Str × ℚ)) (k : Str), (∀ kv ∈ d, kv.2 = 2) →
          ∀ kv ∈ JS.set d k 2, kv.2 = 2 := by
        intro d k hd kv hkv
        rcases JS.mem_set d k 2 kv hkv with h | h
        · rw [h]
        · exact hd kv h
      split_ifs
      · exact hset _ _ (hset _ _ (hset _ _ (hset _ _ (hset _ _ (hset _ _ hw)))))
      · exact hset _ _ (hset _ _ (hset _ _ hw))
      · exact hset _ _ (hset _ _ (hset _ _ hw))
      · exact hw
  exact key [] (fun kv h => absurd h (List.not_mem_nil kv))

theorem tokenOverlap_nonneg (a b : Str) (weights : List (Str × ℚ)) :
    0 ≤ tokenOverlap a b weights := by
  rw [tokenOverlap_eq]
  split_ifs with h1 h2
  · exact le_refl _
  · exact div_nonneg (le_of_lt h2) (Nat.cast_nonneg _)
  · exact le_refl _

theorem tokenOverlap_le (a b : Str) (weights : List (Str × ℚ)) (bound : ℚ) (hb : 1 ≤ bound)
    (hw : ∀ kv ∈ weights, kv.2 ≤ bound) : tokenOverlap a b weights ≤ bound := by
  have hpos : 0 ≤ bound := le_trans (by norm_num) hb
  rw [tokenOverlap_eq]
  split_ifs with h1 h2
  · exact hpos
  · have hA : 0 < (tokens a).length := by
      rcases Nat.eq_zero_or_pos (tokens a).length with h | h
      · exact absurd (Or.inl h) h1
      · exact h
    have hmax : (0 : ℚ) < ((max (tokens a).length (tokens b).length : Nat) : ℚ) := by
      exact_mod_cast lt_of_lt_of_le hA (le_max_left _ _)
    rw [div_le_iff₀ hmax]
    have h3 := sharedWeight_le (tokens a) (tokens b) weights bound hb hw
    have h4 : ((tokens a).length : ℚ) ≤ ((max (tokens a).length (tokens b).length : Nat) : ℚ) := by
      exact_mod_cast le_max_left _ _
    nlinarith
  · exact hpos

end AdvancedProcessor

/-- Claim C15, amended. For all texts `a` and `b` and every weight mapping,
the score returned by `AdvancedProcessor.tokenOverlap(a, b, weights)` is at
least 0, it is 0 whenever either text has no tokens, and it is at most any
bound `≥ 1` on the stored weights: at most 1 without weights and at most 2
with the context weights that `detectIntentWithContext` passes. -/
theorem C15_tokenOverlap_bounds (a b : Str) (weights : List (Str × ℚ)) (recent : List Turn) :
    0 ≤ AdvancedProcessor.tokenOverlap a b weights ∧
    (AdvancedProcessor.tokens a = [] ∨ AdvancedProcessor.tokens b = [] →
      AdvancedProcessor.tokenOverlap a b weights = 0) ∧
    (∀ bound : ℚ, 1 ≤ bound → (∀ kv ∈ weights, kv.2 ≤ bound) →
      AdvancedProcessor.tokenOverlap a b weights ≤ bound) ∧
    AdvancedProcessor.tokenOverlap a b [] ≤ 1 ∧
    AdvancedProcessor.tokenOverlap a b (AdvancedProcessor.contextWeights recent) ≤ 2 := by
  refine ⟨AdvancedProcessor.tokenOverlap_nonneg a b weights, ?_,
    fun bound hb hw => AdvancedProcessor.tokenOverlap_le a b weights bound hb hw,
    AdvancedProcessor.tokenOverlap_le a b [] 1 (le_refl _)
      (fun kv h => absurd h (List.not_mem_nil kv)),
    AdvancedProcessor.tokenOverlap_le a b _ 2 (by norm_num)
      (fun kv h => le_of_eq (AdvancedProcessor.contextWeights_values recent kv h))⟩
  intro h
  rw [AdvancedProcessor.tokenOverlap_eq, if_pos]
  rcases h with h | h
  · exact Or.inl (by rw [h]; rfl)
  · exact Or.inr (by rw [h]; rfl)

/-- Counterexample to C15 as stated: after a turn of intent `order_status`
the context weight of the token `order` is 2, and the overlap of the texts
`order` and `order` under the context weights is 2, above 1. -/
theorem C15_overlap_exceeds_one :
    AdvancedProcessor.tokenOverlap "order".toList "order".toList
      (AdvancedProcessor.contextWeights
        [{ message := "where is my order".toList, intent := "order_status", confidence := 7 / 10,
           timestamp := 0 }]) = 2 ∧
    ¬ AdvancedProcessor.tokenOverlap "order".toList "order".toList
      (AdvancedProcessor.contextWeights
        [{ message := "where is my order".toList, intent := "order_status", confidence := 7 / 10,
           timestamp := 0 }]) ≤ 1 := by
  decide!

/-! ## Edit distance -/

theorem editDistance_nil_left (t : Str) : editDistance [] t = t.length := by
  rw [editDistance]

theorem editDistance_nil_right (s : Str) : editDistance s [] = s.length := by
  cases s with
  | nil => rw [editDistance]
  | cons a s => rw [editDistance]

theorem editDistance_cons_cons (a b : Char) (s t : Str) :
    editDistance (a :: s) (b :: t) =
      min (editDistance s (b :: t) + 1)
        (min (editDistance (a :: s) t + 1) (editDistance s t + (if a = b then 0 else 1))) := by
  rw [editDistance]

theorem editDistance_comm (s t : Str) : editDistance s t = editDistance t s := by
  induction s generalizing t with
  | nil => rw [editDistance_nil_left, editDistance_nil_right]
  | cons a s ihs =>
    induction t with
    | nil => rw [editDistance_nil_left, editDistance_nil_right]
    | cons b t iht =>
      rw [editDistance_cons_cons, editDistance_cons_cons, ihs (b :: t), iht, ihs t]
      have hc : (if a = b then 0 else 1) = (if b = a then 0 else 1) := by
        by_cases h : a = b
        · rw [if_pos h, if_pos h.symm]
        · rw [if_neg h, if_neg (fun h2 => h h2.symm)]
      rw [hc]
      omega

/-- Deleting the first character changes the distance by at most one. -/
theorem editDistance_cons_left_le (a : Char) (s t : Str) :
    editDistance (a :: s) t ≤ editDistance s t + 1 := by
  cases t with
  | nil => simp [editDistance_nil_right]
  | cons b t =>
    rw [editDistance_cons_cons]
    omega

/-- A longer target is at most one edit further. -/
theorem editDistance_le_cons_right (b : Char) (s t : Str) :
    editDistance s t ≤ editDistance s (b :: t) + 1 := by
  induction s generalizing t with
  | nil =>
    rw [editDistance_nil_left, editDistance_nil_left, List.length_cons]
    omega
  | cons a s ih =>
    rw [editDistance_cons_cons]
    have h1 := editDistance_cons_left_le a s t
    have h2 := ih t
    omega

theorem editDistance_le_cons_left (a : Char) (s t : Str) :
    editDistance s t ≤ editDistance (a :: s) t + 1 := by
  rw [editDistance_comm s t, editDistance_comm (a :: s) t]
  exact editDistance_le_cons_right a t s

/-- Two ways of grouping nine sums under minima. -/
theorem min_plus_regroup (A1 A2 A3 A4 A5 A6 A7 A8 A9 cab cxy : Nat) :
    min (min (A1 + 1) (min (A2 + 1) (A3 + cab)) + 1)
      (min (min (A4 + 1) (min (A5 + 1) (A6 + cab)) + 1)
        (min (A7 + 1) (min (A8 + 1) (A9 + cab)) + cxy)) =
    min (min (A1 + 1) (min (A4 + 1) (A7 + cxy)) + 1)
      (min (min (A2 + 1) (min (A5 + 1) (A8 + cxy)) + 1)
        (min (A3 + 1) (min (A6 + 1) (A9 + cxy)) + cab)) := by
  simp only [← Nat.add_min_add_right, add_assoc]
  simp only [Nat.add_comm cab, Nat.add_comm 1 cxy, Nat.add_comm cab cxy, Nat.add_left_comm]
  ac_rfl

/-- The recurrence of the distance on the last characters. -/
theorem editDistance_snoc (s t : Str) (a b : Char) :
    editDistance (s ++ [a]) (t ++ [b]) =
      min (editDistance s (t ++ [b]) + 1)
        (min (editDistance (s ++ [a]) t + 1) (editDistance s t + (if a = b then 0 else 1))) := by
  induction s generalizing t with
  | nil =>
    induction t with
    | nil =>
      simp only [List.nil_append]
      rw [editDistance_cons_cons]
    | cons y t iht =>
      simp only [List.nil_append, List.cons_append] at iht ⊢
      rw [editDistance_cons_cons a y [] (t ++ [b]), iht, editDistance_cons_cons a y [] t]
      simp only [editDistance_nil_left, List.length_append, List.length_cons, List.length_nil]
      omega
  | cons x s ihs =>
    induction t with
    | nil =>
      have h1 := ihs [] 
      simp only [List.nil_append, List.cons_append] at h1 ⊢
      rw [editDistance_cons_cons x b (s ++ [a]) [], h1, editDistance_cons_cons x b s []]
      simp only [editDistance_nil_right, List.length_append, List.length_cons, List.length_nil]
      omega
    | cons y t iht =>
      have h1 := ihs (y :: t)
      have h3 := ihs t
      simp only [List.cons_append] at h1 h3 iht ⊢
      rw [editDistance_cons_cons x y (s ++ [a]) (t ++ [b]), h1, iht, h3,
        editDistance_cons_cons x y s (t ++ [b]), editDistance_cons_cons x y (s ++ [a]) t,
        editDistance_cons_cons x y s t]
      exact min_plus_regroup _ _ _ _ _ _ _ _ _ _ _

theorem editDistance_reverse (s t : Str) :
    editDistance s.reverse t.reverse = editDistance s t := by
  induction s generalizing t with
  | nil => simp [editDistance_nil_left]
  | cons x s ihs =>
    induction t with
    | nil => simp [editDistance_nil_right]
    | cons y t iht =>
      have h1 := ihs (y :: t)
      have h3 := ihs t
      simp only [List.reverse_cons] at h1 iht ⊢
      rw [editDistance_snoc, h1, iht, h3, editDistance_cons_cons]

namespace AdvancedProcessor

/-- The first row of the matrix holds the lengths of the starts of `str1`. -/
theorem cellsFrom_nil (p1r rest : Str) :
    cellsFrom [] p1r rest = List.range' (p1r.length + 1) rest.length := by
  induction rest generalizing p1r with
  | nil => rfl
  | cons c rest ih =>
    rw [cellsFrom, ih, editDistance_nil_left]
    simp [List.range'_succ]

/-- One pass of the inner loop of `levenshteinDistance` turns the cells of a
row into the cells of the next row. -/
theorem levRowGo_cells (c2 : Char) (p2r p1r rest : Str) :
    levRowGo c2 rest (editDistance p2r p1r) (cellsFrom p2r p1r rest)
      (editDistance (c2 :: p2r) p1r) = cellsFrom (c2 :: p2r) p1r rest := by
  induction rest generalizing p1r with
  | nil => rfl
  | cons c1 rest ih =>
    have hcell : (if c2 = c1 then editDistance p2r p1r
        else min (min (editDistance p2r p1r + 1) (editDistance (c2 :: p2r) p1r + 1))
          (editDistance p2r (c1 :: p1r) + 1)) = editDistance (c2 :: p2r) (c1 :: p1r) := by
      rw [editDistance_cons_cons]
      have h1 := editDistance_le_cons_right c1 p2r p1r
      have h2 := editDistance_le_cons_left c2 p2r p1r
      by_cases h : c2 = c1
      · rw [if_pos h, if_pos h]
        omega
      · rw [if_neg h, if_neg h]
        omega
    simp only [cellsFrom, levRowGo, hcell]
    rw [ih (c1 :: p1r)]

theorem levRow_cells (str1 p2r : Str) (c2 : Char) :
    levRow str1 (editDistance p2r [] :: cellsFrom p2r [] str1) (p2r.length + 1) c2 =
      editDistance (c2 :: p2r) [] :: cellsFrom (c2 :: p2r) [] str1 := by
  have h : p2r.length + 1 = editDistance (c2 :: p2r) [] := by
    rw [editDistance_nil_right, List.length_cons]
  simp only [levRow]
  rw [h, levRowGo_cells]

theorem levRows_cells (str1 s2 p2r : Str) :
    levRows str1 s2 (editDistance p2r [] :: cellsFrom p2r [] str1) (p2r.length + 1) =
      editDistance (s2.reverse ++ p2r) [] :: cellsFrom (s2.reverse ++ p2r) [] str1 := by
  induction s2 generalizing p2r with
  | nil => rfl
  | cons c2 s2 ih =>
    rw [levRows, levRow_cells]
    have := ih (c2 :: p2r)
    rw [List.length_cons] at this
    rw [this]
    simp

/-- The last cell of a row is the distance to the whole of `str1`. -/
theorem getLastD_cells (p2r p1r rest : Str) :
    (editDistance p2r p1r :: cellsFrom p2r p1r rest).getLastD 0 =
      editDistance p2r (rest.reverse ++ p1r) := by
  induction rest generalizing p1r with
  | nil => rfl
  | cons c rest ih =>
    have := ih (c :: p1r)
    simp only [cellsFrom, List.reverse_cons, List.append_assoc, List.singleton_append]
    rw [← this]
    rfl

/-- Method `levenshteinDistance` computes the distance of the recursive definition. -/
theorem levenshteinDistance_eq (str1 str2 : Str) :
    levenshteinDistance str1 str2 = editDistance str1 str2 := by
  have hrow : List.range (str1.length + 1) = editDistance [] [] :: cellsFrom [] [] str1 := by
    rw [cellsFrom_nil, editDistance_nil_left, List.range_eq_range', List.range'_succ]
    rfl
  unfold levenshteinDistance
  rw [hrow]
  have h := levRows_cells str1 str2 []
  simp only [List.length_nil, List.append_nil, Nat.zero_add] at h
  rw [h, getLastD_cells, List.append_nil, editDistance_reverse, editDistance_comm]

end AdvancedProcessor

/-- The recursive definition agrees with the library definition of the
Levenshtein distance under unit costs. -/
theorem editDistance_eq_levenshtein (s t : Str) :
    editDistance s t = levenshtein Levenshtein.defaultCost s t := by
  induction s generalizing t with
  | nil =>
    induction t with
    | nil => simp [editDistance_nil_left]
    | cons b t iht =>
      rw [editDistance_nil_left] at iht ⊢
      rw [levenshtein_nil_cons, ← iht]
      simp [Levenshtein.defaultCost, Nat.add_comm]
  | cons a s ihs =>
    induction t with
    | nil =>
      have h := ihs []
      rw [editDistance_nil_right] at h ⊢
      rw [levenshtein_cons_nil, ← h]
      simp [Levenshtein.defaultCost, Nat.add_comm]
    | cons b t iht =>
      rw [editDistance_cons_cons, levenshtein_cons_cons, ← ihs (b :: t), ← iht, ← ihs t]
      simp only [Levenshtein.defaultCost]
      omega

/-- Claim C16. For all texts `s` and `t`, `AdvancedProcessor.levenshteinDistance(s, t)`
equals the Levenshtein edit distance between `s` and `t` as the standard
recursive definition gives it: the length of the other text when one is
empty, and otherwise the least of the distance after a deletion plus 1, the
distance after an insertion plus 1, and the distance of the rests plus 0 or
1 for the substitution of the first characters; this is the library's
Levenshtein distance under unit costs. -/
theorem C16_levenshtein_is_edit_distance (s t : Str) :
    AdvancedProcessor.levenshteinDistance s t = editDistance s t ∧
    AdvancedProcessor.levenshteinDistance s t =
      levenshtein Levenshtein.defaultCost s t ∧
    editDistance [] t = t.length ∧
    editDistance s [] = s.length ∧
    (∀ (a b : Char) (s2 t2 : Str), editDistance (a :: s2) (b :: t2) =
      min (editDistance s2 (b :: t2) + 1)
        (min (editDistance (a :: s2) t2 + 1)
          (editDistance s2 t2 + (if a = b then 0 else 1)))) ∧
    AdvancedProcessor.levenshteinDistance "kitten".toList "sitting".toList = 3 :=
  ⟨AdvancedProcessor.levenshteinDistance_eq s t,
    (AdvancedProcessor.levenshteinDistance_eq s t).trans (editDistance_eq_levenshtein s t),
    editDistance_nil_left t,
    editDistance_nil_right s, fun a b s2 t2 => editDistance_cons_cons a b s2 t2, by decide⟩

theorem editDistance_le_max (s t : Str) : editDistance s t ≤ max s.length t.length := by
  induction s generalizing t with
  | nil => rw [editDistance_nil_left]; exact le_max_right _ _
  | cons a s ih =>
    cases t with
    | nil => rw [editDistance_nil_right]; exact le_max_left _ _
    | cons b t =>
      rw [editDistance_cons_cons]
      have := ih t
      have hc : (if a = b then 0 else 1) ≤ 1 := by split_ifs <;> omega
      simp only [List.length_cons]
      omega

theorem editDistance_self (s : Str) : editDistance s s = 0 := by
  induction s with
  | nil => rw [editDistance_nil_left]; rfl
  | cons a s ih =>
    rw [editDistance_cons_cons, ih]
    simp

theorem editDistance_eq_zero_iff (s t : Str) : editDistance s t = 0 ↔ s = t := by
  constructor
  · intro h
    induction s generalizing t with
    | nil =>
      rw [editDistance_nil_left] at h
      exact (List.eq_nil_of_length_eq_zero h).symm
    | cons a s ih =>
      cases t with
      | nil =>
        rw [editDistance_nil_right] at h
        exact absurd h (by simp)
      | cons b t =>
        rw [editDistance_cons_cons] at h
        by_cases hab : a = b
        · rw [if_pos hab] at h
          have h2 : editDistance s t = 0 := by omega
          rw [hab, ih t h2]
        · rw [if_neg hab] at h
          omega
  · intro h
    rw [h]
    exact editDistance_self t

namespace AdvancedProcessor

theorem levenshteinDistance_comm (s t : Str) :
    levenshteinDistance s t = levenshteinDistance t s := by
  rw [levenshteinDistance_eq, levenshteinDistance_eq, editDistance_comm]

/-- Method `calculateCharSimilarity` in closed form. -/
theorem calculateCharSimilarity_eq (s t : Str) :
    calculateCharSimilarity s t =
      if s = [] ∧ t = [] then 1
      else 1 - (levenshteinDistance s t : ℚ) / ((max s.length t.length : Nat) : ℚ) := by
  unfold calculateCharSimilarity
  by_cases h : s.length > t.length
  · have hs : s ≠ [] := by
      intro hs
      rw [hs] at h
      simp at h
    have hmax : max s.length t.length = s.length := max_eq_left (le_of_lt h)
    have hpos : (s.length : ℚ) ≠ 0 := by
      have : 0 < s.length := by omega
      exact_mod_cast this.ne'
    simp only [h, if_true]
    rw [if_neg (by omega), if_neg (fun hh => hs hh.1), hmax]
    field_simp
  · have hmax : max s.length t.length = t.length := max_eq_right (not_lt.mp h)
    simp only [h, if_false]
    by_cases ht : t.length = 0
    · have ht2 : t = [] := List.eq_nil_of_length_eq_zero ht
      have hs2 : s = [] := by
        apply List.eq_nil_of_length_eq_zero
        omega
      rw [if_pos ht, if_pos ⟨hs2, ht2⟩]
    · have ht2 : t ≠ [] := fun hh => ht (by rw [hh]; rfl)
      have hpos : (t.length : ℚ) ≠ 0 := by exact_mod_cast ht
      rw [if_neg ht, if_neg (fun hh => ht2 hh.2), hmax, levenshteinDistance_comm t s]
      field_simp

end AdvancedProcessor

/-- Claim C17. For all texts `s` and `t` not both empty,
`AdvancedProcessor.calculateCharSimilarity(s, t)` is
`1 - levenshteinDistance(s, t) / max(|s|, |t|)`, and it is 1 when both are
empty; for all texts the result lies in `[0,1]`, and it equals 1 exactly
when `s = t`. -/
theorem C17_char_similarity (s t : Str) :
    AdvancedProcessor.calculateCharSimilarity s t =
      (if s = [] ∧ t = [] then 1
       else 1 - (AdvancedProcessor.levenshteinDistance s t : ℚ) /
        ((max s.length t.length : Nat) : ℚ)) ∧
    0 ≤ AdvancedProcessor.calculateCharSimilarity s t ∧
    AdvancedProcessor.calculateCharSimilarity s t ≤ 1 ∧
    (AdvancedProcessor.calculateCharSimilarity s t = 1 ↔ s = t) := by
  have heq := AdvancedProcessor.calculateCharSimilarity_eq s t
  refine ⟨heq, ?_⟩
  rw [heq]
  by_cases hboth : s = [] ∧ t = []
  · rw [if_pos hboth]
    exact ⟨by norm_num, le_refl _, ⟨fun _ => hboth.1.trans hboth.2.symm, fun _ => rfl⟩⟩
  · rw [if_neg hboth]
    have hmaxpos : 0 < max s.length t.length := by
      rcases Nat.eq_zero_or_pos (max s.length t.length) with h | h
      · exfalso
        apply hboth
        have h1 : s.length = 0 := by omega
        have h2 : t.length = 0 := by omega
        exact ⟨List.eq_nil_of_length_eq_zero h1, List.eq_nil_of_length_eq_zero h2⟩
      · exact h
    have hq : (0 : ℚ) < ((max s.length t.length : Nat) : ℚ) := by exact_mod_cast hmaxpos
    have hle : (AdvancedProcessor.levenshteinDistance s t : ℚ) ≤
        ((max s.length t.length : Nat) : ℚ) := by
      rw [AdvancedProcessor.levenshteinDistance_eq]
      exact_mod_cast editDistance_le_max s t
    have hnn : (0 : ℚ) ≤ (AdvancedProcessor.levenshteinDistance s t : ℚ) := Nat.cast_nonneg _
    have hfrac1 : (AdvancedProcessor.levenshteinDistance s t : ℚ) /
        ((max s.length t.length : Nat) : ℚ) ≤ 1 := (div_le_one hq).mpr hle
    have hfrac0 : 0 ≤ (AdvancedProcessor.levenshteinDistance s t : ℚ) /
        ((max s.length t.length : Nat) : ℚ) := div_nonneg hnn (le_of_lt hq)
    refine ⟨by linarith, by linarith, ?_⟩
    constructor
    · intro h
      have h0 : (AdvancedProcessor.levenshteinDistance s t : ℚ) /
          ((max s.length t.length : Nat) : ℚ) = 0 := by linarith
      rcases div_eq_zero_iff.mp h0 with h1 | h1
      · have h2 : AdvancedProcessor.levenshteinDistance s t = 0 := by exact_mod_cast h1
        rw [AdvancedProcessor.levenshteinDistance_eq] at h2
        exact (editDistance_eq_zero_iff s t).mp h2
      · exact absurd h1 (ne_of_gt hq)
    · intro h
      have h2 : AdvancedProcessor.levenshteinDistance s t = 0 := by
        rw [AdvancedProcessor.levenshteinDistance_eq]
        exact (editDistance_eq_zero_iff s t).mpr h
      rw [h2]
      simp

/-! ## Normalization -/

namespace JS

theorem collapseSpaces_cons_of_not_space (d : Char) (cs : Str) (hd : ¬ isSpace d = true) :
    ∃ r, collapseSpaces (d :: cs) = d :: r := by
  cases cs with
  | nil => exact ⟨[], by simp [collapseSpaces, hd]⟩
  | cons e cs => exact ⟨collapseSpaces (e :: cs), by simp [collapseSpaces, hd]⟩

theorem tidy_cons_of_not_space (c : Char) (s : Str) (hc : ¬ isSpace c = true)
    (hs : tidy s = true) : tidy (c :: s) = true := by
  cases s with
  | nil => simp [tidy, hc]
  | cons d r => simp [tidy, hc, hs]

theorem tidy_collapseSpaces (s : Str) : tidy (collapseSpaces s) = true := by
  induction s using collapseSpaces.induct with
  | case1 => rfl
  | case2 c hc => simp [collapseSpaces, hc, tidy]
  | case3 c hc => simp [collapseSpaces, hc, tidy]
  | case4 c d cs hc hd ih =>
    have : collapseSpaces (c :: d :: cs) = collapseSpaces (d :: cs) := by
      simp [collapseSpaces, hc, hd]
    rw [this]
    exact ih
  | case5 c d cs hc hd ih =>
    have : collapseSpaces (c :: d :: cs) = ' ' :: collapseSpaces (d :: cs) := by
      simp [collapseSpaces, hc, hd]
    rw [this]
    obtain ⟨r, hr⟩ := collapseSpaces_cons_of_not_space d cs hd
    rw [hr] at ih ⊢
    simp [tidy, hd, ih]
  | case6 c d cs hc ih =>
    have : collapseSpaces (c :: d :: cs) = c :: collapseSpaces (d :: cs) := by
      simp [collapseSpaces, hc]
    rw [this]
    exact tidy_cons_of_not_space c _ hc ih

theorem collapseSpaces_of_tidy (s : Str) (h : tidy s = true) : collapseSpaces s = s := by
  induction s using collapseSpaces.induct with
  | case1 => rfl
  | case2 c hc =>
    simp only [tidy, hc, Bool.not_true, Bool.false_or, beq_iff_eq] at h
    simp [collapseSpaces, hc, h]
  | case3 c hc => simp [collapseSpaces, hc]
  | case4 c d cs hc hd ih =>
    simp [tidy, hc, hd] at h
  | case5 c d cs hc hd ih =>
    simp only [tidy, hc, Bool.not_true, Bool.false_or, Bool.and_eq_true, beq_iff_eq] at h
    have : collapseSpaces (c :: d :: cs) = ' ' :: collapseSpaces (d :: cs) := by
      simp [collapseSpaces, hc, hd]
    rw [this, ih h.2, h.1.1]
  | case6 c d cs hc ih =>
    simp only [tidy, Bool.and_eq_true] at h
    have : collapseSpaces (c :: d :: cs) = c :: collapseSpaces (d :: cs) := by
      simp [collapseSpaces, hc]
    rw [this, ih h.2]

theorem tidy_of_append_right (pre suf : Str) (h : tidy (pre ++ suf) = true) :
    tidy suf = true := by
  induction pre with
  | nil => exact h
  | cons c pre ih =>
    apply ih
    cases hps : pre ++ suf with
    | nil => rfl
    | cons d r =>
      rw [List.cons_append, hps] at h
      simp only [tidy, Bool.and_eq_true] at h
      exact h.2

theorem tidy_of_append_left (pre suf : Str) (h : tidy (pre ++ suf) = true) :
    tidy pre = true := by
  induction pre using tidy.induct with
  | case1 => rfl
  | case2 c =>
    cases suf with
    | nil => exact h
    | cons d r =>
      simp only [List.cons_append, List.nil_append, tidy, Bool.and_eq_true, Bool.or_eq_true,
        Bool.not_eq_true', beq_iff_eq] at h ⊢
      rcases h.1 with h1 | h1
      · exact Or.inl h1
      · exact Or.inr h1.1
  | case3 c d cs ih =>
    simp only [List.cons_append, tidy, Bool.and_eq_true] at h ⊢
    exact ⟨h.1, ih h.2⟩

theorem tidy_trim (s : Str) (h : tidy s = true) : tidy (trim s) = true := by
  rw [trim_eq]
  obtain ⟨pre, hpre⟩ := List.dropWhile_suffix isSpace (l := s)
  obtain ⟨suf, hsuf⟩ := List.rdropWhile_prefix isSpace (s.dropWhile isSpace)
  apply tidy_of_append_left _ suf
  rw [hsuf]
  apply tidy_of_append_right pre
  rw [hpre]
  exact h

theorem mem_collapseSpaces (s : Str) (c : Char) (h : c ∈ collapseSpaces s) :
    c = ' ' ∨ c ∈ s := by
  induction s using collapseSpaces.induct with
  | case1 => simp [collapseSpaces] at h
  | case2 d hd =>
    simp only [collapseSpaces, hd, if_true, List.mem_singleton] at h
    exact Or.inl h
  | case3 d hd =>
    simp only [collapseSpaces, hd, if_false] at h
    exact Or.inr h
  | case4 e d cs he hd ih =>
    have : collapseSpaces (e :: d :: cs) = collapseSpaces (d :: cs) := by
      simp [collapseSpaces, he, hd]
    rw [this] at h
    rcases ih h with h1 | h1
    · exact Or.inl h1
    · exact Or.inr (List.mem_cons_of_mem _ h1)
  | case5 e d cs he hd ih =>
    have : collapseSpaces (e :: d :: cs) = ' ' :: collapseSpaces (d :: cs) := by
      simp [collapseSpaces, he, hd]
    rw [this] at h
    rcases List.mem_cons.mp h with h1 | h1
    · exact Or.inl h1
    · rcases ih h1 with h2 | h2
      · exact Or.inl h2
      · exact Or.inr (List.mem_cons_of_mem _ h2)
  | case6 e d cs he ih =>
    have : collapseSpaces (e :: d :: cs) = e :: collapseSpaces (d :: cs) := by
      simp [collapseSpaces, he]
    rw [this] at h
    rcases List.mem_cons.mp h with h1 | h1
    · exact Or.inr (h1 ▸ List.mem_cons_self _ _)
    · rcases ih h1 with h2 | h2
      · exact Or.inl h2
      · exact Or.inr (List.mem_cons_of_mem _ h2)

end JS

namespace AdvancedProcessor

/-- Every character of a normalized text is a word character or white space
and is its own lower case. -/
theorem normalize_chars (x : Str) (c : Char) (h : c ∈ normalize x) :
    (JS.isWordChar c || JS.isSpace c) = true ∧ c.toLower = c := by
  have hblank : (JS.isWordChar ' ' || JS.isSpace ' ') = true ∧ ' '.toLower = ' ' := by decide
  unfold normalize at h
  rcases JS.mem_collapseSpaces _ c (JS.mem_of_mem_trim _ c h) with h1 | h1
  · rw [h1]
    exact hblank
  · simp only [JS.blankNonWord, JS.toLowerCase, List.map_map, List.mem_map,
      Function.comp_apply] at h1
    obtain ⟨c0, _, hc0⟩ := h1
    by_cases hk : (JS.isWordChar c0.toLower || JS.isSpace c0.toLower) = true
    · rw [if_pos hk] at hc0
      rw [← hc0]
      exact ⟨hk, JS.toLower_toLower c0⟩
    · rw [if_neg hk] at hc0
      rw [← hc0]
      exact hblank

theorem normalize_tidy (x : Str) : JS.tidy (normalize x) = true :=
  JS.tidy_trim _ (JS.tidy_collapseSpaces _)

/-- Method `normalize` is idempotent. -/
theorem advanced_normalize_idempotent (x : Str) : normalize (normalize x) = normalize x := by
  have hlow : JS.toLowerCase (normalize x) = normalize x := by
    unfold JS.toLowerCase
    conv_rhs => rw [← List.map_id (normalize x)]
    apply List.map_congr_left
    intro c hc
    exact (normalize_chars x c hc).2
  have hblank : JS.blankNonWord (normalize x) = normalize x := by
    unfold JS.blankNonWord
    conv_rhs => rw [← List.map_id (normalize x)]
    apply List.map_congr_left
    intro c hc
    rw [if_pos (normalize_chars x c hc).1]
    rfl
  have hcol : JS.collapseSpaces (normalize x) = normalize x :=
    JS.collapseSpaces_of_tidy _ (normalize_tidy x)
  have htrim : JS.trim (normalize x) = normalize x := by
    unfold normalize
    exact JS.trim_trim _
  have hdef : normalize (normalize x) = JS.trim (JS.collapseSpaces (JS.blankNonWord
      (JS.toLowerCase (normalize x)))) := rfl
  rw [hdef, hlow, hblank, hcol, htrim]

end AdvancedProcessor

namespace JS

/-- A trimmed text does not start with white space. -/
theorem trim_head (s : Str) (c : Char) (h : (trim s).head? = some c) : isSpace c = false := by
  have hfix : List.dropWhile isSpace (trim s) = trim s := by
    have h1 := trim_trim s
    rw [trim_eq (trim s)] at h1
    have h2 : (List.dropWhile isSpace (trim s)).length ≤ (trim s).length :=
      (List.dropWhile_suffix isSpace).length_le
    have h3 : (List.rdropWhile isSpace (List.dropWhile isSpace (trim s))).length ≤
        (List.dropWhile isSpace (trim s)).length := (List.rdropWhile_prefix isSpace _).length_le
    rw [h1] at h3
    exact (List.dropWhile_suffix isSpace).eq_of_length (by omega)
  cases ht : trim s with
  | nil => rw [ht] at h; exact absurd h (by simp)
  | cons a r =>
    rw [ht] at h hfix
    simp only [List.head?_cons, Option.some.injEq] at h
    rw [← h]
    by_contra hsp
    have ha : isSpace a = true := by simpa using hsp
    rw [List.dropWhile_cons_of_pos ha] at hfix
    have := (List.dropWhile_suffix isSpace (l := r)).length_le
    rw [hfix] at this
    simp at this

/-- A trimmed text does not end with white space. -/
theorem trim_getLast (s : Str) (c : Char) (h : (trim s).getLast? = some c) :
    isSpace c = false := by
  rw [trim_eq] at h
  cases hne : List.rdropWhile isSpace (List.dropWhile isSpace s) with
  | nil => rw [hne] at h; exact absurd h (by simp)
  | cons a r =>
    have hne2 : List.rdropWhile isSpace (List.dropWhile isSpace s) ≠ [] := by
      rw [hne]
      exact List.cons_ne_nil _ _
    have hlast := List.rdropWhile_last_not isSpace (List.dropWhile isSpace s) hne2
    rw [List.getLast?_eq_getLast _ hne2, Option.some.injEq] at h
    rw [h] at hlast
    simpa using hlast

end JS

/-- Claim C18. For every text `x`,
`AdvancedProcessor.normalize(AdvancedProcessor.normalize(x)) = AdvancedProcessor.normalize(x)`,
and the output has no white space at its start or at its end. -/
theorem C18_normalize_idempotent (x : Str) :
    AdvancedProcessor.normalize (AdvancedProcessor.normalize x) = AdvancedProcessor.normalize x ∧
    (∀ c, (AdvancedProcessor.normalize x).head? = some c → JS.isSpace c = false) ∧
    (∀ c, (AdvancedProcessor.normalize x).getLast? = some c → JS.isSpace c = false) :=
  ⟨AdvancedProcessor.advanced_normalize_idempotent x, fun c h => JS.trim_head _ c h,
    fun c h => JS.trim_getLast _ c h⟩

/-! ## Sentiment -/

namespace AdvancedProcessor

/-- The loop of `analyzeSentiment` adds the positive hits and subtracts the negative hits. -/
theorem foldl_sentiment (words : List Str) (z : Int) :
    words.foldl
      (fun (score : Int) word =>
        let score := if word ∈ positiveWords then score + 1 else score
        if word ∈ negativeWords then score - 1 else score)
      z =
    z + ((words.filter (fun w => decide (w ∈ positiveWords))).length : Int) -
      ((words.filter (fun w => decide (w ∈ negativeWords))).length : Int) := by
  induction words generalizing z with
  | nil => simp
  | cons w rest ih =>
    simp only [List.foldl_cons, List.filter_cons]
    rw [ih]
    by_cases hp : w ∈ positiveWords <;> by_cases hn : w ∈ negativeWords <;>
      simp only [hp, hn, if_true, if_false, decide_True, decide_False, List.length_cons,
        Bool.false_eq_true] <;> push_cast <;> ring

theorem splitSpace_length_pos (s : Str) : 1 ≤ (JS.splitSpace s).length := by
  obtain ⟨w, ws, h⟩ := JS.splitBy_cons_form (fun c => c == ' ') s
  unfold JS.splitSpace
  rw [h]
  simp

end AdvancedProcessor

/-- Claim C19. For every text, `AdvancedProcessor.analyzeSentiment` returns
as score the number of space-separated pieces of the normalized text that
are in the positive lexicon minus the number that are in the negative one,
the label `positive`, `negative` or `neutral` by the sign of the score, and
the confidence `min(5*|score| / n, 1)`, where `n >= 1` is the number of
pieces; so the confidence is in `[0,1]`, and the empty text gives score 0,
label `neutral` and confidence 0. -/
theorem C19_analyzeSentiment (text : Str) :
    (AdvancedProcessor.analyzeSentiment text).score =
      (((JS.splitSpace (AdvancedProcessor.normalize text)).filter
        (fun w => decide (w ∈ AdvancedProcessor.positiveWords))).length : Int) -
      (((JS.splitSpace (AdvancedProcessor.normalize text)).filter
        (fun w => decide (w ∈ AdvancedProcessor.negativeWords))).length : Int) ∧
    (AdvancedProcessor.analyzeSentiment text).label =
      (if (AdvancedProcessor.analyzeSentiment text).score > 0 then "positive"
       else if (AdvancedProcessor.analyzeSentiment text).score < 0 then "negative"
       else "neutral") ∧
    1 ≤ (JS.splitSpace (AdvancedProcessor.normalize text)).length ∧
    (AdvancedProcessor.analyzeSentiment text).confidence =
      min (5 * (|(AdvancedProcessor.analyzeSentiment text).score| : Int) /
        ((JS.splitSpace (AdvancedProcessor.normalize text)).length : ℚ)) 1 ∧
    0 ≤ (AdvancedProcessor.analyzeSentiment text).confidence ∧
    (AdvancedProcessor.analyzeSentiment text).confidence ≤ 1 ∧
    AdvancedProcessor.analyzeSentiment [] =
      { score := 0, label := "neutral", confidence := 0 } := by
  have hn := AdvancedProcessor.splitSpace_length_pos (AdvancedProcessor.normalize text)
  have hscore : (AdvancedProcessor.analyzeSentiment text).score =
      (((JS.splitSpace (AdvancedProcessor.normalize text)).filter
        (fun w => decide (w ∈ AdvancedProcessor.positiveWords))).length : Int) -
      (((JS.splitSpace (AdvancedProcessor.normalize text)).filter
        (fun w => decide (w ∈ AdvancedProcessor.negativeWords))).length : Int) := by
    simp only [AdvancedProcessor.analyzeSentiment, AdvancedProcessor.foldl_sentiment, zero_add]
  have hconf : (AdvancedProcessor.analyzeSentiment text).confidence =
      min (5 * (|(AdvancedProcessor.analyzeSentiment text).score| : Int) /
        ((JS.splitSpace (AdvancedProcessor.normalize text)).length : ℚ)) 1 := by
    simp only [AdvancedProcessor.analyzeSentiment]
    congr 1
    rw [Nat.cast_natAbs]
    push_cast
    ring
  have hq : (0 : ℚ) < ((JS.splitSpace (AdvancedProcessor.normalize text)).length : ℚ) := by
    exact_mod_cast hn
  refine ⟨hscore, rfl, hn, hconf, ?_, ?_, by decide!⟩
  · rw [hconf]
    refine le_min (div_nonneg ?_ (le_of_lt hq)) (by norm_num)
    have : (0 : ℚ) ≤ ((|(AdvancedProcessor.analyzeSentiment text).score| : Int) : ℚ) := by
      exact_mod_cast abs_nonneg _
    linarith
  · rw [hconf]
    exact min_le_right _ _

/-! ## Emotions -/

namespace UltraAIProcessor

/-- The five scores of `analyzeEmotion`, by name. -/
theorem emotionHits_form (text : Str) :
    ∃ a b c d u : Nat, emotionHits text =
      [("angry", a), ("sad", b), ("happy", c), ("confused", d), ("urgent", u)] :=
  ⟨_, _, _, _, _, rfl⟩

/-- With equal values the reduction of `analyzeEmotion` ends on the last entry. -/
theorem reducePrimary_zeros :
    reducePrimary [("angry", 0), ("sad", 0), ("happy", 0), ("confused", 0), ("urgent", 0)] =
      some ("urgent", 0) := by
  simp [reducePrimary]

end UltraAIProcessor

/-- Claim C20, amended. For every text `UltraAIProcessor.analyzeEmotion`
returns a result whose scores list the five emotions `angry`, `sad`,
`happy`, `confused`, `urgent` in this order. When the text contains none of
the emotion keywords (total hits zero) all intensities are zero and the
primary emotion is `urgent`, the last entry of the taxonomy, because the
reduction keeps the later entry when two values are equal. When there is at
least one hit the intensities are the hit counts of the emotions divided by
the total, and they sum to 1. -/
theorem C20_analyzeEmotion (text : Str) :
    ∃ e, UltraAIProcessor.analyzeEmotion text = some e ∧
      e.scores.map Prod.fst = ["angry", "sad", "happy", "confused", "urgent"] ∧
      (if UltraAIProcessor.totalScore text = 0 then
        (∀ p ∈ e.scores, p.2 = 0) ∧ e.primary = "urgent"
       else
        e.scores = (UltraAIProcessor.emotionHits text).map
          (fun h => (h.1, (h.2 : ℚ) / (UltraAIProcessor.totalScore text : ℚ))) ∧
        (e.scores.map Prod.snd).sum = 1) := by
  obtain ⟨a, b, c, d, u, hh⟩ := UltraAIProcessor.emotionHits_form text
  have htot : UltraAIProcessor.totalScore text = a + b + c + d + u := by
    simp only [UltraAIProcessor.totalScore, hh, List.map_cons, List.map_nil, List.sum_cons,
      List.sum_nil]
    omega
  by_cases hz : UltraAIProcessor.totalScore text = 0
  · have hnorm : UltraAIProcessor.normalizedEmotions text =
        [("angry", 0), ("sad", 0), ("happy", 0), ("confused", 0), ("urgent", 0)] := by
      simp only [UltraAIProcessor.normalizedEmotions, hh, hz, lt_self_iff_false, if_false,
        List.map_cons, List.map_nil, gt_iff_lt]
    refine ⟨{ primary := "urgent"
              scores := UltraAIProcessor.normalizedEmotions text
              intensity := JS.mathMax ((UltraAIProcessor.normalizedEmotions text).map Prod.snd)
              sentiment := UltraAIProcessor.calculateSentiment text }, ?_, ?_, ?_⟩
    · simp only [UltraAIProcessor.analyzeEmotion, hnorm, UltraAIProcessor.reducePrimary_zeros]
    · simp only [hnorm, List.map_cons, List.map_nil]
    · rw [if_pos hz]
      refine ⟨?_, rfl⟩
      intro p hp
      simp only [hnorm, List.mem_cons, List.mem_singleton, List.not_mem_nil, or_false] at hp
      rcases hp with hp | hp | hp | hp | hp <;> rw [hp]
  · have hpos : UltraAIProcessor.totalScore text > 0 := Nat.pos_of_ne_zero hz
    have hq : ((UltraAIProcessor.totalScore text : Nat) : ℚ) ≠ 0 := by exact_mod_cast hz
    have hnorm : UltraAIProcessor.normalizedEmotions text =
        (UltraAIProcessor.emotionHits text).map
          (fun h => (h.1, (h.2 : ℚ) / (UltraAIProcessor.totalScore text : ℚ))) := by
      simp only [UltraAIProcessor.normalizedEmotions, hpos, if_true]
    cases hr : UltraAIProcessor.reducePrimary (UltraAIProcessor.normalizedEmotions text) with
    | none =>
      rw [hnorm, hh] at hr
      simp [UltraAIProcessor.reducePrimary] at hr
    | some p =>
      refine ⟨{ primary := p.1
                scores := UltraAIProcessor.normalizedEmotions text
                intensity := JS.mathMax ((UltraAIProcessor.normalizedEmotions text).map Prod.snd)
                sentiment := UltraAIProcessor.calculateSentiment text }, ?_, ?_, ?_⟩
      · simp only [UltraAIProcessor.analyzeEmotion, hr]
      · simp only [hnorm, hh, List.map_cons, List.map_nil]
      · rw [if_neg hz]
        refine ⟨hnorm, ?_⟩
        simp only [hnorm, hh, List.map_cons, List.map_nil, List.sum_cons, List.sum_nil, htot]
        rw [htot] at hq
        push_cast at hq ⊢
        field_simp
        ring

/-- Counterexample to C20 as stated: the text `hello there` contains none of
the emotion keywords, all intensities are zero, and the primary emotion is
`urgent`, not `angry`. -/
theorem C20_primary_defaults_to_last :
    UltraAIProcessor.totalScore "hello there".toList = 0 ∧
    (UltraAIProcessor.analyzeEmotion "hello there".toList).map
      UltraAIProcessor.EmotionalState.primary = some "urgent" ∧
    (UltraAIProcessor.analyzeEmotion "hello there".toList).map
      UltraAIProcessor.EmotionalState.primary ≠ some "angry" ∧
    (UltraAIProcessor.analyzeEmotion "hello there".toList).map
      UltraAIProcessor.EmotionalState.scores =
      some [("angry", 0), ("sad", 0), ("happy", 0), ("confused", 0), ("urgent", 0)] := by
  decide!

/-! ## The generation-service variant: failure of the remote call -/

namespace GeminiAI

/-- The outcomes on which `callGeminiAPI` throws: no `fetch`, a rejected
request, a status that is not OK, a body that is not JSON, and a payload
without candidates, without content or without parts. -/
theorem callGeminiAPI_throws :
    (∃ e, callGeminiAPI .unavailable = .error e) ∧
    (∃ e, callGeminiAPI .rejected = .error e) ∧
    (∀ body, ∃ e, callGeminiAPI (.response false body) = .error e) ∧
    (∃ e, callGeminiAPI (.response true none) = .error e) ∧
    (∃ e, callGeminiAPI (.response true (some { candidates := none })) = .error e) ∧
    (∃ e, callGeminiAPI (.response true (some { candidates := some [] })) = .error e) ∧
    (∀ rest, ∃ e, callGeminiAPI
      (.response true (some { candidates := some ({ content := none } :: rest) })) = .error e) ∧
    (∀ rest, ∃ e, callGeminiAPI
      (.response true (some { candidates := some ({ content := some { parts := none } } :: rest) }))
        = .error e) ∧
    (∀ rest, ∃ e, callGeminiAPI
      (.response true
        (some { candidates := some ({ content := some { parts := some [] } } :: rest) }))
        = .error e) :=
  ⟨⟨_, rfl⟩, ⟨_, rfl⟩, fun _ => ⟨_, rfl⟩, ⟨_, rfl⟩, ⟨_, rfl⟩, ⟨_, rfl⟩, fun _ => ⟨_, rfl⟩,
    fun _ => ⟨_, rfl⟩, fun _ => ⟨_, rfl⟩⟩

/-- A call that throws, or that yields no candidate text, ends in the fallback
response and leaves the history as it was. -/
theorem generateResponse_of_failure (conversationHistory : History) (message : Str)
    (sessionId : String) (outcome : FetchOutcome) (amb : Ambient)
    (hf : callGeminiAPI outcome = .ok none ∨ ∃ e, callGeminiAPI outcome = .error e) :
    generateResponse conversationHistory message sessionId outcome amb =
      (getFallbackResponse amb, conversationHistory) := by
  rcases hf with h | ⟨e, h⟩
  · simp [generateResponse, h, processResponse, calculateConfidence]
  · simp [generateResponse, h]

/-- The fallback response: one of the three fixed texts for a draw in `[0, 1)`,
the intent `fallback`, the confidence 0.3 and the source `fallback`. -/
theorem getFallbackResponse_fields (amb : Ambient) (h0 : 0 ≤ amb.random) (h1 : amb.random < 1) :
    (∃ t ∈ fallbackResponses, (getFallbackResponse amb).text = some t) ∧
    (getFallbackResponse amb).intent = "fallback" ∧
    (getFallbackResponse amb).confidence = 3 / 10 ∧
    (getFallbackResponse amb).source = "fallback" := by
  refine ⟨?_, rfl, rfl, rfl⟩
  have hlen : fallbackResponses.length = 3 := rfl
  have hq : (fallbackResponses.length : ℚ) = 3 := by rw [hlen]; norm_num
  have hfl0 : 0 ≤ ⌊amb.random * (fallbackResponses.length : ℚ)⌋ :=
    Int.floor_nonneg.mpr (by rw [hq]; positivity)
  have hfl3 : ⌊amb.random * (fallbackResponses.length : ℚ)⌋ < 3 :=
    Int.floor_lt.mpr (by rw [hq]; push_cast; linarith)
  have hi : Int.toNat ⌊amb.random * (fallbackResponses.length : ℚ)⌋ < fallbackResponses.length := by
    omega
  refine ⟨fallbackResponses[Int.toNat ⌊amb.random * (fallbackResponses.length : ℚ)⌋], ?_, ?_⟩
  · exact List.getElem_mem hi
  · simp only [getFallbackResponse]
    exact List.getElem?_eq_getElem hi

end GeminiAI

/-- Claim C21, at the input on which the code departs from it: the service
answers with status OK and one candidate whose text is the empty string.
`GeminiAI.generateResponse` then returns no fallback response: the text is
empty, the source is `gemini-ai`, the intent is the one detected in the
message and the confidence is 0.4, and the exchange is stored. A payload
whose candidate has no text at all does end in the fallback response. -/
theorem C21_empty_candidate_text_is_returned :
    GeminiAI.callGeminiAPI (.response true (some (GeminiAI.payloadOf (some [])))) = .ok (some []) ∧
    GeminiAI.generateResponse [] "hello".toList "s1"
        (.response true (some (GeminiAI.payloadOf (some []))))
        { random := 1 / 2, now := "t0".toList, later := "t1".toList } =
      ({ text := some []
         intent := "greeting"
         confidence := 4 / 10
         emotion := { primary := "neutral", intensity := 3 / 10 }
         suggestions := GeminiAI.generateSuggestions "greeting"
         source := "gemini-ai"
         timestamp := "t0".toList },
       [("s1", [{ userMessage := "hello".toList, aiResponse := some [],
                  timestamp := "t1".toList }])]) ∧
    (GeminiAI.generateResponse [] "hello".toList "s1"
        (.response true (some (GeminiAI.payloadOf (some []))))
        { random := 1 / 2, now := "t0".toList, later := "t1".toList }).1 ≠
      GeminiAI.getFallbackResponse { random := 1 / 2, now := "t0".toList, later := "t1".toList } ∧
    GeminiAI.generateResponse [] "hello".toList "s1"
        (.response true (some (GeminiAI.payloadOf none)))
        { random := 1 / 2, now := "t0".toList, later := "t1".toList } =
      (GeminiAI.getFallbackResponse { random := 1 / 2, now := "t0".toList, later := "t1".toList },
        []) := by
  refine ⟨rfl, by decide!, by decide!, by decide!⟩

/-- Claim C22: the value of `AdvancedProcessor.fillTemplate` is a prefix put
before the value for the empty context: nothing when the sentiment is not
negative and the user is not returning, the phrase of understanding for a
negative sentiment only, the welcome for a returning user only, and the
welcome followed by the phrase of understanding for both; the slot-filled
text is always a suffix of the value. -/
theorem C22_fillTemplate_adds_phrases (template : Str) (slots : List (Str × Str))
    (context : AdvancedProcessor.Context) :
    AdvancedProcessor.fillTemplate template slots context =
      (if context.isReturningUser = true then
        (if context.negative = true then "Welcome back! I understand you\x27re frustrated. "
         else "Welcome back! ")
       else if context.negative = true then "I understand you\x27re frustrated. " else "").toList ++
        AdvancedProcessor.fillTemplate template slots AdvancedProcessor.noContext ∧
    AdvancedProcessor.fillTemplate template slots AdvancedProcessor.noContext =
      AdvancedProcessor.fillSlots template slots ∧
    AdvancedProcessor.fillTemplate template slots AdvancedProcessor.noContext <:+
      AdvancedProcessor.fillTemplate template slots context := by
  have hcore : AdvancedProcessor.fillTemplate template slots AdvancedProcessor.noContext =
      AdvancedProcessor.fillSlots template slots := rfl
  have hmain : AdvancedProcessor.fillTemplate template slots context =
      (if context.isReturningUser = true then
        (if context.negative = true then "Welcome back! I understand you\x27re frustrated. "
         else "Welcome back! ")
       else if context.negative = true then "I understand you\x27re frustrated. " else "").toList ++
        AdvancedProcessor.fillTemplate template slots AdvancedProcessor.noContext := by
    have hpre : AdvancedProcessor.replyPrefix context =
        (if context.isReturningUser = true then "Welcome back! ".toList else []) ++
        (if context.negative = true then "I understand you\x27re frustrated. ".toList else []) :=
      rfl
    rw [hcore, AdvancedProcessor.fillTemplate_eq, hpre]
    congr 1
    generalize context.isReturningUser = r
    generalize context.negative = n
    cases r <;> cases n <;> rfl
  refine ⟨hmain, hcore, ?_⟩
  rw [hmain]
  exact List.suffix_append _ _

/-! ## The context of `detectIntentWithContext` -/

namespace AdvancedProcessor

/-- One pass of the loop that builds `contextWeights` reads the intent of the turn only. -/
theorem contextWeights_foldl_congr (l1 l2 : List Turn) (w : List (Str × ℚ))
    (h : l1.map Turn.intent = l2.map Turn.intent) :
    l1.foldl
      (fun w msg =>
        let w :=
          if msg.intent = "order_status" then
            JS.set (JS.set (JS.set w "order".toList 2) "status".toList 2) "track".toList 2
          else w
        if msg.intent = "refund" then
          JS.set (JS.set (JS.set w "refund".toList 2) "return".toList 2) "money".toList 2
        else w) w =
    l2.foldl
      (fun w msg =>
        let w :=
          if msg.intent = "order_status" then
            JS.set (JS.set (JS.set w "order".toList 2) "status".toList 2) "track".toList 2
          else w
        if msg.intent = "refund" then
          JS.set (JS.set (JS.set w "refund".toList 2) "return".toList 2) "money".toList 2
        else w) w := by
  induction l1 generalizing l2 w with
  | nil =>
    cases l2 with
    | nil => rfl
    | cons b l2 => simp at h
  | cons a l1 ih =>
    cases l2 with
    | nil => simp at h
    | cons b l2 =>
      simp only [List.map_cons, List.cons.injEq] at h
      simp only [List.foldl_cons, h.1]
      exact ih l2 _ h.2

/-- The context weights are determined by the intents of the recent turns. -/
theorem contextWeights_congr (l1 l2 : List Turn) (h : l1.map Turn.intent = l2.map Turn.intent) :
    contextWeights l1 = contextWeights l2 :=
  contextWeights_foldl_congr l1 l2 [] h

/-- The value of `detectIntentWithContext` in terms of the recent turns. -/
theorem detectIntentWithContext_eq (intents : List IntentDef)
    (hist : List (String × List Turn)) (message : Str) (sessionId : String) :
    detectIntentWithContext intents hist message sessionId =
      intents.foldl (detectStep (contextWeights (recentMessages hist sessionId))
        (normalize message)) { intent := "fallback", score := 0, confidence := 0 } := rfl

end AdvancedProcessor

/-- Claim C23: for every catalog and message, and two histories (of the same
or of different sessions and processors) whose last three turns, or all
turns of a shorter history, carry the same intents in the same order,
`AdvancedProcessor.detectIntentWithContext` returns the same intent, score
and confidence: older turns and the messages, confidences and timestamps of
the stored turns have no influence. The call leaves the state unchanged. -/
theorem C23_detect_reads_recent_intents_only (intents : List IntentDef) (message : Str)
    (st1 st2 : State) (sessionId1 sessionId2 : String)
    (h : (AdvancedProcessor.recentMessages st1.conversationHistory sessionId1).map Turn.intent =
      (AdvancedProcessor.recentMessages st2.conversationHistory sessionId2).map Turn.intent) :
    AdvancedProcessor.detectIntentWithContext intents st1.conversationHistory message sessionId1 =
      AdvancedProcessor.detectIntentWithContext intents st2.conversationHistory message
        sessionId2 ∧
    (AdvancedProcessor.detectIntentWithContextStep intents st1 message sessionId1).1 =
      AdvancedProcessor.detectIntentWithContext intents st1.conversationHistory message
        sessionId1 ∧
    (AdvancedProcessor.detectIntentWithContextStep intents st1 message sessionId1).2 = st1 := by
  refine ⟨?_, rfl, rfl⟩
  rw [AdvancedProcessor.detectIntentWithContext_eq, AdvancedProcessor.detectIntentWithContext_eq,
    AdvancedProcessor.contextWeights_congr _ _ h]

/-- Witness of C23: a history of four turns and one of three turns in another
session, with the same last three intents and different messages,
confidences and timestamps. -/
theorem C23_detect_reads_recent_intents_only_witness :
    (AdvancedProcessor.recentMessages AdvancedProcessor.historyLong "s1").map Turn.intent =
      ["order_status", "refund", "greeting"] ∧
    (AdvancedProcessor.recentMessages AdvancedProcessor.historyShort "s2").map Turn.intent =
      ["order_status", "refund", "greeting"] ∧
    AdvancedProcessor.detectIntentWithContext sampleCatalog AdvancedProcessor.historyLong
        "track my order".toList "s1" =
      AdvancedProcessor.detectIntentWithContext sampleCatalog AdvancedProcessor.historyShort
        "track my order".toList "s2" :=
  ⟨by decide, by decide,
    (C23_detect_reads_recent_intents_only sampleCatalog "track my order".toList
      { AdvancedProcessor.fresh with conversationHistory := AdvancedProcessor.historyLong }
      { AdvancedProcessor.fresh with conversationHistory := AdvancedProcessor.historyShort }
      "s1" "s2" (by decide)).1⟩

/-! ## The counters of the analytics -/

namespace JS

/-- The keys of a dictionary after a write: a new key goes to the end. -/
theorem keys_set {κ α : Type} [DecidableEq κ] (d : List (κ × α)) (k : κ) (v : α) :
    (set d k v).map Prod.fst = if k ∈ d.map Prod.fst then d.map Prod.fst
      else d.map Prod.fst ++ [k] := by
  induction d with
  | nil => simp [set]
  | cons e rest ih =>
    obtain ⟨k1, v1⟩ := e
    by_cases h : k1 = k
    · subst h
      simp [set]
    · have h2 : ¬ k = k1 := fun h3 => h h3.symm
      simp only [set, h, if_false, List.map_cons, ih, List.mem_cons, h2, false_or]
      split_ifs <;> simp

/-- A key is stored exactly when a read finds a value. -/
theorem get_isSome_iff {κ α : Type} [DecidableEq κ] (d : List (κ × α)) (k : κ) :
    (get d k).isSome = true ↔ k ∈ d.map Prod.fst := by
  induction d with
  | nil => simp [get, List.lookup]
  | cons e rest ih =>
    obtain ⟨k1, v1⟩ := e
    simp only [get] at ih
    by_cases h : k = k1
    · subst h
      simp [get, List.lookup]
    · have h2 : (k == k1) = false := by simpa using h
      simp [get, List.lookup, h2, ih, h]

/-- The sum of a measure over the values of a dictionary after a write: the
measure of the value replaced leaves, the measure of the new value enters. -/
theorem sum_map_set {κ α : Type} [DecidableEq κ] (f : α → Nat) (d : List (κ × α)) (k : κ)
    (v : α) :
    ((set d k v).map (fun e => f e.2)).sum +
        (match get d k with | some old => f old | none => 0) =
      (d.map (fun e => f e.2)).sum + f v := by
  induction d with
  | nil => simp [set, get, List.lookup]
  | cons e rest ih =>
    obtain ⟨k1, v1⟩ := e
    simp only [get] at ih
    by_cases h : k1 = k
    · subst h
      simp [set, get, List.lookup]
      omega
    · have h2 : (k == k1) = false := by simpa using fun h3 => h h3.symm
      simp only [set, h, if_false, List.map_cons, List.sum_cons, get, List.lookup, h2]
      omega

end JS

namespace AdvancedProcessor

/-- The counters after one call of `updateContext`, from the counters before. -/
theorem updateContext_counters (st : State) (c : Call) :
    (updateContext st c.sessionId c.message c.intent c.confidence c.now).analytics.totalMessages =
      st.analytics.totalMessages + 1 ∧
    ((updateContext st c.sessionId c.message c.intent c.confidence c.now).userProfiles.map
      (fun e => e.2.messageCount)).sum = (st.userProfiles.map (fun e => e.2.messageCount)).sum + 1 ∧
    (JS.get JS.objectPrototype c.intent = none → ∀ total,
      JS.sumCounts st.analytics.intentCounts = some total →
      JS.sumCounts (updateContext st c.sessionId c.message c.intent c.confidence
        c.now).analytics.intentCounts = some (total + 1)) ∧
    (updateContext st c.sessionId c.message c.intent c.confidence c.now).analytics.sessionCount =
      (if c.sessionId ∈ st.conversationHistory.map Prod.fst then st.analytics.sessionCount
       else st.analytics.sessionCount + 1) ∧
    (updateContext st c.sessionId c.message c.intent c.confidence c.now).conversationHistory.map
      Prod.fst =
      (if c.sessionId ∈ st.conversationHistory.map Prod.fst then st.conversationHistory.map Prod.fst
       else st.conversationHistory.map Prod.fst ++ [c.sessionId]) := by
  refine ⟨rfl, ?_, ?_, ?_, ?_⟩
  · have h := JS.sum_map_set (fun p : Profile => p.messageCount) st.userProfiles c.sessionId
      (bumpProfile ((JS.get st.userProfiles c.sessionId).getD
        { messageCount := 0, topIntents := [], avgConfidence := 0, firstSeen := c.now,
          lastSeen := c.now }) c.intent c.confidence c.now)
    simp only [updateContext, touchProfile]
    cases hg : JS.get st.userProfiles c.sessionId with
    | none =>
      rw [hg] at h
      simp only [Option.getD_none, bumpProfile] at h ⊢
      omega
    | some old =>
      rw [hg] at h
      simp only [Option.getD_some, bumpProfile] at h ⊢
      omega
  · exact fun hk total ht => JS.sumCounts_countUp st.analytics.intentCounts c.intent total hk ht
  · simp only [updateContext]
    by_cases hk : c.sessionId ∈ st.conversationHistory.map Prod.fst
    · rw [if_pos ((JS.get_isSome_iff _ _).mpr hk), if_pos hk]
    · rw [if_neg (fun h => hk ((JS.get_isSome_iff _ _).mp h)), if_neg hk]
  · simp only [updateContext, pushTurn]
    exact JS.keys_set _ _ _

/-- The counters after a sequence of calls of `updateContext` on a fresh processor. -/
theorem counters_after (calls : List Call) :
    (runUpdates fresh calls).analytics.totalMessages = calls.length ∧
    ((runUpdates fresh calls).userProfiles.map (fun e => e.2.messageCount)).sum = calls.length ∧
    ((∀ c ∈ calls, JS.get JS.objectPrototype c.intent = none) →
      JS.sumCounts (runUpdates fresh calls).analytics.intentCounts = some calls.length) ∧
    (runUpdates fresh calls).analytics.sessionCount =
      (runUpdates fresh calls).conversationHistory.length ∧
    ((runUpdates fresh calls).conversationHistory.map Prod.fst).Nodup ∧
    (∀ s, s ∈ (runUpdates fresh calls).conversationHistory.map Prod.fst ↔
      s ∈ calls.map Call.sessionId) := by
  induction calls using List.reverseRecOn with
  | nil => simp [runUpdates, fresh, JS.sumCounts]
  | append_singleton l c ih =>
    obtain ⟨h1, h2, h3, h4, h5, h6⟩ := ih
    obtain ⟨u1, u2, u3, u4, u5⟩ := updateContext_counters (runUpdates fresh l) c
    rw [runUpdates_snoc]
    have hlen : (updateContext (runUpdates fresh l) c.sessionId c.message c.intent c.confidence
        c.now).conversationHistory.length =
        ((updateContext (runUpdates fresh l) c.sessionId c.message c.intent c.confidence
        c.now).conversationHistory.map Prod.fst).length := by simp
    refine ⟨?_, ?_, ?_, ?_, ?_, ?_⟩
    · rw [u1, h1, List.length_append, List.length_singleton]
    · rw [u2, h2, List.length_append, List.length_singleton]
    · intro hplain
      rw [List.length_append, List.length_singleton]
      exact u3 (hplain c (by simp)) _ (h3 (fun x hx => hplain x (List.mem_append_left _ hx)))
    · rw [u4, hlen, u5, h4]
      split_ifs <;> simp
    · rw [u5]
      split_ifs with hk
      · exact h5
      · exact List.Nodup.append h5 (List.nodup_singleton _) (by simpa using hk)
    · intro s
      rw [u5]
      split_ifs with hk
      · rw [h6, List.map_append, List.mem_append]
        constructor
        · exact fun h => Or.inl h
        · rintro (h | h)
          · exact h
          · simp only [List.map_cons, List.map_nil, List.mem_singleton] at h
            rw [h]
            exact (h6 _).mp hk
      · rw [List.mem_append, h6, List.map_append, List.mem_append]
        simp

end AdvancedProcessor

namespace AdvancedProcessor

/-- After every sequence of calls of `updateContext` on a fresh processor,
`analytics.totalMessages` is the number of calls and the sum of
`messageCount` over all profiles; where no intent of the calls names a
property inherited from `Object.prototype`, it is the sum of all values of
`analytics.intentCounts`; `analytics.sessionCount` is the number of distinct
session ids of the calls and the value `activeSessions` that `getAnalytics`
reports; and `getAnalytics` leaves the history, the profiles and the
analytics as they were. -/
theorem analytics_counters (calls : List Call) :
    (runUpdates fresh calls).analytics.totalMessages = calls.length ∧
    (runUpdates fresh calls).analytics.totalMessages =
      ((runUpdates fresh calls).userProfiles.map (fun e => e.2.messageCount)).sum ∧
    ((∀ c ∈ calls, JS.get JS.objectPrototype c.intent = none) →
      JS.sumCounts (runUpdates fresh calls).analytics.intentCounts =
        some (runUpdates fresh calls).analytics.totalMessages) ∧
    (runUpdates fresh calls).analytics.sessionCount = (calls.map Call.sessionId).toFinset.card ∧
    (getAnalytics (runUpdates fresh calls)).1.activeSessions =
      (runUpdates fresh calls).analytics.sessionCount ∧
    (getAnalytics (runUpdates fresh calls)).1.totalMessages = calls.length ∧
    (getAnalytics (runUpdates fresh calls)).2 = runUpdates fresh calls := by
  obtain ⟨h1, h2, h3, h4, h5, h6⟩ := counters_after calls
  have hcard : (calls.map Call.sessionId).toFinset.card =
      (runUpdates fresh calls).conversationHistory.length := by
    have hset : (calls.map Call.sessionId).toFinset =
        ((runUpdates fresh calls).conversationHistory.map Prod.fst).toFinset := by
      ext s
      simp only [List.mem_toFinset]
      exact (h6 s).symm
    rw [hset, List.toFinset_card_of_nodup h5, List.length_map]
  refine ⟨h1, by rw [h1, h2], fun hplain => by rw [h1, h3 hplain], by rw [h4, hcard], ?_, h1,
    rfl⟩
  simp only [getAnalytics]
  exact h4.symm

end AdvancedProcessor

/-- Claim C24 at an intent whose name an object inherits from
`Object.prototype`. After one call of `updateContext` on a fresh processor
with the intent `constructor`, `analytics.totalMessages` is 1, the sum of
`messageCount` over the profiles is 1 and `analytics.sessionCount` is 1,
while `analytics.intentCounts` holds under that name the text of the
inherited function followed by `1`, so that its values have no sum. With the
intent `__proto__` the counters are the same and `analytics.intentCounts`
stays empty, so that its values add up to 0. -/
theorem C24_inherited_intent_name_is_not_counted :
    ((AdvancedProcessor.updateContext AdvancedProcessor.fresh "s1" "hi".toList "constructor"
        (1 / 2) 0).analytics.totalMessages = 1 ∧
      ((AdvancedProcessor.updateContext AdvancedProcessor.fresh "s1" "hi".toList "constructor"
        (1 / 2) 0).userProfiles.map (fun e => e.2.messageCount)).sum = 1 ∧
      (AdvancedProcessor.updateContext AdvancedProcessor.fresh "s1" "hi".toList "constructor"
        (1 / 2) 0).analytics.sessionCount = 1 ∧
      (AdvancedProcessor.updateContext AdvancedProcessor.fresh "s1" "hi".toList "constructor"
        (1 / 2) 0).analytics.intentCounts =
        [("constructor",
          JS.Value.text "function Object() \x7b [native code] \x7d1".toList)] ∧
      JS.sumCounts (AdvancedProcessor.updateContext AdvancedProcessor.fresh "s1" "hi".toList
        "constructor" (1 / 2) 0).analytics.intentCounts = none) ∧
    ((AdvancedProcessor.updateContext AdvancedProcessor.fresh "s1" "hi".toList "__proto__"
        (1 / 2) 0).analytics.totalMessages = 1 ∧
      ((AdvancedProcessor.updateContext AdvancedProcessor.fresh "s1" "hi".toList "__proto__"
        (1 / 2) 0).userProfiles.map (fun e => e.2.messageCount)).sum = 1 ∧
      (AdvancedProcessor.updateContext AdvancedProcessor.fresh "s1" "hi".toList "__proto__"
        (1 / 2) 0).analytics.sessionCount = 1 ∧
      (AdvancedProcessor.updateContext AdvancedProcessor.fresh "s1" "hi".toList "__proto__"
        (1 / 2) 0).analytics.intentCounts = [] ∧
      JS.sumCounts (AdvancedProcessor.updateContext AdvancedProcessor.fresh "s1" "hi".toList
        "__proto__" (1 / 2) 0).analytics.intentCounts = some 0) := by
  decide!

/-! ## The second loop of the baseline processor -/

namespace JS

/-- Every element of a non-empty list is at most `Math.max` of the list. -/
theorem le_mathMax (l : List ℚ) (x : ℚ) (hx : x ∈ l) : x ≤ mathMax l := by
  have hfold : ∀ (rest : List ℚ) (init : ℚ),
      init ≤ rest.foldl max init ∧ ∀ y ∈ rest, y ≤ rest.foldl max init := by
    intro rest
    induction rest with
    | nil => intro init; simp
    | cons z rest ih =>
      intro init
      obtain ⟨h1, h2⟩ := ih (max init z)
      simp only [List.foldl_cons]
      refine ⟨le_trans (le_max_left _ _) h1, ?_⟩
      intro y hy
      rcases List.mem_cons.mp hy with h | h
      · rw [h]; exact le_trans (le_max_right _ _) h1
      · exact h2 y h
  cases l with
  | nil => simp at hx
  | cons a rest =>
    simp only [mathMax]
    rcases List.mem_cons.mp hx with h | h
    · rw [h]; exact (hfold rest a).1
    · exact (hfold rest a).2 x h

end JS

namespace PromptProcessor

/-- The overlap of two texts is not negative. -/
theorem prompt_tokenOverlap_nonneg (a b : Str) : 0 ≤ tokenOverlap a b := by
  unfold tokenOverlap
  simp only
  split_ifs
  · exact le_refl _
  · positivity

/-- An overlap of zero means that no token is shared. -/
theorem no_shared_token_of_overlap_zero (a b : Str) (h : tokenOverlap a b = 0) :
    ∀ t ∈ tokens a, t ∉ tokens b := by
  intro t hta htb
  unfold tokenOverlap at h
  simp only at h
  have hA : ¬ (tokens a).length = 0 := by
    intro h0
    rw [List.length_eq_zero] at h0
    rw [h0] at hta
    simp at hta
  have hB : ¬ (tokens b).length = 0 := by
    intro h0
    rw [List.length_eq_zero] at h0
    rw [h0] at htb
    simp at htb
  rw [if_neg (by tauto), foldl_common] at h
  have hmax : ((max (tokens a).length (tokens b).length : Nat) : ℚ) ≠ 0 := by
    have : 0 < max (tokens a).length (tokens b).length := by omega
    exact_mod_cast this.ne'
  rcases div_eq_zero_iff.mp h with h0 | h0
  · have h1 : 0 + ((tokens a).filter (fun t => decide (t ∈ tokens b))).length = 0 := by
      exact_mod_cast h0
    have h2 : (tokens a).filter (fun t => decide (t ∈ tokens b)) = [] := by
      rw [← List.length_eq_zero]; omega
    have h3 : t ∈ (tokens a).filter (fun t => decide (t ∈ tokens b)) := by
      rw [List.mem_filter]
      exact ⟨hta, by simpa using htb⟩
    rw [h2] at h3
    simp at h3
  · exact hmax h0

/-- The score of a catalog entry in the first loop is not negative, and it is
zero only when every utterance has overlap zero. -/
theorem totalScore_parts (text : Str) (it : IntentDef) :
    0 ≤ totalScore text it ∧
    (totalScore text it ≤ 0 → ∀ u ∈ it.utterances, tokenOverlap text u = 0) := by
  have hmax : 0 ≤ (if (it.utterances.map (fun u => tokenOverlap text u)).length = 0 then 0
      else JS.mathMax (it.utterances.map (fun u => tokenOverlap text u))) := by
    split_ifs with h0
    · exact le_refl _
    · cases hu : it.utterances with
      | nil => rw [hu] at h0; simp at h0
      | cons u rest =>
        have hm : tokenOverlap text u ∈ (u :: rest).map (fun u => tokenOverlap text u) := by simp
        exact le_trans (prompt_tokenOverlap_nonneg text u) (JS.le_mathMax _ _ hm)
  have hkw : (0 : ℚ) ≤ ((it.keywords.foldl
      (fun acc kw => if kw.isEmpty then acc else acc + (if JS.includes text kw then 1 else 0))
      0 : Nat) : ℚ) := Nat.cast_nonneg _
  refine ⟨?_, ?_⟩
  · unfold totalScore
    simp only
    exact add_nonneg hkw hmax
  · intro hle u hu
    unfold totalScore at hle
    simp only at hle
    have hmax0 : (if (it.utterances.map (fun u => tokenOverlap text u)).length = 0 then 0
        else JS.mathMax (it.utterances.map (fun u => tokenOverlap text u))) ≤ 0 := by linarith
    have hne : ¬ (it.utterances.map (fun u => tokenOverlap text u)).length = 0 := by
      rw [List.length_map]
      intro h0
      rw [List.length_eq_zero] at h0
      rw [h0] at hu
      simp at hu
    rw [if_neg hne] at hmax0
    have hm : tokenOverlap text u ∈ it.utterances.map (fun u => tokenOverlap text u) :=
      List.mem_map_of_mem _ hu
    exact le_antisymm (le_trans (JS.le_mathMax _ _ hm) hmax0) (prompt_tokenOverlap_nonneg text u)

/-- The best score of the first loop is at least the score of every catalog entry. -/
theorem totalScore_le_firstPass (intents : List IntentDef) (text : Str) :
    ∀ it ∈ intents, totalScore text it ≤ (firstPass intents text).score := by
  unfold firstPass
  generalize ({ intent := "fallback", score := 0 } : Best) = b
  have hgen : ∀ (l : List IntentDef) (b : Best),
      b.score ≤ (l.foldl
        (fun best it =>
          if totalScore text it > best.score then { intent := it.name, score := totalScore text it }
          else best) b).score ∧
      ∀ it ∈ l, totalScore text it ≤ (l.foldl
        (fun best it =>
          if totalScore text it > best.score then { intent := it.name, score := totalScore text it }
          else best) b).score := by
    intro l
    induction l with
    | nil => intro b; simp
    | cons x rest ih =>
      intro b
      simp only [List.foldl_cons]
      obtain ⟨h1, h2⟩ := ih (if totalScore text x > b.score
        then { intent := x.name, score := totalScore text x } else b)
      have hb : b.score ≤ (if totalScore text x > b.score
          then ({ intent := x.name, score := totalScore text x } : Best) else b).score := by
        split_ifs with h
        · exact le_of_lt h
        · exact le_refl _
      have hx : totalScore text x ≤ (if totalScore text x > b.score
          then ({ intent := x.name, score := totalScore text x } : Best) else b).score := by
        split_ifs with h
        · exact le_refl _
        · exact not_lt.mp h
      refine ⟨le_trans hb h1, ?_⟩
      intro it hit
      rcases List.mem_cons.mp hit with h | h
      · rw [h]; exact le_trans hx h1
      · exact h2 it h
  exact (hgen intents b).2

/-- When the first loop ends with the best score zero, the overlap of the
text with the joined utterances of every catalog entry is zero. -/
theorem joined_overlap_zero (intents : List IntentDef) (text : Str)
    (h0 : (firstPass intents text).score = 0) :
    ∀ it ∈ intents, tokenOverlap text (JS.joinSpace it.utterances) = 0 := by
  intro it hit
  have hle : totalScore text it ≤ 0 := by
    rw [← h0]; exact totalScore_le_firstPass intents text it hit
  have hu := (totalScore_parts text it).2 hle
  apply tokenOverlap_eq_zero
  intro t hta htj
  obtain ⟨u, hu1, hu2⟩ := mem_tokens_joinSpace it.utterances t htj
  exact no_shared_token_of_overlap_zero text u (hu u hu1) t hta hu2

/-- The second loop never changes the value of the first. -/
theorem resolve_eq_firstPass (intents : List IntentDef) (text : Str) :
    resolve intents text = firstPass intents text := by
  unfold resolve
  simp only
  split_ifs with h0
  · exact secondPass_unchanged intents text _ h0 (joined_overlap_zero intents text h0)
  · rfl

end PromptProcessor

/-- Claim C25: the second loop of `PromptProcessor.process` never changes the
decision. Whenever the first loop ends with the best score zero, the token
overlap of the normalised message with the space-joined utterances of every
catalog entry is zero as well, so the resolution is the value of the first
loop, and `process` returns the same result (intent, confidence, reply and
metadata) as the function without its second loop. -/
theorem C25_second_pass_is_redundant (intents : List IntentDef) (templates : Templates)
    (demoOrders : List Order) (req : Request) (random : Str) :
    ((PromptProcessor.firstPass intents (PromptProcessor.normalize req.message)).score = 0 →
      ∀ it ∈ intents, PromptProcessor.tokenOverlap (PromptProcessor.normalize req.message)
        (JS.joinSpace it.utterances) = 0) ∧
    PromptProcessor.resolve intents (PromptProcessor.normalize req.message) =
      PromptProcessor.firstPass intents (PromptProcessor.normalize req.message) ∧
    PromptProcessor.process intents templates demoOrders req random =
      PromptProcessor.processWithoutSecondPass intents templates demoOrders req random := by
  refine ⟨PromptProcessor.joined_overlap_zero intents _, PromptProcessor.resolve_eq_firstPass _ _, ?_⟩
  simp only [PromptProcessor.process, PromptProcessor.processWithoutSecondPass,
    PromptProcessor.resolve_eq_firstPass]

/-! ## Catalog intents without a branch of their own -/

namespace AdvancedProcessor

/-- The default branch of the `switch` of `process`. -/
theorem process_of_unlisted (intents : List IntentDef) (templates : Templates)
    (demoOrders : List Order) (st : State) (req : Request) (amb : Ambient)
    (h1 : (detectIntentWithContext intents st.conversationHistory req.message
      req.sessionId).intent ≠ "greeting")
    (h2 : (detectIntentWithContext intents st.conversationHistory req.message
      req.sessionId).intent ≠ "order_status")
    (h3 : (detectIntentWithContext intents st.conversationHistory req.message
      req.sessionId).intent ≠ "refund")
    (h4 : (detectIntentWithContext intents st.conversationHistory req.message
      req.sessionId).intent ≠ "complaint")
    (h5 : (detectIntentWithContext intents st.conversationHistory req.message
      req.sessionId).intent ≠ "human_escalation") :
    (process intents templates demoOrders st req amb).1.reply =
      (if (analyzeSentiment req.message).label = "negative"
        then ("I understand you\x27re having an issue. " ++
          "Let me connect you with a human agent who can better assist you.").toList
        else templates.fallback) ∧
    (process intents templates demoOrders st req amb).1.confidence =
      min (detectIntentWithContext intents st.conversationHistory req.message
        req.sessionId).confidence (4 / 10) := by
  simp only [process, compose, if_neg h1, if_neg h2, if_neg h3, if_neg h4, if_neg h5]
  exact ⟨trivial, trivial⟩

end AdvancedProcessor

/-- Claim C26: when `AdvancedProcessor.detectIntentWithContext` resolves an
intent whose name is none of `greeting`, `order_status`, `refund`,
`complaint` and `human_escalation` (such as `thanks`), `process` returns that
intent name unchanged, the reply of the default branch (the offer of a human
agent when the sentiment is negative, else the fallback template) and the
confidence of the resolver capped at 0.4. -/
theorem C26_unlisted_intent_gets_fallback_reply (intents : List IntentDef)
    (templates : Templates) (demoOrders : List Order) (st : State) (req : Request)
    (amb : Ambient)
    (hname : (AdvancedProcessor.detectIntentWithContext intents st.conversationHistory
      req.message req.sessionId).intent ∉
        ["greeting", "order_status", "refund", "complaint", "human_escalation"]) :
    (AdvancedProcessor.process intents templates demoOrders st req amb).1.intent =
      (AdvancedProcessor.detectIntentWithContext intents st.conversationHistory req.message
        req.sessionId).intent ∧
    (AdvancedProcessor.process intents templates demoOrders st req amb).1.reply =
      (if (AdvancedProcessor.analyzeSentiment req.message).label = "negative"
        then ("I understand you\x27re having an issue. " ++
          "Let me connect you with a human agent who can better assist you.").toList
        else templates.fallback) ∧
    (AdvancedProcessor.process intents templates demoOrders st req amb).1.confidence =
      min (AdvancedProcessor.detectIntentWithContext intents st.conversationHistory req.message
        req.sessionId).confidence (4 / 10) ∧
    (AdvancedProcessor.process intents templates demoOrders st req amb).1.confidence ≤ 4 / 10 := by
  simp only [List.mem_cons, List.mem_singleton, List.not_mem_nil, or_false, not_or] at hname
  obtain ⟨h1, h2, h3, h4, h5⟩ := hname
  obtain ⟨hr, hc⟩ := AdvancedProcessor.process_of_unlisted intents templates demoOrders st req amb
    h1 h2 h3 h4 h5
  refine ⟨rfl, hr, hc, ?_⟩
  rw [hc]
  exact min_le_right _ _

/-- Witness of C26: the message `thanks a lot` resolves the catalog intent
`thanks` with a confidence above 0.4; the result keeps the name, carries the
fallback template and has the confidence 0.4. -/
theorem C26_unlisted_intent_gets_fallback_reply_witness :
    (AdvancedProcessor.detectIntentWithContext escalationCatalog
      AdvancedProcessor.fresh.conversationHistory "thanks a lot".toList "s1").intent = "thanks" ∧
    4 / 10 < (AdvancedProcessor.detectIntentWithContext escalationCatalog
      AdvancedProcessor.fresh.conversationHistory "thanks a lot".toList "s1").confidence ∧
    (AdvancedProcessor.process escalationCatalog sampleTemplates sampleOrders
      AdvancedProcessor.fresh { sessionId := "s1", message := "thanks a lot".toList }
      { now := 0, elapsed := 0, random := [] }).1.intent = "thanks" ∧
    (AdvancedProcessor.process escalationCatalog sampleTemplates sampleOrders
      AdvancedProcessor.fresh { sessionId := "s1", message := "thanks a lot".toList }
      { now := 0, elapsed := 0, random := [] }).1.reply = sampleTemplates.fallback ∧
    (AdvancedProcessor.process escalationCatalog sampleTemplates sampleOrders
      AdvancedProcessor.fresh { sessionId := "s1", message := "thanks a lot".toList }
      { now := 0, elapsed := 0, random := [] }).1.confidence ≤ 4 / 10 := by
  have h := C26_unlisted_intent_gets_fallback_reply escalationCatalog sampleTemplates sampleOrders
    AdvancedProcessor.fresh { sessionId := "s1", message := "thanks a lot".toList }
    { now := 0, elapsed := 0, random := [] } (by decide!)
  exact ⟨by decide!, by decide!, by decide!, by decide!, h.2.2.2⟩

/-! ## The context of the processor with emotions -/

namespace UltraAIProcessor

/-- The stored entries carry no intent, so no intent name is found among them. -/
theorem calculateContextRelevance_eq_zero (intent : String) (context : ConversationContext) :
    calculateContextRelevance intent context = 0 := by
  have hnil : (context.items.map HistoryEntry.intent).filter
      (fun i => decide (i = some intent)) = [] := by
    rw [List.filter_eq_nil_iff]
    intro i hi
    obtain ⟨x, _, hx⟩ := List.mem_map.mp hi
    rw [← hx]
    simp [HistoryEntry.intent]
  simp only [calculateContextRelevance, hnil, List.length_nil, Nat.cast_zero, zero_div]
  exact min_eq_left (by norm_num)

/-- The session just written has a stored entry, the message itself being the last. -/
theorem context_after_update (conversationHistory : History) (sessionId : String)
    (message : Str) (timestamp : Str) :
    (getConversationContext
      (updateConversationHistory conversationHistory sessionId message timestamp)
      sessionId).items ≠ [] ∧
    (getConversationContext
      (updateConversationHistory conversationHistory sessionId message timestamp)
      sessionId).currentMessage = some message := by
  simp only [getConversationContext, updateConversationHistory, JS.get_set_self,
    Option.getD_some]
  generalize (JS.get conversationHistory sessionId).getD [] = old
  have hne : old ++ [({ message := message, timestamp := timestamp, type := "user" } :
      HistoryEntry)] ≠ [] := by simp
  split_ifs with hlen
  · have h2 : 2 ≤ (old ++ [({ message := message, timestamp := timestamp, type := "user" } :
        HistoryEntry)]).length := by omega
    cases old with
    | nil => simp at h2
    | cons a rest =>
      simp only [List.cons_append, List.tail_cons]
      refine ⟨by simp, ?_⟩
      simp
  · refine ⟨hne, ?_⟩
    simp

/-- The score of an entry does not depend on the context. -/
theorem intentScore_context (message : Str) (c1 c2 : ConversationContext)
    (emotion : EmotionalState) (intentName : String) (config : IntentConfig) :
    intentScore message c1 emotion intentName config =
      intentScore message c2 emotion intentName config := by
  simp only [intentScore, calculateContextRelevance_eq_zero, zero_mul, add_zero, ite_self]

/-- The intent and the confidence that `detectIntentWithContext` returns do
not depend on the context. -/
theorem detectIntentWithContext_context (message : Str) (c1 c2 : ConversationContext)
    (emotion : EmotionalState) :
    (detectIntentWithContext message c1 emotion).intent =
      (detectIntentWithContext message c2 emotion).intent ∧
    (detectIntentWithContext message c1 emotion).confidence =
      (detectIntentWithContext message c2 emotion).confidence := by
  unfold detectIntentWithContext
  have hgen : ∀ (l : List (String × IntentConfig)) (b1 b2 : IntentAnalysis),
      b1.intent = b2.intent → b1.confidence = b2.confidence →
      (l.foldl (detectStep message c1 emotion) b1).intent =
        (l.foldl (detectStep message c2 emotion) b2).intent ∧
      (l.foldl (detectStep message c1 emotion) b1).confidence =
        (l.foldl (detectStep message c2 emotion) b2).confidence := by
    intro l
    induction l with
    | nil => intro b1 b2 h1 h2; exact ⟨h1, h2⟩
    | cons x rest ih =>
      intro b1 b2 h1 h2
      simp only [List.foldl_cons]
      apply ih
      · simp only [detectStep, intentScore_context message c1 c2, h2]
        split_ifs <;> first | rfl | exact h1
      · simp only [detectStep, intentScore_context message c1 c2, h2]
        split_ifs <;> first | rfl | exact h2
  exact hgen intentPatterns _ _ rfl rfl

/-- The value that `reduce` picks is one of the entries. -/
theorem reducePrimary_mem (l : List (String × ℚ)) (e : String × ℚ)
    (h : reducePrimary l = some e) : e ∈ l := by
  cases l with
  | nil => simp [reducePrimary] at h
  | cons a rest =>
    simp only [reducePrimary, Option.some.injEq] at h
    rw [← h]
    clear h
    induction rest generalizing a with
    | nil => simp
    | cons b rest ih =>
      simp only [List.foldl_cons]
      split_ifs
      · rcases List.mem_cons.mp (ih a) with h | h
        · rw [h]; exact List.mem_cons_self _ _
        · exact List.mem_cons_of_mem _ (List.mem_cons_of_mem _ h)
      · exact List.mem_cons_of_mem _ (ih b)

/-- Method `analyzeEmotion` returns a value, and its primary emotion is one
of the five names of `emotionPatterns`. -/
theorem analyzeEmotion_primary (text : Str) :
    ∃ e, analyzeEmotion text = some e ∧
      e.primary ∈ ["angry", "sad", "happy", "confused", "urgent"] := by
  obtain ⟨a, b, c, d, u, hform⟩ := emotionHits_form text
  have hkeys : (normalizedEmotions text).map Prod.fst =
      ["angry", "sad", "happy", "confused", "urgent"] := by
    simp [normalizedEmotions, hform]
  cases hr : reducePrimary (normalizedEmotions text) with
  | none =>
    cases hn : normalizedEmotions text with
    | nil => rw [hn] at hkeys; simp at hkeys
    | cons x rest => rw [hn] at hr; simp [reducePrimary] at hr
  | some e =>
    refine ⟨{ primary := e.1, scores := normalizedEmotions text
              intensity := JS.mathMax ((normalizedEmotions text).map Prod.snd)
              sentiment := calculateSentiment text }, by simp only [analyzeEmotion, hr], ?_⟩
    have hmem := reducePrimary_mem _ _ hr
    have : e.1 ∈ (normalizedEmotions text).map Prod.fst := List.mem_map_of_mem _ hmem
    rw [hkeys] at this
    exact this

/-- The weights and the sentiments of the table of intents. -/
theorem intentPatterns_table : ∀ entry ∈ intentPatterns,
    0 ≤ entry.2.weight ∧ entry.2.weight ≤ 95 / 100 ∧
    (entry.2.sentiment = none ∨ entry.2.sentiment = some "negative") := by
  intro entry h
  simp only [intentPatterns, List.mem_cons, List.mem_singleton, List.not_mem_nil, or_false] at h
  rcases h with rfl | rfl | rfl | rfl | rfl | rfl <;>
    exact ⟨by norm_num, by norm_num, by simp⟩

/-- The score of an entry is at most 0.76 when its sentiment is not the
primary emotion: both fractions are at most one, the context adds nothing,
and the weight is at most 0.95. -/
theorem intentScore_le (message : Str) (context : ConversationContext)
    (emotion : EmotionalState) (intentName : String) (config : IntentConfig)
    (hw0 : 0 ≤ config.weight) (hw : config.weight ≤ 95 / 100)
    (hs : config.sentiment ≠ some emotion.primary) :
    intentScore message context emotion intentName config ≤ 76 / 100 := by
  have hk : ((config.keywords.filter (fun keyword =>
      JS.includes (JS.toLowerCase message) (JS.toLowerCase keyword))).length : ℚ) /
      (config.keywords.length : ℚ) ≤ 1 := by
    apply div_le_one_of_le₀
    · exact_mod_cast List.length_filter_le _ _
    · exact Nat.cast_nonneg _
  have hk0 : 0 ≤ ((config.keywords.filter (fun keyword =>
      JS.includes (JS.toLowerCase message) (JS.toLowerCase keyword))).length : ℚ) /
      (config.keywords.length : ℚ) := by positivity
  have hp : ((config.patterns.filter (fun pattern => pattern.test message)).length : ℚ) /
      (if config.patterns.length = 0 then 1 else (config.patterns.length : ℚ)) ≤ 1 := by
    split_ifs with h0
    · have : (config.patterns.filter (fun pattern => pattern.test message)).length = 0 := by
        have := List.length_filter_le (fun pattern => pattern.test message) config.patterns
        omega
      rw [this]; norm_num
    · apply div_le_one_of_le₀
      · exact_mod_cast List.length_filter_le _ _
      · exact Nat.cast_nonneg _
  have hp0 : 0 ≤ ((config.patterns.filter (fun pattern => pattern.test message)).length : ℚ) /
      (if config.patterns.length = 0 then 1 else (config.patterns.length : ℚ)) := by
    split_ifs <;> positivity
  simp only [intentScore, calculateContextRelevance_eq_zero, zero_mul, add_zero, ite_self,
    if_neg hs, zero_add]
  calc _ ≤ (1 * (4 / 10) + 1 * (4 / 10)) * config.weight := by
        apply mul_le_mul_of_nonneg_right _ hw0
        nlinarith
    _ ≤ (1 * (4 / 10) + 1 * (4 / 10)) * (95 / 100) := by
        apply mul_le_mul_of_nonneg_left hw; norm_num
    _ = 76 / 100 := by norm_num

/-- The confidence that `detectIntentWithContext` returns is at most 0.76
when the primary emotion is not the name of a sentiment. -/
theorem detectIntentWithContext_le (message : Str) (context : ConversationContext)
    (emotion : EmotionalState) (hprim : emotion.primary ≠ "negative") :
    (detectIntentWithContext message context emotion).confidence ≤ 76 / 100 := by
  unfold detectIntentWithContext
  have hgen : ∀ (l : List (String × IntentConfig)) (b : IntentAnalysis),
      (∀ entry ∈ l, entry ∈ intentPatterns) → b.confidence ≤ 76 / 100 →
      (l.foldl (detectStep message context emotion) b).confidence ≤ 76 / 100 := by
    intro l
    induction l with
    | nil => intro b _ hb; exact hb
    | cons x rest ih =>
      intro b hmem hb
      simp only [List.foldl_cons]
      apply ih _ (fun entry h => hmem entry (List.mem_cons_of_mem _ h))
      obtain ⟨hw0, hw, hsent⟩ := intentPatterns_table x (hmem x (List.mem_cons_self _ _))
      have hs : x.2.sentiment ≠ some emotion.primary := by
        rcases hsent with h | h
        · rw [h]; simp
        · rw [h]
          intro heq
          exact hprim (Option.some.inj heq).symm
      have hscore := intentScore_le message context emotion x.1 x.2 hw0 hw hs
      simp only [detectStep]
      split_ifs
      · exact le_trans (min_le_left _ _) hscore
      · exact hb
  exact hgen intentPatterns _ (fun _ h => h) (by norm_num)

/-- The intent and the confidence that `processMessage` returns are those of
`detectIntentWithContext` on the message, whatever the context. -/
theorem processMessage_eq (st : State) (sessionId : String) (message : Str) (amb : Ambient)
    (context : ConversationContext) :
    ∃ e, analyzeEmotion message = some e ∧ e.primary ≠ "negative" ∧
      (processMessage st sessionId message amb).1.success = true ∧
      (processMessage st sessionId message amb).1.intent =
        (detectIntentWithContext message context e).intent ∧
      (processMessage st sessionId message amb).1.confidence =
        (detectIntentWithContext message context e).confidence := by
  obtain ⟨e, he, hprim⟩ := analyzeEmotion_primary message
  refine ⟨e, he, ?_, ?_, ?_, ?_⟩
  · intro h
    rw [h] at hprim
    revert hprim
    decide
  · simp only [processMessage, he]
  · simp only [processMessage, he]
    exact (detectIntentWithContext_context message _ context e).1
  · simp only [processMessage, he]
    exact (detectIntentWithContext_context message _ context e).2

end UltraAIProcessor

/-- Claim C27: in `UltraAIProcessor`, `calculateContextRelevance` is 0 for
every intent name on the context that `getConversationContext` builds once
`updateConversationHistory` has written the session (the context then has at
least one entry, and no entry carries an intent). So `processMessage`
returns, for a given message, the same intent and the same confidence in
every state and session, whatever was received before, and the confidence is
at most 0.76. -/
theorem C27_context_never_counts (st1 st2 : UltraAIProcessor.State)
    (sessionId1 sessionId2 : String) (message : Str) (amb1 amb2 : UltraAIProcessor.Ambient)
    (intent : String) :
    ((UltraAIProcessor.getConversationContext
        (UltraAIProcessor.updateConversationHistory st1.conversationHistory sessionId1 message
          amb1.historyTime) sessionId1).items ≠ [] ∧
      UltraAIProcessor.calculateContextRelevance intent
        (UltraAIProcessor.getConversationContext
          (UltraAIProcessor.updateConversationHistory st1.conversationHistory sessionId1 message
            amb1.historyTime) sessionId1) = 0) ∧
    (UltraAIProcessor.processMessage st1 sessionId1 message amb1).1.success = true ∧
    (UltraAIProcessor.processMessage st1 sessionId1 message amb1).1.intent =
      (UltraAIProcessor.processMessage st2 sessionId2 message amb2).1.intent ∧
    (UltraAIProcessor.processMessage st1 sessionId1 message amb1).1.confidence =
      (UltraAIProcessor.processMessage st2 sessionId2 message amb2).1.confidence ∧
    (UltraAIProcessor.processMessage st1 sessionId1 message amb1).1.confidence ≤ 76 / 100 := by
  obtain ⟨e1, he1, hp1, hs1, hi1, hc1⟩ := UltraAIProcessor.processMessage_eq st1 sessionId1
    message amb1 { items := [], summary := [], currentMessage := none }
  obtain ⟨e2, he2, _, _, hi2, hc2⟩ := UltraAIProcessor.processMessage_eq st2 sessionId2
    message amb2 { items := [], summary := [], currentMessage := none }
  have he : e1 = e2 := Option.some.inj (he1.symm.trans he2)
  subst he
  refine ⟨⟨(UltraAIProcessor.context_after_update _ _ _ _).1,
    UltraAIProcessor.calculateContextRelevance_eq_zero _ _⟩, hs1, hi1.trans hi2.symm,
    hc1.trans hc2.symm, ?_⟩
  rw [hc1]
  exact UltraAIProcessor.detectIntentWithContext_le _ _ _ hp1

/-! ## The leftmost match of the two `findOrderId` -/

namespace JS

/-- The digit run of digits followed by a text that starts with no digit. -/
theorem digitRun_append (ds post : Str) (h : ds.all Char.isDigit = true)
    (hpost : ∀ c, post.head? = some c → c.isDigit = false) :
    digitRun (ds ++ post) = ds.length := by
  induction ds with
  | nil =>
    cases post with
    | nil => rfl
    | cons c cs =>
      have hc := hpost c rfl
      simp [digitRun, List.takeWhile_cons, hc]
  | cons d rest ih =>
    simp only [List.all_cons, Bool.and_eq_true] at h
    have ih2 := ih h.2
    simp only [digitRun] at ih2
    simp only [digitRun, List.cons_append, List.takeWhile_cons, h.1, if_true, List.length_cons,
      ih2]

/-- No `ORD` code starts with a character that is not the letter `o`. -/
theorem matchOrd_none_of_head (s : Str) (h : ∀ a, s.head? = some a → (a.toUpper == 'O') = false) :
    matchOrd s = none := by
  unfold matchOrd
  split
  · rename_i a b c rest
    rw [h a rfl]
    simp
  · rfl

/-- No `ORDER` code starts with a character that is not the letter `o`. -/
theorem matchOrder_none_of_head (s : Str)
    (h : ∀ a, s.head? = some a → (a.toUpper == 'O') = false) : matchOrder s = none := by
  unfold matchOrder
  split
  · rename_i a b c d e rest
    rw [h a rfl]
    simp
  · rfl

/-- A digit is not the letter `o`. -/
theorem toUpper_ne_O_of_isDigit (c : Char) (h : c.isDigit = true) : (c.toUpper == 'O') = false := by
  rw [toUpper_of_isDigit c h]
  have h2 := (isDigit_iff c).mp h
  by_contra hne
  simp only [Bool.not_eq_false, beq_iff_eq] at hne
  rw [hne] at h2
  revert h2
  decide

/-- The search passes over a start of the text in which no match begins. -/
theorem search_skip (m : Option Char → Str → Option Nat) (pre rest : Str) (prev : Option Char)
    (h : ∀ i < pre.length, ∀ p, m p ((pre ++ rest).drop i) = none) :
    ∃ prev2, search m prev (pre ++ rest) = search m prev2 rest := by
  induction pre generalizing prev with
  | nil => exact ⟨prev, rfl⟩
  | cons a pre ih =>
    have h0 := h 0 (by simp) prev
    simp only [List.drop_zero] at h0
    have hstep : search m prev ((a :: pre) ++ rest) = search m (some a) (pre ++ rest) := by
      rw [List.cons_append] at h0 ⊢
      simp only [search, h0]
    rw [hstep]
    apply ih
    intro i hi p
    have := h (i + 1) (by simp; omega) p
    simpa using this

/-- A search that finds nothing at any place: at every split of the text the
matcher fails on the right part, with the character before it. -/
theorem search_eq_none (m : Option Char → Str → Option Nat) (text : Str) (prev : Option Char)
    (h : ∀ pre post, text = pre ++ post →
      m (if pre = [] then prev else pre.getLast?) post = none) :
    search m prev text = none := by
  induction text generalizing prev with
  | nil =>
    have h0 := h [] [] rfl
    simp only [if_true] at h0
    simp [search, h0]
  | cons c cs ih =>
    have h0 := h [] (c :: cs) rfl
    simp only [if_true] at h0
    simp only [search, h0]
    apply ih
    intro pre post hsplit
    have h1 := h (c :: pre) post (by rw [hsplit]; rfl)
    simp only [reduceCtorEq, if_false] at h1
    by_cases hp : pre = []
    · subst hp
      simpa using h1
    · rw [if_neg hp]
      cases pre with
      | nil => exact absurd rfl hp
      | cons b pre2 =>
        rw [List.getLast?_cons_cons] at h1
        exact h1

end JS

/-- Claim C28: `PromptProcessor.findOrderId` returns the leftmost match of
its one alternation. For a text `pre ++ run ++ post` in which `run` is a run
of five or more digits, of any length, that ends where `post` begins, and no
`ORD` code and no run of five digits starts inside `pre`, the result is the
digit run, also when an `ORD` code follows in `post`. On `12345 ORD1001` it
returns `12345` while `AdvancedProcessor.findOrderId` returns `ORD1001`; a
run of nine digits is returned whole. -/
theorem C28_prompt_findOrderId_takes_leftmost (pre run post : Str)
    (hrun : run.all Char.isDigit = true) (hlen : 5 ≤ run.length)
    (hpost : ∀ c, post.head? = some c → c.isDigit = false)
    (hpre : ∀ i < pre.length, JS.matchOrd ((pre ++ (run ++ post)).drop i) = none ∧
      JS.matchDigits5 ((pre ++ (run ++ post)).drop i) = none) :
    PromptProcessor.findOrderId (pre ++ (run ++ post)) = some run ∧
    PromptProcessor.findOrderId "12345 ORD1001".toList = some "12345".toList ∧
    AdvancedProcessor.findOrderId "12345 ORD1001".toList = some "ORD1001".toList ∧
    PromptProcessor.findOrderId "123456789 ORD1001".toList = some "123456789".toList := by
  refine ⟨?_, by decide, by decide, by decide⟩
  have hne : run ++ post ≠ [] := by
    intro h
    have : (run ++ post).length = 0 := by rw [h]; rfl
    rw [List.length_append] at this
    omega
  obtain ⟨prev2, hskip⟩ := JS.search_skip (fun _ s => PromptProcessor.matchOrderId s) pre
    (run ++ post) none (by
      intro i hi _
      simp only [PromptProcessor.matchOrderId, (hpre i hi).1, (hpre i hi).2])
  have hdig : JS.digitRun (run ++ post) = run.length := JS.digitRun_append run post hrun hpost
  have hord : JS.matchOrd (run ++ post) = none := by
    apply JS.matchOrd_none_of_head
    intro a ha
    cases run with
    | nil => simp at hlen
    | cons d rest =>
      simp only [List.cons_append, List.head?_cons, Option.some.injEq] at ha
      simp only [List.all_cons, Bool.and_eq_true] at hrun
      rw [← ha]
      exact JS.toUpper_ne_O_of_isDigit d hrun.1
  have hm : PromptProcessor.matchOrderId (run ++ post) = some run.length := by
    simp only [PromptProcessor.matchOrderId, hord, JS.matchDigits5, hdig, if_pos hlen]
  have hsearch : JS.search (fun _ s => PromptProcessor.matchOrderId s) prev2 (run ++ post) =
      some run := by
    cases hrp : run ++ post with
    | nil => exact absurd hrp hne
    | cons c cs =>
      rw [hrp] at hm
      simp only [JS.search, hm]
      rw [← hrp]
      simp
  simp only [PromptProcessor.findOrderId, hskip, hsearch, Option.map_some',
    JS.toUpperCase_digits run hrun]

/-- Witness of C28: a run of nine digits after the word `no` and before an `ORD` code. -/
theorem C28_prompt_findOrderId_takes_leftmost_witness :
    PromptProcessor.findOrderId ("no ".toList ++ ("123456789".toList ++ " ORD1001".toList)) =
      some "123456789".toList ∧
    AdvancedProcessor.findOrderId ("no ".toList ++ ("123456789".toList ++ " ORD1001".toList)) =
      some "ORD1001".toList :=
  ⟨(C28_prompt_findOrderId_takes_leftmost "no ".toList "123456789".toList " ORD1001".toList
      (by decide) (by decide) (by decide) (by decide)).1, by decide⟩

/-! ## A hash sign before digits -/

namespace JS

/-- The digit run of a text of digits is the whole text. -/
theorem digitRun_digits (ds : Str) (h : ds.all Char.isDigit = true) : digitRun ds = ds.length := by
  have := digitRun_append ds [] h (by simp)
  simpa using this

/-- A digit is a word character. -/
theorem isWordChar_of_isDigit (c : Char) (h : c.isDigit = true) : isWordChar c = true := by
  simp [isWordChar, Char.isAlphanum, h]

/-- After `k` digits of a text of digits a word character follows exactly
when digits are left. -/
theorem startsWithWord_drop_digits (ds : Str) (h : ds.all Char.isDigit = true) (k : Nat) :
    startsWithWord (ds.drop k) = decide (k < ds.length) := by
  induction ds generalizing k with
  | nil => simp [startsWithWord]
  | cons d rest ih =>
    simp only [List.all_cons, Bool.and_eq_true] at h
    cases k with
    | zero => simp [startsWithWord, isWordChar_of_isDigit d h.1]
    | succ k =>
      simp only [List.drop_succ_cons, ih h.2 k, List.length_cons]
      simp

/-- The bare-number pattern at the start of a text of digits, after a
character that is no word character: the whole text when it has five to
eight digits, else no match. -/
theorem matchBare_digits (ds : Str) (h : ds.all Char.isDigit = true) (prev : Option Char)
    (hprev : ∀ p, prev = some p → isWordChar p = false) :
    matchBare prev ds = if 5 ≤ ds.length ∧ ds.length ≤ 8 then some ds.length else none := by
  have hfind : [8, 7, 6, 5].find? (fun k => decide (k ≤ digitRun ds) && !startsWithWord (ds.drop k)) =
      if 5 ≤ ds.length ∧ ds.length ≤ 8 then some ds.length else none := by
    simp only [digitRun_digits ds h, startsWithWord_drop_digits ds h, List.find?]
    by_cases h8 : ds.length = 8
    · simp [h8]
    · by_cases h7 : ds.length = 7
      · simp [h7]
      · by_cases h6 : ds.length = 6
        · simp [h6]
        · by_cases h5 : ds.length = 5
          · simp [h5]
          · have hnot : ¬ (5 ≤ ds.length ∧ ds.length ≤ 8) := by omega
            rw [if_neg hnot]
            have e8 : (decide (8 ≤ ds.length) && !decide (8 < ds.length)) = false := by
              simp; omega
            have e7 : (decide (7 ≤ ds.length) && !decide (7 < ds.length)) = false := by
              simp; omega
            have e6 : (decide (6 ≤ ds.length) && !decide (6 < ds.length)) = false := by
              simp; omega
            have e5 : (decide (5 ≤ ds.length) && !decide (5 < ds.length)) = false := by
              simp; omega
            simp only [e8, e7, e6, e5]
  unfold matchBare
  cases prev with
  | none => simpa using hfind
  | some p =>
    have hp := hprev p rfl
    simpa [hp] using hfind

/-- The bare-number pattern matches nothing right after a word character. -/
theorem matchBare_after_word (p : Char) (s : Str) (hp : isWordChar p = true) :
    matchBare (some p) s = none := by
  simp [matchBare, hp]

/-- The bare-number pattern matches nothing where no digit stands. -/
theorem matchBare_no_digit (prev : Option Char) (s : Str) (h : digitRun s = 0) :
    matchBare prev s = none := by
  simp only [matchBare, h, List.find?]
  split_ifs
  · rfl
  · simp

end JS

namespace AdvancedProcessor

/-- No pattern with the letters `ORD` matches in a hash sign followed by digits. -/
theorem search_ord_hash_digits (ds : Str) (h : ds.all Char.isDigit = true) :
    JS.search (fun _ s => JS.matchOrd s) none ('#' :: ds) = none ∧
    JS.search (fun _ s => JS.matchOrder s) none ('#' :: ds) = none := by
  have hhead : ∀ pre post : Str, '#' :: ds = pre ++ post →
      ∀ a, post.head? = some a → (a.toUpper == 'O') = false := by
    intro pre post hsplit a ha
    have hmem : a ∈ '#' :: ds := by
      rw [hsplit]
      exact List.mem_append_right _ (List.mem_of_mem_head? ha)
    rcases List.mem_cons.mp hmem with h1 | h1
    · rw [h1]; decide
    · exact JS.toUpper_ne_O_of_isDigit a (List.all_eq_true.mp h a h1)
  constructor
  · apply JS.search_eq_none
    intro pre post hsplit
    exact JS.matchOrd_none_of_head post (hhead pre post hsplit)
  · apply JS.search_eq_none
    intro pre post hsplit
    exact JS.matchOrder_none_of_head post (hhead pre post hsplit)

/-- The bare-number pattern in a hash sign followed by digits: the digits
when there are five to eight of them, else no match. -/
theorem search_bare_hash_digits (ds : Str) (h : ds.all Char.isDigit = true) :
    JS.search JS.matchBare none ('#' :: ds) =
      if 5 ≤ ds.length ∧ ds.length ≤ 8 then some ds else none := by
  have hhash : JS.matchBare none ('#' :: ds) = none :=
    JS.matchBare_no_digit none ('#' :: ds) (by simp [JS.digitRun, List.takeWhile_cons])
  have hat : JS.matchBare (some '#') ds =
      if 5 ≤ ds.length ∧ ds.length ≤ 8 then some ds.length else none :=
    JS.matchBare_digits ds h (some '#') (by
      intro p hp
      rw [← Option.some.inj hp]
      decide)
  split_ifs with hlen
  · rw [if_pos hlen] at hat
    cases ds with
    | nil => simp at hlen
    | cons d rest =>
      simp only [JS.search, hhash, hat]
      simp
  · rw [if_neg hlen] at hat
    apply JS.search_eq_none
    intro pre post hsplit
    cases pre with
    | nil =>
      simp only [List.nil_append] at hsplit
      rw [← hsplit]
      simpa using hhash
    | cons x pre2 =>
      simp only [List.cons_append, List.cons.injEq] at hsplit
      obtain ⟨hx, hds⟩ := hsplit
      subst hx
      cases pre2 with
      | nil =>
        simp only [List.nil_append] at hds
        subst hds
        simpa using hat
      | cons y pre3 =>
        simp only [reduceCtorEq, if_false, List.getLast?_cons_cons]
        obtain ⟨c, hc⟩ : ∃ c, (y :: pre3).getLast? = some c := by
          cases hl : (y :: pre3).getLast? with
          | none => simp at hl
          | some c => exact ⟨c, rfl⟩
        rw [hc]
        apply JS.matchBare_after_word
        apply JS.isWordChar_of_isDigit
        apply List.all_eq_true.mp h
        rw [hds]
        exact List.mem_append_left _ (List.mem_of_getLast?_eq_some hc)

/-- The hash pattern in a hash sign followed by digits: the sign and up to
six digits when there are four digits or more, else no match. -/
theorem search_hash_hash_digits (ds : Str) (h : ds.all Char.isDigit = true) :
    JS.search (fun _ s => JS.matchHash s) none ('#' :: ds) =
      if 4 ≤ ds.length then some ('#' :: ds.take 6) else none := by
  have hat : JS.matchHash ('#' :: ds) =
      if 4 ≤ ds.length then some (1 + min 6 ds.length) else none := by
    simp [JS.matchHash, JS.digitRun_digits ds h]
  split_ifs with hlen
  · rw [if_pos hlen] at hat
    simp only [JS.search, hat, Nat.add_comm 1, List.take_succ_cons]
    congr 2
    rw [List.take_eq_take]
    simp
  · rw [if_neg hlen] at hat
    apply JS.search_eq_none
    intro pre post hsplit
    cases pre with
    | nil =>
      simp only [List.nil_append] at hsplit
      rw [← hsplit]
      exact hat
    | cons x pre2 =>
      simp only [List.cons_append, List.cons.injEq] at hsplit
      obtain ⟨_, hds⟩ := hsplit
      cases post with
      | nil => rfl
      | cons a post2 =>
        have ha : a.isDigit = true := by
          apply List.all_eq_true.mp h
          rw [hds]
          exact List.mem_append_right _ (List.mem_cons_self _ _)
        have hne : (a == '#') = false := by
          have h2 := (JS.isDigit_iff a).mp ha
          by_contra hc
          simp only [Bool.not_eq_false, beq_iff_eq] at hc
          rw [hc] at h2
          revert h2
          decide
        simp [JS.matchHash, hne]

/-- The value of `findOrderId` on a hash sign followed by digits, by the number of digits. -/
theorem findOrderId_hash_digits (ds : Str) (h : ds.all Char.isDigit = true) :
    findOrderId ('#' :: ds) =
      if ds.length < 4 then none
      else if ds.length = 4 then some ('#' :: ds)
      else if ds.length ≤ 8 then some ds
      else some ('#' :: ds.take 6) := by
  obtain ⟨ho1, ho2⟩ := search_ord_hash_digits ds h
  have hup : JS.toUpperCase ds = ds := JS.toUpperCase_digits ds h
  have hup6 : JS.toUpperCase ('#' :: ds.take 6) = '#' :: ds.take 6 := by
    have h6 : (ds.take 6).all Char.isDigit = true := by
      rw [List.all_eq_true]
      intro c hc
      exact List.all_eq_true.mp h c (List.mem_of_mem_take hc)
    have := JS.toUpperCase_digits (ds.take 6) h6
    simp only [JS.toUpperCase, List.map_cons] at this ⊢
    rw [this]
    rfl
  simp only [findOrderId, ho1, ho2, search_bare_hash_digits ds h, search_hash_hash_digits ds h]
  by_cases h4 : ds.length < 4
  · rw [if_pos h4, if_neg (by omega), if_neg (by omega)]
  · rw [if_neg h4]
    by_cases h44 : ds.length = 4
    · rw [if_pos h44, if_neg (by omega), if_pos (by omega)]
      simp only [hup6]
      rw [List.take_of_length_le (by omega)]
    · rw [if_neg h44]
      by_cases h8 : ds.length ≤ 8
      · rw [if_pos h8, if_pos (by omega)]
        simp only [hup]
      · rw [if_neg h8, if_neg (by omega), if_pos (by omega)]
        simp only [hup6]

end AdvancedProcessor

/-- Claim C29: for a text that is `#` followed by digits only,
`AdvancedProcessor.findOrderId` returns the digits without the `#` when there
are exactly five or six of them (and also seven or eight), because the
bare-number pattern is tried before the hash pattern. The result keeps the
`#` exactly when four digits follow it, or more than eight (then with the
first six digits); with fewer than four digits nothing is found. -/
theorem C29_hash_is_dropped (ds : Str) (hds : ds.all Char.isDigit = true) :
    (ds.length = 5 ∨ ds.length = 6 → AdvancedProcessor.findOrderId ('#' :: ds) = some ds) ∧
    AdvancedProcessor.findOrderId ('#' :: ds) =
      (if ds.length < 4 then none
       else if ds.length = 4 then some ('#' :: ds)
       else if ds.length ≤ 8 then some ds
       else some ('#' :: ds.take 6)) ∧
    ((∃ r, AdvancedProcessor.findOrderId ('#' :: ds) = some ('#' :: r)) ↔
      ds.length = 4 ∨ 8 < ds.length) := by
  have hval := AdvancedProcessor.findOrderId_hash_digits ds hds
  have hnot : ∀ r : Str, ds ≠ '#' :: r := by
    intro r hr
    have : ('#' : Char).isDigit = true := by
      apply List.all_eq_true.mp hds
      rw [hr]
      exact List.mem_cons_self _ _
    revert this
    decide
  refine ⟨?_, hval, ?_⟩
  · intro h56
    rw [hval, if_neg (by omega), if_neg (by omega), if_pos (by omega)]
  · rw [hval]
    constructor
    · rintro ⟨r, hr⟩
      by_contra hlen
      by_cases h4 : ds.length < 4
      · rw [if_pos h4] at hr
        simp at hr
      · rw [if_neg h4, if_neg (by omega), if_pos (by omega)] at hr
        exact hnot r (Option.some.inj hr)
    · rintro (h4 | h8)
      · exact ⟨ds, by rw [if_neg (by omega), if_pos h4]⟩
      · exact ⟨ds.take 6, by rw [if_neg (by omega), if_neg (by omega), if_neg (by omega)]⟩

/-- Witness of C29: the texts `#12345`, `#1234` and `#123456789`. -/
theorem C29_hash_is_dropped_witness :
    AdvancedProcessor.findOrderId "#12345".toList = some "12345".toList ∧
    AdvancedProcessor.findOrderId "#1234".toList = some "#1234".toList ∧
    AdvancedProcessor.findOrderId "#123456789".toList = some "#123456".toList :=
  ⟨(C29_hash_is_dropped "12345".toList (by decide)).1 (Or.inl (by decide)), by decide, by decide⟩

/-! ## The rule order of `GeminiAI.detectIntent` -/

namespace GeminiAI

/-- A text that includes `shipping` includes `hi`. -/
theorem includes_hi_of_shipping (s : Str) (h : JS.includes s "shipping".toList = true) :
    JS.includes s "hi".toList = true := by
  rw [JS.includes_iff_infix] at h ⊢
  have hin : "hi".toList <:+: "shipping".toList := ⟨['s'], "pping".toList, rfl⟩
  exact List.IsInfix.trans hin h

/-- A message whose lower-case form includes `hi` gets one of the first four intents. -/
theorem detectIntent_of_hi (message : Str)
    (h : JS.includes (JS.toLowerCase message) "hi".toList = true) :
    detectIntent message = "order_inquiry" ∨ detectIntent message = "refund_request" ∨
      detectIntent message = "complaint" ∨ detectIntent message = "greeting" := by
  simp only [detectIntent, h, Bool.or_true, Bool.true_or, if_true]
  split_ifs <;> simp

end GeminiAI

/-- Claim C30: for every message whose lower-case form includes `shipping`,
`GeminiAI.detectIntent` returns `order_inquiry`, `refund_request`,
`complaint` or `greeting`, and never `shipping_inquiry`: the text `shipping`
includes `hi`, so the greeting rule, or a rule before it, applies first. -/
theorem C30_shipping_is_never_detected (message : Str)
    (h : JS.includes (JS.toLowerCase message) "shipping".toList = true) :
    JS.includes (JS.toLowerCase message) "hi".toList = true ∧
    GeminiAI.detectIntent message ∈
      ["order_inquiry", "refund_request", "complaint", "greeting"] ∧
    GeminiAI.detectIntent message ≠ "shipping_inquiry" := by
  have hhi := GeminiAI.includes_hi_of_shipping _ h
  have hcases := GeminiAI.detectIntent_of_hi message hhi
  refine ⟨hhi, ?_, ?_⟩
  · simp only [List.mem_cons, List.mem_singleton, List.not_mem_nil, or_false]
    exact hcases
  · rcases hcases with h1 | h1 | h1 | h1 <;> rw [h1] <;> decide

/-- Witness of C30: a question about the cost of shipping is taken for a greeting. -/
theorem C30_shipping_is_never_detected_witness :
    JS.includes (JS.toLowerCase "What is the Shipping cost?".toList) "shipping".toList = true ∧
    GeminiAI.detectIntent "What is the Shipping cost?".toList = "greeting" ∧
    GeminiAI.detectIntent "What is the Shipping cost?".toList ≠ "shipping_inquiry" :=
  ⟨by decide, by decide,
    (C30_shipping_is_never_detected "What is the Shipping cost?".toList (by decide)).2.2⟩

/-! ## Token overlap over binary64 -/

namespace JS

theorem log2Go_le (fuel n : Nat) (hn : 1 ≤ n) : 2 ^ log2Go fuel n ≤ n := by
  induction fuel generalizing n with
  | zero => simpa [log2Go] using hn
  | succ f ih =>
    rw [log2Go]
    split_ifs with h
    · have h2 := ih (n / 2) (by omega)
      rw [pow_succ]
      omega
    · simpa using hn

theorem pow2_natCast (k : ℕ) : pow2 (k : ℤ) = ((2 ^ k : ℕ) : ℚ) := by
  simp [pow2]

theorem pow2_neg (k : ℕ) : pow2 (-(k : ℤ)) = 1 / ((2 ^ k : ℕ) : ℚ) := by
  cases k with
  | zero => simp [pow2]
  | succ k =>
    have h : ¬ (0 : ℤ) ≤ -((k + 1 : ℕ) : ℤ) := by omega
    simp only [pow2, h, if_false, neg_neg, Int.toNat_ofNat]

theorem roundHalfEven_natCast (m : ℕ) : roundHalfEven (m : ℚ) = m := by
  simp [roundHalfEven]

/-- A natural number up to `2^53` is a value of binary64. -/
theorem toBinary64_natCast (n : ℕ) (h : n ≤ 2 ^ 53) : toBinary64 (n : ℚ) = .finite (n : ℚ) := by
  rcases Nat.eq_zero_or_pos n with h0 | hpos
  · subst h0
    simp [toBinary64]
  have hL : 2 ^ floorLog2 n ≤ n := log2Go_le n n hpos
  have hL53 : floorLog2 n ≤ 53 := by
    by_contra hc
    have h1 : 2 ^ 54 ≤ 2 ^ floorLog2 n := Nat.pow_le_pow_right (by norm_num) (by omega)
    have h2 : (2 : ℕ) ^ 53 < 2 ^ 54 := by norm_num
    omega
  have hne : (n : ℚ) ≠ 0 := by exact_mod_cast (Nat.pos_iff_ne_zero.mp hpos)
  have habs : |(n : ℚ)| = n := abs_of_nonneg (Nat.cast_nonneg n)
  have hexp : exponentOf (n : ℚ) = (floorLog2 n : ℤ) := by
    have h1 : floorLog2 1 = 0 := by decide
    simp only [exponentOf, Rat.num_natCast, Int.natAbs_ofNat, Rat.den_natCast, h1,
      Nat.cast_zero, sub_zero, pow2_natCast]
    rw [if_pos (by exact_mod_cast hL)]
  have hbig : ¬ pow2 1024 ≤ (n : ℚ) := by
    have h1 : pow2 1024 = ((2 ^ 1024 : ℕ) : ℚ) := pow2_natCast 1024
    rw [h1, not_le]
    have h2 : n < 2 ^ 1024 := lt_of_le_of_lt h (by norm_num)
    exact_mod_cast h2
  have hneg : ¬ (n : ℚ) < 0 := not_lt.mpr (Nat.cast_nonneg n)
  rcases Nat.lt_or_ge (floorLog2 n) 53 with hlt | hge
  · obtain ⟨k, hk⟩ : ∃ k : ℕ, floorLog2 n + k = 52 := ⟨52 - floorLog2 n, by omega⟩
    have hmax : max (floorLog2 n : ℤ) (-1022) - 52 = -(k : ℤ) := by
      rw [max_eq_left (by omega)]
      omega
    have hpos2 : ((2 ^ k : ℕ) : ℚ) ≠ 0 := by positivity
    have hdiv : (n : ℚ) / (1 / ((2 ^ k : ℕ) : ℚ)) = ((n * 2 ^ k : ℕ) : ℚ) := by
      push_cast
      field_simp
    simp only [toBinary64, hne, if_false, habs, hexp, hmax, pow2_neg, hdiv,
      roundHalfEven_natCast, hneg]
    have hr : ((n * 2 ^ k : ℕ) : ℚ) * (1 / ((2 ^ k : ℕ) : ℚ)) = n := by
      push_cast
      field_simp
    rw [hr, if_neg hbig]
  · have hn : n = 2 ^ 53 := by
      have h1 : 2 ^ 53 ≤ 2 ^ floorLog2 n := Nat.pow_le_pow_right (by norm_num) hge
      omega
    subst hn
    decide!

end JS

namespace JS

/-- A read of a dictionary whose values were mapped finds the mapped value. -/
theorem get_map_values {κ α β : Type} [DecidableEq κ] (f : α → β) (d : List (κ × α)) (k : κ) :
    get (d.map (fun kv => (kv.1, f kv.2))) k = (get d k).map f := by
  induction d with
  | nil => rfl
  | cons e rest ih =>
    obtain ⟨k1, v1⟩ := e
    simp only [get] at ih
    by_cases h : k = k1
    · subst h
      simp [get, List.lookup]
    · have h2 : (k == k1) = false := by simpa using h
      simp [get, List.lookup, h2, ih]

end JS

namespace AdvancedProcessor.Binary64

/-- A read of the exact weights finds the exact value of the stored weight. -/
theorem get_exactWeights (w : List (Str × JS.Number)) (t : Str) :
    JS.get (exactWeights w) t = (JS.get w t).map exactValue :=
  JS.get_map_values exactValue w t

/-- The weight of a token under a mapping of positive integers: inherited
and no number, or a positive integer, the same as in exact arithmetic. -/
theorem weightOr1_exact (w : List (Str × JS.Number))
    (hw : ∀ kv ∈ w, ∃ n : ℕ, 0 < n ∧ kv.2 = JS.Number.finite n) (t : Str) :
    (weightOr1 w t = none ∧ AdvancedProcessor.weightOr1 (exactWeights w) t = 1) ∨
    ∃ n : ℕ, 0 < n ∧ weightOr1 w t = some (JS.Number.finite n) ∧
      AdvancedProcessor.weightOr1 (exactWeights w) t = n := by
  cases hg : JS.get w t with
  | some v =>
    obtain ⟨n, hn, hv⟩ := hw (t, v) (JS.mem_of_get_eq_some w t v hg)
    simp only at hv
    subst hv
    have hq : (n : ℚ) ≠ 0 := by exact_mod_cast (Nat.pos_iff_ne_zero.mp hn)
    refine Or.inr ⟨n, hn, ?_, ?_⟩
    · simp [weightOr1, hg, hq]
    · simp [AdvancedProcessor.weightOr1, get_exactWeights, hg, hq, exactValue]
  | none =>
    have hx : AdvancedProcessor.weightOr1 (exactWeights w) t = 1 := by
      simp [AdvancedProcessor.weightOr1, get_exactWeights, hg]
    by_cases hi : (JS.get JS.objectPrototype (String.mk t)).isSome = true
    · exact Or.inl ⟨by simp [weightOr1, hg, hi], hx⟩
    · exact Or.inr ⟨1, by norm_num, by simp [weightOr1, hg, hi], by simpa using hx⟩

/-- The exact shared weight under a mapping of positive integers is not negative. -/
theorem sharedWeight_exact_nonneg (w : List (Str × JS.Number))
    (hw : ∀ kv ∈ w, ∃ n : ℕ, 0 < n ∧ kv.2 = JS.Number.finite n) (L B : List Str) :
    0 ≤ sharedWeight L B (exactWeights w) := by
  unfold sharedWeight
  apply List.sum_nonneg
  intro x hx
  obtain ⟨t, _, rfl⟩ := List.mem_map.mp hx
  rcases weightOr1_exact w hw t with ⟨_, h⟩ | ⟨n, _, _, h⟩
  · rw [h]; norm_num
  · rw [h]; exact Nat.cast_nonneg n

/-- Once the accumulators are texts they stay texts. -/
theorem foldl_addWeight_none (w : List (Str × JS.Number)) (B L : List Str) :
    L.foldl
      (fun (acc : Option JS.Number × Option JS.Number) token =>
        if token ∈ B then
          (addWeight acc.1 (weightOr1 w token), addWeight acc.2 (weightOr1 w token))
        else acc)
      (none, none) = (none, none) := by
  induction L with
  | nil => rfl
  | cons t rest ih =>
    simp only [List.foldl_cons]
    by_cases ht : t ∈ B
    · rw [if_pos ht]
      simpa [addWeight] using ih
    · rw [if_neg ht]
      exact ih

/-- The loop of `tokenOverlap` over binary64 under a mapping of positive
integers: while the exact sum stays within `2^53` no addition rounds, and a
shared token with an inherited weight turns both accumulators into texts. -/
theorem foldl_addWeight (w : List (Str × JS.Number))
    (hw : ∀ kv ∈ w, ∃ n : ℕ, 0 < n ∧ kv.2 = JS.Number.finite n) (B : List Str) :
    ∀ (L : List Str) (s : ℕ), (s : ℚ) + sharedWeight L B (exactWeights w) ≤ 2 ^ 53 →
    L.foldl
      (fun (acc : Option JS.Number × Option JS.Number) token =>
        if token ∈ B then
          (addWeight acc.1 (weightOr1 w token), addWeight acc.2 (weightOr1 w token))
        else acc)
      (some (JS.Number.finite s), some (JS.Number.finite s)) =
      if sharesInherited L B w = true then (none, none)
      else (some (JS.Number.finite (s + sharedWeight L B (exactWeights w))),
        some (JS.Number.finite (s + sharedWeight L B (exactWeights w)))) := by
  intro L
  induction L with
  | nil =>
    intro s _
    simp [sharesInherited, sharedWeight]
  | cons t rest ih =>
    intro s hs
    simp only [List.foldl_cons]
    by_cases ht : t ∈ B
    · have hsw : sharedWeight (t :: rest) B (exactWeights w) =
          AdvancedProcessor.weightOr1 (exactWeights w) t + sharedWeight rest B (exactWeights w) := by
        simp [sharedWeight, List.filter_cons, ht]
      have hsi : sharesInherited (t :: rest) B w =
          ((weightOr1 w t).isNone || sharesInherited rest B w) := by
        simp [sharesInherited, ht]
      have hnn := sharedWeight_exact_nonneg w hw rest B
      rw [if_pos ht, hsw, hsi]
      rw [hsw] at hs
      rcases weightOr1_exact w hw t with ⟨h1, _⟩ | ⟨n, hn, h1, h2⟩
      · rw [h1]
        simp only [addWeight, Option.isNone_none, Bool.true_or, if_true]
        exact foldl_addWeight_none w B rest
      · rw [h1, h2]
        rw [h2] at hs
        have hle : s + n ≤ 2 ^ 53 := by
          have h3 : ((s + n : ℕ) : ℚ) ≤ 2 ^ 53 := by
            push_cast
            linarith
          exact_mod_cast h3
        have hadd : (JS.Number.finite (s : ℚ)).add (JS.Number.finite (n : ℚ)) =
            JS.Number.finite ((s + n : ℕ) : ℚ) := by
          simp only [JS.Number.add]
          rw [← Nat.cast_add]
          exact JS.toBinary64_natCast (s + n) hle
        have hstep : addWeight (some (JS.Number.finite (s : ℚ))) (some (JS.Number.finite (n : ℚ))) =
            some (JS.Number.finite ((s + n : ℕ) : ℚ)) := by
          simp only [addWeight, hadd]
        rw [hstep, ih (s + n) (by push_cast; linarith)]
        simp only [Option.isNone_some, Bool.false_or]
        push_cast
        simp only [add_assoc]
    · have hsw : sharedWeight (t :: rest) B (exactWeights w) =
          sharedWeight rest B (exactWeights w) := by
        simp [sharedWeight, List.filter_cons, ht]
      have hsi : sharesInherited (t :: rest) B w = sharesInherited rest B w := by
        simp [sharesInherited, ht]
      rw [if_neg ht, hsw, hsi]
      rw [hsw] at hs
      exact ih s hs

/-- Method `tokenOverlap` over binary64 in closed form, under a mapping of
positive integers whose exact shared weight stays within `2^53`: the exact
quotient, rounded once. -/
theorem tokenOverlap_binary64_eq (a b : Str) (w : List (Str × JS.Number))
    (hw : ∀ kv ∈ w, ∃ n : ℕ, 0 < n ∧ kv.2 = JS.Number.finite n)
    (hsum : sharedWeight (tokens a) (tokens b) (exactWeights w) ≤ 2 ^ 53) :
    tokenOverlap a b w =
      if (tokens a).length = 0 ∨ (tokens b).length = 0 then JS.Number.finite 0
      else if sharesInherited (tokens a) (tokens b) w = true then JS.Number.finite 0
      else if 0 < sharedWeight (tokens a) (tokens b) (exactWeights w) then
        JS.toBinary64 (sharedWeight (tokens a) (tokens b) (exactWeights w) /
          ((max (tokens a).length (tokens b).length : ℕ) : ℚ))
      else JS.Number.finite 0 := by
  have hfold := foldl_addWeight w hw (tokens b) (tokens a) 0 (by simpa using hsum)
  simp only [Nat.cast_zero, zero_add] at hfold
  unfold tokenOverlap
  simp only [hfold]
  by_cases h0 : (tokens a).length = 0 ∨ (tokens b).length = 0
  · rw [if_pos h0, if_pos h0]
  · rw [if_neg h0, if_neg h0]
    by_cases h1 : sharesInherited (tokens a) (tokens b) w = true
    · simp [h1]
    · simp only [h1, Bool.false_eq_true, if_false, JS.Number.isPositive, decide_eq_true_eq,
        JS.Number.divNat]

/-- Under a mapping of positive integers whose exact shared weight stays within
`2^53`, and without a shared token of inherited weight, the method over
binary64 returns the value of the exact method, rounded once. -/
theorem tokenOverlap_binary64_rounds_exact (a b : Str) (w : List (Str × JS.Number))
    (hw : ∀ kv ∈ w, ∃ n : ℕ, 0 < n ∧ kv.2 = JS.Number.finite n)
    (hsum : sharedWeight (tokens a) (tokens b) (exactWeights w) ≤ 2 ^ 53)
    (hown : sharesInherited (tokens a) (tokens b) w = false) :
    tokenOverlap a b w = JS.toBinary64 (AdvancedProcessor.tokenOverlap a b (exactWeights w)) := by
  have hzero : JS.toBinary64 0 = JS.Number.finite 0 := by simp [JS.toBinary64]
  rw [tokenOverlap_binary64_eq a b w hw hsum, AdvancedProcessor.tokenOverlap_eq, hown]
  by_cases h0 : (tokens a).length = 0 ∨ (tokens b).length = 0
  · rw [if_pos h0, if_pos h0, hzero]
  · rw [if_neg h0, if_neg h0]
    by_cases h1 : 0 < sharedWeight (tokens a) (tokens b) (exactWeights w)
    · simp [h1]
    · simp [h1, hzero]

/-- A shared token with an inherited weight is shared from either side. -/
theorem sharesInherited_comm (A B : List Str) (w : List (Str × JS.Number)) :
    sharesInherited A B w = sharesInherited B A w := by
  rw [Bool.eq_iff_iff]
  simp only [sharesInherited, List.any_eq_true, Bool.and_eq_true, decide_eq_true_eq]
  constructor
  · rintro ⟨t, h1, h2, h3⟩
    exact ⟨t, h2, h1, h3⟩
  · rintro ⟨t, h1, h2, h3⟩
    exact ⟨t, h2, h1, h3⟩

end AdvancedProcessor.Binary64

/-- Claim C14, amended. For all texts `a` and `b` and every weight mapping
`w` whose weights are positive integers, where the weights of the tokens
that the two texts share add up to at most `2^53`,
`AdvancedProcessor.tokenOverlap(a, b, w) = AdvancedProcessor.tokenOverlap(b, a, w)`
as numbers of binary64; and `tokenOverlap(a, b) = tokenOverlap(b, a)` for
the function of `promptProcessor`, for all texts. -/
theorem C14_tokenOverlap_symmetric (a b : Str) (w : List (Str × JS.Number))
    (hw : ∀ kv ∈ w, ∃ n : ℕ, 0 < n ∧ kv.2 = JS.Number.finite n)
    (hsum : AdvancedProcessor.sharedWeight (AdvancedProcessor.tokens a)
      (AdvancedProcessor.tokens b) (AdvancedProcessor.Binary64.exactWeights w) ≤ 2 ^ 53) :
    AdvancedProcessor.Binary64.tokenOverlap a b w =
      AdvancedProcessor.Binary64.tokenOverlap b a w ∧
    PromptProcessor.Binary64.tokenOverlap a b = PromptProcessor.Binary64.tokenOverlap b a := by
  constructor
  · have hcomm := AdvancedProcessor.sharedWeight_comm (AdvancedProcessor.tokens a)
      (AdvancedProcessor.tokens b) (AdvancedProcessor.Binary64.exactWeights w)
      (AdvancedProcessor.tokens_nodup a) (AdvancedProcessor.tokens_nodup b)
    rw [AdvancedProcessor.Binary64.tokenOverlap_binary64_eq a b w hw hsum,
      AdvancedProcessor.Binary64.tokenOverlap_binary64_eq b a w hw (by rw [← hcomm]; exact hsum),
      ← hcomm, AdvancedProcessor.Binary64.sharesInherited_comm (AdvancedProcessor.tokens b),
      max_comm (AdvancedProcessor.tokens b).length]
    by_cases h : (AdvancedProcessor.tokens a).length = 0 ∨ (AdvancedProcessor.tokens b).length = 0
    · rw [if_pos h, if_pos h.symm]
    · have h3 : ¬ ((AdvancedProcessor.tokens b).length = 0 ∨
          (AdvancedProcessor.tokens a).length = 0) := fun h2 => h h2.symm
      rw [if_neg h, if_neg h3]
  · have hA : (PromptProcessor.tokens a).Nodup := JS.setOf_nodup _
    have hB : (PromptProcessor.tokens b).Nodup := JS.setOf_nodup _
    unfold PromptProcessor.Binary64.tokenOverlap
    simp only [PromptProcessor.foldl_common, zero_add]
    rw [(JS.perm_filter_mem _ _ hA hB).length_eq, max_comm (PromptProcessor.tokens a).length]
    by_cases h : (PromptProcessor.tokens a).length = 0 ∨ (PromptProcessor.tokens b).length = 0
    · rw [if_pos h, if_pos h.symm]
    · have h3 : ¬ ((PromptProcessor.tokens b).length = 0 ∨
          (PromptProcessor.tokens a).length = 0) := fun h2 => h h2.symm
      rw [if_neg h, if_neg h3]

/-- Witness of C14: two texts that share the tokens `order` and `status`,
under the context weights of 2. -/
theorem C14_tokenOverlap_symmetric_witness :
    AdvancedProcessor.Binary64.tokenOverlap "where is my order status".toList
        "order status please".toList AdvancedProcessor.Binary64.orderWeights =
      AdvancedProcessor.Binary64.tokenOverlap "order status please".toList
        "where is my order status".toList AdvancedProcessor.Binary64.orderWeights ∧
    PromptProcessor.Binary64.tokenOverlap "where is my order status".toList
        "order status please".toList =
      PromptProcessor.Binary64.tokenOverlap "order status please".toList
        "where is my order status".toList :=
  C14_tokenOverlap_symmetric "where is my order status".toList "order status please".toList
    AdvancedProcessor.Binary64.orderWeights
    (by
      intro kv hkv
      simp only [AdvancedProcessor.Binary64.orderWeights, List.mem_cons, List.mem_singleton,
        List.not_mem_nil, or_false] at hkv
      rcases hkv with h | h | h <;> exact ⟨2, by norm_num, by rw [h]; norm_num⟩)
    (by decide!)

/-- Counterexample to C14 as stated: under the weights
`{ a: 0.1, b: 0.2, c: 0.3 }` the overlap of `a b c` with `c b a` adds
`0.1 + 0.2 + 0.3` and is `0.20000000000000004`, the overlap of `c b a` with
`a b c` adds `0.3 + 0.2 + 0.1` and is `0.19999999999999998`. -/
theorem C14_fractional_weights_differ :
    AdvancedProcessor.Binary64.tokenOverlap "a b c".toList "c b a".toList
        AdvancedProcessor.Binary64.fractionalWeights =
      JS.Number.finite (7205759403792795 / 36028797018963968) ∧
    AdvancedProcessor.Binary64.tokenOverlap "c b a".toList "a b c".toList
        AdvancedProcessor.Binary64.fractionalWeights =
      JS.Number.finite (7205759403792793 / 36028797018963968) ∧
    AdvancedProcessor.Binary64.tokenOverlap "a b c".toList "c b a".toList
        AdvancedProcessor.Binary64.fractionalWeights ≠
      AdvancedProcessor.Binary64.tokenOverlap "c b a".toList "a b c".toList
        AdvancedProcessor.Binary64.fractionalWeights := by
  decide!
